import Mathlib

/-!
# Verification of the production PDF-analysis pipeline

A shallow embedding of `production_analyzer.py`: the JSON recovery parser,
the GPT extraction client's retry loop, the processed-PDF tracker, and the
batch orchestrator, together with proofs and refutations of the frozen
behavioural claims about them.

Strings from the Python side are modelled as `List Char` wherever the code
scans or rewrites text, and as `String` where the code only stores or
compares whole values.  Python's `json` module is modelled by an executable
parser (`loads`) covering the fragment the analyzer exchanges: strings with
the simple escapes, integers, booleans, `null`, arrays and objects, with
strict-mode rejection of control characters and trailing commas, full-input
consumption, and last-wins duplicate keys.  `\uXXXX` escapes and floats are
outside the modelled fragment; no theorem below touches them.
-/

namespace PdfExtract

/-! ## Python string primitives

`str.strip()` (default), `str.lower()`, truthiness of strings, and
non-overlapping substring counting, on the character-list representation. -/

/-- The characters Python's default `str.strip()` removes. -/
def pyIsSpace (c : Char) : Bool :=
  c = ' ' || c = '\t' || c = '\n' || c = '\r' || c = '\x0b' || c = '\x0c'

/-- `str.strip()` on a character list. -/
def pyStripL (cs : List Char) : List Char :=
  ((cs.dropWhile pyIsSpace).reverse.dropWhile pyIsSpace).reverse

/-- `str.strip()` on a `String`. -/
def pyStrip (s : String) : String := String.mk (pyStripL s.data)

/-- `str.lower()` (the analyzer only feeds it ASCII folder names). -/
def pyLower (s : String) : String := String.mk (s.data.map Char.toLower)

/-- `str.startswith(prefix)`. -/
def pyStartsWith (s pre : String) : Bool := pre.data.isPrefixOf s.data

/-- The scan of Python `str.split(sep)` for a non-empty separator:
leftmost, non-overlapping separator occurrences cut the text.  The scan
consumes at least one character per step, so the fuel the wrapper
supplies (the text length) never runs out; the fuel-exhausted fallback is
unreachable. -/
def splitGo (s0 : Char) (srest : List Char) : Nat → List Char → List Char → List (List Char)
  | _, [], acc => [acc.reverse]
  | 0, cs, acc => [acc.reverse ++ cs]
  | fuel + 1, c :: rest, acc =>
      if (s0 :: srest).isPrefixOf (c :: rest) then
        acc.reverse :: splitGo s0 srest fuel (rest.drop srest.length) []
      else splitGo s0 srest fuel rest (c :: acc)

/-- Python `str.split(sep)` (the analyzer only splits on the non-empty
fence markers). -/
def pySplit (s sep : String) : List String :=
  match sep.data with
  | [] => [s]
  | s0 :: srest => (splitGo s0 srest s.data.length s.data []).map String.mk

/-! ## The JSON value model -/

/-- A parsed JSON value, standing for the Python object `json.loads`
returns: `str`/`int`/`bool`/`None`/`list`/`dict`. -/
inductive Json where
  | str (s : String)
  | num (n : Int)
  | bool (b : Bool)
  | null
  | arr (elems : List Json)
  | obj (members : List (String × Json))

mutual

/-- Structural decidable equality for `Json` (the derive handler does
not support this nested inductive). -/
def Json.decEq : (a b : Json) → Decidable (a = b)
  | .str x, .str y =>
      if h : x = y then isTrue (by rw [h]) else isFalse (fun hh => h (Json.str.inj hh))
  | .str x, .num y => isFalse (fun h => Json.noConfusion h)
  | .str x, .bool y => isFalse (fun h => Json.noConfusion h)
  | .str x, .null => isFalse (fun h => Json.noConfusion h)
  | .str x, .arr y => isFalse (fun h => Json.noConfusion h)
  | .str x, .obj y => isFalse (fun h => Json.noConfusion h)
  | .num x, .str y => isFalse (fun h => Json.noConfusion h)
  | .num x, .num y =>
      if h : x = y then isTrue (by rw [h]) else isFalse (fun hh => h (Json.num.inj hh))
  | .num x, .bool y => isFalse (fun h => Json.noConfusion h)
  | .num x, .null => isFalse (fun h => Json.noConfusion h)
  | .num x, .arr y => isFalse (fun h => Json.noConfusion h)
  | .num x, .obj y => isFalse (fun h => Json.noConfusion h)
  | .bool x, .str y => isFalse (fun h => Json.noConfusion h)
  | .bool x, .num y => isFalse (fun h => Json.noConfusion h)
  | .bool x, .bool y =>
      if h : x = y then isTrue (by rw [h]) else isFalse (fun hh => h (Json.bool.inj hh))
  | .bool x, .null => isFalse (fun h => Json.noConfusion h)
  | .bool x, .arr y => isFalse (fun h => Json.noConfusion h)
  | .bool x, .obj y => isFalse (fun h => Json.noConfusion h)
  | .null, .str y => isFalse (fun h => Json.noConfusion h)
  | .null, .num y => isFalse (fun h => Json.noConfusion h)
  | .null, .bool y => isFalse (fun h => Json.noConfusion h)
  | .null, .null => isTrue rfl
  | .null, .arr y => isFalse (fun h => Json.noConfusion h)
  | .null, .obj y => isFalse (fun h => Json.noConfusion h)
  | .arr x, .str y => isFalse (fun h => Json.noConfusion h)
  | .arr x, .num y => isFalse (fun h => Json.noConfusion h)
  | .arr x, .bool y => isFalse (fun h => Json.noConfusion h)
  | .arr x, .null => isFalse (fun h => Json.noConfusion h)
  | .arr x, .arr y =>
      match Json.decEqList x y with
      | isTrue h => isTrue (by rw [h])
      | isFalse h => isFalse (fun hh => h (Json.arr.inj hh))
  | .arr x, .obj y => isFalse (fun h => Json.noConfusion h)
  | .obj x, .str y => isFalse (fun h => Json.noConfusion h)
  | .obj x, .num y => isFalse (fun h => Json.noConfusion h)
  | .obj x, .bool y => isFalse (fun h => Json.noConfusion h)
  | .obj x, .null => isFalse (fun h => Json.noConfusion h)
  | .obj x, .arr y => isFalse (fun h => Json.noConfusion h)
  | .obj x, .obj y =>
      match Json.decEqPairs x y with
      | isTrue h => isTrue (by rw [h])
      | isFalse h => isFalse (fun hh => h (Json.obj.inj hh))

/-- Decidable equality for lists of `Json`. -/
def Json.decEqList : (a b : List Json) → Decidable (a = b)
  | [], [] => isTrue rfl
  | [], _ :: _ => isFalse (fun h => List.noConfusion h)
  | _ :: _, [] => isFalse (fun h => List.noConfusion h)
  | x :: xs, y :: ys =>
      match Json.decEq x y with
      | isFalse h => isFalse (fun hh => h (List.cons.inj hh).1)
      | isTrue h1 =>
          match Json.decEqList xs ys with
          | isTrue h2 => isTrue (by rw [h1, h2])
          | isFalse h2 => isFalse (fun hh => h2 (List.cons.inj hh).2)

/-- Decidable equality for `Json` object member lists. -/
def Json.decEqPairs : (a b : List (String × Json)) → Decidable (a = b)
  | [], [] => isTrue rfl
  | [], _ :: _ => isFalse (fun h => List.noConfusion h)
  | _ :: _, [] => isFalse (fun h => List.noConfusion h)
  | (k, v) :: xs, (k2, v2) :: ys =>
      if hk : k = k2 then
        match Json.decEq v v2 with
        | isFalse h => isFalse (fun hh => h (congrArg Prod.snd (List.cons.inj hh).1))
        | isTrue h1 =>
            match Json.decEqPairs xs ys with
            | isTrue h2 => isTrue (by rw [hk, h1, h2])
            | isFalse h2 => isFalse (fun hh => h2 (List.cons.inj hh).2)
      else isFalse (fun hh => hk (congrArg Prod.fst (List.cons.inj hh).1))

end

instance : DecidableEq Json := Json.decEq

/-- `dict[k] = v` on the association-list model of a Python dict: replace
the value at an existing key in place, else append. -/
def dictInsert (d : List (String × Json)) (k : String) (v : Json) :
    List (String × Json) :=
  match d with
  | [] => [(k, v)]
  | (k', v') :: rest =>
      if k' = k then (k', v) :: rest else (k', v') :: dictInsert rest k v

/-- Building a dict from parsed member pairs, later pairs winning, as
Python's JSON object hook does. -/
def collapseDict (pairs : List (String × Json)) : List (String × Json) :=
  pairs.foldl (fun d (kv : String × Json) => dictInsert d kv.1 kv.2) []

/-- `dict.get(k, default)`. -/
def dictGet (d : List (String × Json)) (k : String) (dflt : Json) : Json :=
  match d.lookup k with
  | some v => v
  | none => dflt

/-! ## The `json.loads` model -/

/-- JSON whitespace (the four characters `json.loads` skips). -/
def jsonWs (c : Char) : Bool :=
  c = ' ' || c = '\t' || c = '\n' || c = '\r'

/-- Skip JSON whitespace. -/
def skipWs (cs : List Char) : List Char := cs.dropWhile jsonWs

/-- The value of a simple escape character, `none` for escapes outside the
modelled fragment. -/
def escChar (c : Char) : Option Char :=
  if c = '"' then some '"'
  else if c = '\\' then some '\\'
  else if c = '/' then some '/'
  else if c = 'n' then some '\n'
  else if c = 't' then some '\t'
  else if c = 'r' then some '\r'
  else if c = 'b' then some '\x08'
  else if c = 'f' then some '\x0c'
  else none

/-- Parse the body of a JSON string (the opening quote already consumed),
returning the decoded characters and the remainder.  Strict mode: raw
control characters are rejected. -/
def parseStrChars : List Char → Option (List Char × List Char)
  | [] => none
  | '"' :: rest => some ([], rest)
  | '\\' :: c :: rest =>
      match escChar c with
      | some e =>
          match parseStrChars rest with
          | some (l, r) => some (e :: l, r)
          | none => none
      | none => none
  | '\\' :: [] => none
  | c :: rest =>
      if c.toNat < 0x20 then none
      else
        match parseStrChars rest with
        | some (l, r) => some (c :: l, r)
        | none => none

/-- Parse a JSON string body into a `String`. -/
def parseStringBody (cs : List Char) : Option (String × List Char) :=
  match parseStrChars cs with
  | some (l, r) => some (String.mk l, r)
  | none => none

/-- Digits to a natural number, leftmost first. -/
def digitsToNat (ds : List Char) : Nat :=
  ds.foldl (fun n c => n * 10 + (c.toNat - '0'.toNat)) 0

/-- Parse an integer literal (optional minus sign, decimal digits). -/
def parseNumber (cs : List Char) : Option (Json × List Char) :=
  match cs with
  | '-' :: rest =>
      let ds := rest.takeWhile Char.isDigit
      if ds.isEmpty then none
      else some (.num (-(digitsToNat ds : Int)), rest.dropWhile Char.isDigit)
  | _ =>
      let ds := cs.takeWhile Char.isDigit
      if ds.isEmpty then none
      else some (.num (digitsToNat ds : Int), cs.dropWhile Char.isDigit)

mutual

/-- Parse one JSON value.  `fuel` bounds the recursion depth; `loads`
supplies enough for any input (each recursive call follows the consumption
of at least one character). -/
def parseValue : Nat → List Char → Option (Json × List Char)
  | 0, _ => none
  | fuel + 1, cs =>
      match skipWs cs with
      | [] => none
      | '"' :: rest =>
          match parseStringBody rest with
          | some (s, r) => some (.str s, r)
          | none => none
      | '[' :: rest =>
          match skipWs rest with
          | ']' :: r => some (.arr [], r)
          | _ =>
              match parseElems fuel rest with
              | some (l, r) => some (.arr l, r)
              | none => none
      | '{' :: rest =>
          match skipWs rest with
          | '}' :: r => some (.obj [], r)
          | _ =>
              match parseMembers fuel rest with
              | some (pairs, r) => some (.obj (collapseDict pairs), r)
              | none => none
      | 't' :: 'r' :: 'u' :: 'e' :: r => some (.bool true, r)
      | 'f' :: 'a' :: 'l' :: 's' :: 'e' :: r => some (.bool false, r)
      | 'n' :: 'u' :: 'l' :: 'l' :: r => some (.null, r)
      | other => parseNumber other

/-- Parse a non-empty comma-separated element list up to and including the
closing `]`. -/
def parseElems : Nat → List Char → Option (List Json × List Char)
  | 0, _ => none
  | fuel + 1, cs =>
      match parseValue fuel cs with
      | none => none
      | some (v, r) =>
          match skipWs r with
          | ',' :: r2 =>
              match parseElems fuel r2 with
              | some (l, r3) => some (v :: l, r3)
              | none => none
          | ']' :: r2 => some ([v], r2)
          | _ => none

/-- Parse a non-empty `"key": value` member list up to and including the
closing `}`. -/
def parseMembers : Nat → List Char → Option (List (String × Json) × List Char)
  | 0, _ => none
  | fuel + 1, cs =>
      match skipWs cs with
      | '"' :: rest =>
          match parseStringBody rest with
          | none => none
          | some (k, r) =>
              match skipWs r with
              | ':' :: r2 =>
                  match parseValue fuel r2 with
                  | none => none
                  | some (v, r3) =>
                      match skipWs r3 with
                      | ',' :: r4 =>
                          match parseMembers fuel r4 with
                          | some (l, r5) => some ((k, v) :: l, r5)
                          | none => none
                      | '}' :: r4 => some ([(k, v)], r4)
                      | _ => none
              | _ => none
      | _ => none

end

/-- `json.loads` on a character list: parse one value and require that only
whitespace remains ("Extra data" otherwise). -/
def loads (cs : List Char) : Option Json :=
  match parseValue (2 * cs.length + 2) cs with
  | some (v, rest) => if skipWs rest = [] then some v else none
  | none => none

/-! ## Python `str()` on JSON-shaped values

The analyzer wraps several dictionary fields in `str(...)`; for values the
model can produce those are strings, integers, booleans, `None`, lists and
dicts.  `str` of a container is its `repr`; quote-escaping inside `repr` of
strings is not modelled (no theorem evaluates `str` on containers). -/

mutual

/-- Python `repr` on a JSON-shaped value (the fragment `str()` needs). -/
def pyRepr : Json → String
  | .str s => "\x27" ++ s ++ "\x27"
  | .num n => toString n
  | .bool b => if b then "True" else "False"
  | .null => "None"
  | .arr l => "[" ++ pyReprList l ++ "]"
  | .obj d => "\x7b" ++ pyReprMembers d ++ "\x7d"

/-- `repr` of list elements, comma-separated. -/
def pyReprList : List Json → String
  | [] => ""
  | [x] => pyRepr x
  | x :: xs => pyRepr x ++ ", " ++ pyReprList xs

/-- `repr` of dict members, comma-separated. -/
def pyReprMembers : List (String × Json) → String
  | [] => ""
  | [(k, v)] => "\x27" ++ k ++ "\x27: " ++ pyRepr v
  | (k, v) :: xs => "\x27" ++ k ++ "\x27: " ++ pyRepr v ++ ", " ++ pyReprMembers xs

end

/-- Python `str()`. -/
def pyStr : Json → String
  | .str s => s
  | v => pyRepr v

/-- Python truthiness of a JSON-shaped value. -/
def jsonTruthy : Json → Bool
  | .str s => !s.isEmpty
  | .num n => n ≠ 0
  | .bool b => b
  | .null => false
  | .arr l => !l.isEmpty
  | .obj d => !d.isEmpty

/-! ## The recovery strategies of `parse_json_with_recovery`

Strategy 2 uses `re.sub(r',\s*([}\]])', r'\1', content)`: the leftmost,
non-overlapping occurrences of a comma, optional whitespace and a closing
bracket are replaced by the bracket alone, scanning resuming after the
bracket.  `removeTrailingCommas` is that one-pass scan. -/

/-- `\s` of Python's `re` module (ASCII). -/
def regexWs (c : Char) : Bool :=
  c = ' ' || c = '\t' || c = '\n' || c = '\r' || c = '\x0b' || c = '\x0c'

/-- After a comma: skip `\s*`; if a closing bracket follows, return it and
the remainder after it (the regex match completes), else `none`. -/
def wsBracket : List Char → Option (Char × List Char)
  | [] => none
  | c :: rest =>
      if c = '}' || c = ']' then some (c, rest)
      else if regexWs c then wsBracket rest
      else none

theorem wsBracket_length_lt :
    ∀ {cs : List Char} {b : Char} {r : List Char},
      wsBracket cs = some (b, r) → r.length < cs.length := by
  intro cs
  induction cs with
  | nil => intro b r h; simp [wsBracket] at h
  | cons c rest ih =>
      intro b r h
      by_cases hb : (c = '}' || c = ']') = true
      · simp [wsBracket, hb] at h
        simp [h.2]
      · by_cases hw : regexWs c = true
        · simp [wsBracket, hb, hw] at h
          exact Nat.lt_succ_of_lt (ih h)
        · simp [wsBracket, hb, hw] at h

/-- The scan of `re.sub(r',\s*([}\]])', r'\1', content)`: each step
consumes at least one character, so the wrapper\x27s fuel (the text length)
never runs out. -/
def removeTCGo : Nat → List Char → List Char
  | _, [] => []
  | 0, cs => cs
  | fuel + 1, ',' :: rest =>
      (match wsBracket rest with
       | some (b, r) => b :: removeTCGo fuel r
       | none => ',' :: removeTCGo fuel rest)
  | fuel + 1, c :: rest => c :: removeTCGo fuel rest

/-- The model of `re.sub(r',\s*([}\]])', r'\1', content)`. -/
def removeTrailingCommas (cs : List Char) : List Char :=
  removeTCGo cs.length cs

/-- Non-overlapping occurrence count of the two-character pattern `[a, b]`,
as Python's `str.count` computes it. -/
def countSub2 (a b : Char) : List Char → Nat
  | [] => 0
  | [_] => 0
  | x :: y :: rest =>
      if x = a ∧ y = b then 1 + countSub2 a b rest
      else countSub2 a b (y :: rest)

/-- `fixed_content.count('"') - fixed_content.count('\\"')` is odd.  (The
quote count always dominates, each escaped quote containing one quote.) -/
def quoteParityOdd (cs : List Char) : Bool :=
  (cs.count '"' - countSub2 '\\' '"' cs) % 2 = 1

/-- `find_last_complete_json`: the longest prefix that parses as JSON,
found by shrinking from the end; `none` when no prefix parses. -/
def flcGo (cs : List Char) : Nat → Option (List Char)
  | 0 => none
  | i + 1 =>
      let t := cs.take (i + 1)
      if (loads t).isSome then some t else flcGo cs i

/-- `ProductionPDFAnalyzer.find_last_complete_json`. -/
def find_last_complete_json (cs : List Char) : Option (List Char) :=
  flcGo cs cs.length

/-- Strategy 1: direct `json.loads`. -/
def strategy1 (s : String) : Option Json := loads s.data

/-- Strategy 2: strip trailing commas; when the (unescaped) quote count is
odd, parse the longest valid prefix instead; otherwise parse the repaired
text. -/
def strategy2 (s : String) : Option Json :=
  let fixed := removeTrailingCommas s.data
  if fixed.count '"' ≠ 0 ∧ quoteParityOdd fixed then
    match find_last_complete_json fixed with
    | some t => loads t
    | none => loads fixed
  else loads fixed

/-- The span `re.search(r'\[.*\]', content, re.DOTALL)` matches: from the
first `[` that has a `]` somewhere after it, through the last `]` of the
whole text (greedy `.*`). -/
def firstArraySpan (cs : List Char) : Option (List Char) :=
  match cs with
  | [] => none
  | '[' :: post =>
      match (post.reverse.findIdx? (· = ']')) with
      | some rk => some ('[' :: post.take (post.length - rk))
      | none => none
  | _ :: rest => firstArraySpan rest

/-- Strategy 3: extract the bracketed span and parse only it. -/
def strategy3 (s : String) : Option Json :=
  match firstArraySpan s.data with
  | some span => loads span
  | none => none

/-! ## Strategy 4: object-level salvage

`re.findall(r'\{[^{}]*(?:\{[^{}]*\}[^{}]*)*\}', content)`: each match is a
brace-delimited region tolerating one level of nested braces; matches are
leftmost and non-overlapping, and a failed start position is simply
advanced past. -/

/-- Split off the longest brace-free prefix. -/
def spanNonBrace (cs : List Char) : List Char × List Char :=
  (cs.takeWhile (fun c => !(c = '{' || c = '}')),
   cs.dropWhile (fun c => !(c = '{' || c = '}')))

theorem spanNonBrace_snd_length_le (cs : List Char) :
    (spanNonBrace cs).2.length ≤ cs.length := by
  simpa [spanNonBrace] using (List.dropWhile_sublist (l := cs) _).length_le

/-- Continue an object match positioned after a brace-free run, returning
how many characters the rest of the match consumes: accept the closing
`}`, or one nested `{...}` followed by a brace-free run, repeated.  Each
step consumes at least two characters, so the wrapper\x27s fuel never runs
out. -/
def matchObjLoop : Nat → List Char → Option Nat
  | _, [] => none
  | _, '}' :: _ => some 1
  | 0, _ => none
  | fuel + 1, '{' :: r =>
      (match (spanNonBrace r).2 with
       | '}' :: r2 =>
           (match matchObjLoop fuel (spanNonBrace r2).2 with
            | some n =>
                some (1 + (spanNonBrace r).1.length + 1 + (spanNonBrace r2).1.length + n)
            | none => none)
       | _ => none)
  | _ + 1, _ :: _ => none

/-- Try the object pattern at the current position, returning the length
of the match. -/
def matchObj (cs : List Char) : Option Nat :=
  match cs with
  | '{' :: r =>
      (match matchObjLoop cs.length (spanNonBrace r).2 with
       | some n => some (1 + (spanNonBrace r).1.length + n)
       | none => none)
  | _ => none

/-- `re.findall` of the object pattern: scan left to right, emitting each
match and resuming after it; on failure advance one position.  A match is
at least one character, so the wrapper\x27s fuel never runs out. -/
def findObjectsGo : Nat → List Char → List (List Char)
  | _, [] => []
  | 0, _ => []
  | fuel + 1, c :: rest =>
      if c = '{' then
        (match matchObj (c :: rest) with
         | some n => (c :: rest).take n :: findObjectsGo fuel ((c :: rest).drop n)
         | none => findObjectsGo fuel rest)
      else findObjectsGo fuel rest

/-- The full left-to-right `findall` scan. -/
def findObjects (cs : List Char) : List (List Char) :=
  findObjectsGo cs.length cs

instance {e a : Type} [DecidableEq e] [DecidableEq a] : DecidableEq (Except e a) :=
  fun x y =>
    match x, y with
    | .ok v, .ok w =>
        if h : v = w then isTrue (by rw [h]) else isFalse (fun hh => h (Except.ok.inj hh))
    | .error v, .error w =>
        if h : v = w then isTrue (by rw [h]) else isFalse (fun hh => h (Except.error.inj hh))
    | .ok _, .error _ => isFalse (fun hh => Except.noConfusion hh)
    | .error _, .ok _ => isFalse (fun hh => Except.noConfusion hh)

/-- `ProductionPDFAnalyzer.extract_json_objects`: parse each matched
region, keeping dict results whose `software` entry is truthy. -/
def extract_json_objects (s : String) : List Json :=
  (findObjects s.data).filterMap fun m =>
    match loads m with
    | some (.obj d) =>
        if jsonTruthy (dictGet d "software" .null) then some (.obj d) else none
    | _ => none

/-- `ProductionPDFAnalyzer.parse_json_with_recovery`: the four salvage
strategies in order, first success winning; when all fail, a
`json.JSONDecodeError` is raised (modelled as `Except.error`).
-/
def parse_json_with_recovery (s : String) : Except Unit Json :=
  match strategy1 s with
  | some v => .ok v
  | none =>
      match strategy2 s with
      | some v => .ok v
      | none =>
          match strategy3 s with
          | some v => .ok v
          | none =>
              let objects := extract_json_objects s
              if objects.isEmpty then .error () else .ok (.arr objects)

/-- The response pre-clean of `analyze_page_with_gpt` (lines 398–409):
strip, remove a leading fenced code block (with or without the `json`
tag), strip again. -/
def cleanContent (raw : String) : String :=
  let content := pyStrip raw
  let content :=
    if pyStartsWith content "```json" then
      (pySplit ((pySplit content "```json").getD 1 "") "```").headD ""
    else if pyStartsWith content "```" then
      (pySplit ((pySplit content "```").getD 1 "") "```").headD ""
    else content
  pyStrip content

/-! ## Round normalization and year validation -/

/-- `ProductionPDFAnalyzer.round_patterns`: the fixed alias table for
round-folder spellings (plus the fiscal-year special cases). -/
def round_patterns : List (String × String) :=
  [("r1", "1"), ("round 1", "1"), ("round1", "1"),
   ("r2", "2"), ("round 2", "2"), ("round2", "2"),
   ("r3", "3"), ("round 3", "3"), ("round3", "3"),
   ("r4", "4"), ("round 4", "4"), ("round4", "4"),
   ("r5", "5"), ("round 5", "5"), ("round5", "5"),
   ("fy 16-17", "1"), ("fy 17-18", "2"), ("fy 18-19", "3")]

/-- `ProductionPDFAnalyzer.normalize_round_name`: lower-case, strip, look
up; `none` when the spelling is not in the table. -/
def normalize_round_name (folder_name : String) : Option String :=
  round_patterns.lookup (pyStrip (pyLower folder_name))

/-- `ProductionPDFAnalyzer.year_to_round`. -/
def year_to_round : List (String × String) :=
  [("2015", "1"), ("2016", "1"), ("2017", "1"),
   ("2018", "2"), ("2019", "3"), ("2022", "4")]

/-- `ProductionPDFAnalyzer.validate_round_year`: `true` means no
objection (missing data validates vacuously). -/
def validate_round_year (round_num year_str : String) : Bool :=
  if year_str.isEmpty || round_num.isEmpty then true
  else
    match year_to_round.lookup year_str with
    | some expected => if expected ≠ round_num then false else true
    | none => true

/-! ## The record type and its construction

`SoftwareRecord` is a Python dataclass whose annotations say `str` but are
unenforced; fields therefore carry whatever object the dictionary held, so
the model gives every field type `Json` (a plain string `s` being
`Json.str s`). -/

/-- The `SoftwareRecord` dataclass; every default is the empty string. -/
structure SoftwareRecord where
  district : Json := .str ""
  school_name : Json := .str ""
  approx_level : Json := .str ""
  software : Json := .str ""
  vendor : Json := .str ""
  use_type : Json := .str ""
  host_type : Json := .str ""
  num_school_lic : Json := .str ""
  num_district_lic : Json := .str ""
  cost_per_lic : Json := .str ""
  cost_total : Json := .str ""
  contract_start_month : Json := .str ""
  contract_start_year : Json := .str ""
  contract_length_years : Json := .str ""
  install_month : Json := .str ""
  install_year : Json := .str ""
  quote_month : Json := .str ""
  quote_year : Json := .str ""
  misc_notes : Json := .str ""
  round : Json := .str ""
  source_file : Json := .str ""
  page_number : Json := .str ""
  deriving DecidableEq

/-- Lines 418–420 of `analyze_page_with_gpt`: the soft year-vs-round
validation appends a mismatch note to `misc_notes` instead of rejecting
the record. -/
def mutatedItem (round_num : String) (item : List (String × Json)) :
    List (String × Json) :=
  if ¬(pyStr (dictGet item "contract_start_year" (.str ""))).isEmpty ∧
      validate_round_year round_num
        (pyStr (dictGet item "contract_start_year" (.str ""))) = false then
    dictInsert item "misc_notes"
      (.str (pyStrip (pyStr (dictGet item "misc_notes" (.str "")) ++
        " [Year-Round mismatch noted]")))
  else item

/-- Lines 416–445 of `analyze_page_with_gpt`: the conversion of one
recovered dictionary into a `SoftwareRecord`. -/
def buildRecord (district round_num pdf_name : String) (page_num : Nat)
    (item : List (String × Json)) : SoftwareRecord :=
  let item := mutatedItem round_num item
  { district := .str district
    round := .str round_num
    source_file := .str pdf_name
    page_number := .str (toString (page_num + 1))
    software := dictGet item "software" (.str "")
    vendor := dictGet item "vendor" (.str "")
    school_name := dictGet item "school_name" (.str "")
    approx_level := dictGet item "approx_level" (.str "")
    use_type := dictGet item "use_type" (.str "")
    host_type := dictGet item "host_type" (.str "")
    num_school_lic := .str (pyStr (dictGet item "num_school_lic" (.str "")))
    num_district_lic := .str (pyStr (dictGet item "num_district_lic" (.str "")))
    cost_per_lic := .str (pyStr (dictGet item "cost_per_lic" (.str "")))
    cost_total := .str (pyStr (dictGet item "cost_total" (.str "")))
    contract_start_month := dictGet item "contract_start_month" (.str "")
    contract_start_year := .str (pyStr (dictGet item "contract_start_year" (.str "")))
    contract_length_years := .str (pyStr (dictGet item "contract_length_years" (.str "")))
    install_month := dictGet item "install_month" (.str "")
    install_year := .str (pyStr (dictGet item "install_year" (.str "")))
    quote_month := dictGet item "quote_month" (.str "")
    quote_year := .str (pyStr (dictGet item "quote_year" (.str "")))
    misc_notes := dictGet item "misc_notes" (.str "") }

/-- `for item in extracted_data: ... item.get(...)` succeeds exactly when
the recovered value is a list of dicts; anything else raises
(`AttributeError`/`TypeError`) into the generic exception handler. -/
def asObjList : Json → Option (List (List (String × Json)))
  | .arr items =>
      items.mapM fun it =>
        match it with
        | .obj d => some d
        | _ => none
  | _ => none

/-! ## The extraction client's retry loop -/

/-- The analyzer's `self.stats` counters. -/
structure Stats where
  districts_processed : Nat := 0
  pdfs_processed : Nat := 0
  pages_analyzed : Nat := 0
  software_records_extracted : Nat := 0
  api_calls_made : Nat := 0
  errors_encountered : Nat := 0
  deriving DecidableEq

/-- What one attempt's round trip to the model service does, as the
analyzer's exception structure distinguishes it: a `requests` transport
failure (connection error or `raise_for_status`), some other unexpected
exception around the call, or an HTTP 200 whose extracted message content
is the given text. -/
inductive ApiOutcome where
  | transportError
  | unexpectedError
  | response (content : String)
  deriving DecidableEq

/-- What a call to `analyze_page_with_gpt` produces: the returned records,
the updated counters, and the log of `time.sleep(retry_delay)` calls made
between attempts (in seconds). -/
structure AnalyzeResult where
  records : List SoftwareRecord
  stats : Stats
  sleeps : List ℚ
  deriving DecidableEq

/-- `max_retries = 3`. -/
def max_retries : Nat := 3

/-- The `for attempt in range(max_retries)` body of
`analyze_page_with_gpt` (lines 385–486).  `remaining` counts the attempts
the loop will still run (`max_retries - attempt`); falling out of the loop
reaches lines 484–486. -/
def analyzeLoop (env : Nat → ApiOutcome) (district round_num pdf_name : String)
    (page_num : Nat) :
    Nat → Nat → ℚ → Stats → AnalyzeResult
  | _, 0, _, stats =>
      { records := []
        stats := { stats with errors_encountered := stats.errors_encountered + 1 }
        sleeps := [] }
  | attempt, remaining + 1, retry_delay, stats =>
      let stats := { stats with api_calls_made := stats.api_calls_made + 1 }
      match env attempt with
      | .response raw =>
          let content := cleanContent raw
          match parse_json_with_recovery content with
          | .ok v =>
              match asObjList v with
              | some items =>
                  let records := items.map (buildRecord district round_num pdf_name page_num)
                  { records := records
                    stats := { stats with software_records_extracted :=
                      stats.software_records_extracted + records.length }
                    sleeps := [] }
              | none =>
                  if attempt = max_retries - 1 then
                    { records := []
                      stats := { stats with errors_encountered := stats.errors_encountered + 1 }
                      sleeps := [] }
                  else
                    let r := analyzeLoop env district round_num pdf_name page_num
                      (attempt + 1) remaining (retry_delay * (3 / 2)) stats
                    { r with sleeps := retry_delay :: r.sleeps }
          | .error _ =>
              if attempt = max_retries - 1 then
                { records := []
                  stats := { stats with errors_encountered := stats.errors_encountered + 1 }
                  sleeps := [] }
              else
                analyzeLoop env district round_num pdf_name page_num
                  (attempt + 1) remaining retry_delay stats
      | .transportError =>
          if attempt = max_retries - 1 then
            { records := []
              stats := { stats with errors_encountered := stats.errors_encountered + 1 }
              sleeps := [] }
          else
            let r := analyzeLoop env district round_num pdf_name page_num
              (attempt + 1) remaining (retry_delay * (3 / 2)) stats
            { r with sleeps := retry_delay :: r.sleeps }
      | .unexpectedError =>
          if attempt = max_retries - 1 then
            { records := []
              stats := { stats with errors_encountered := stats.errors_encountered + 1 }
              sleeps := [] }
          else
            let r := analyzeLoop env district round_num pdf_name page_num
              (attempt + 1) remaining (retry_delay * (3 / 2)) stats
            { r with sleeps := retry_delay :: r.sleeps }

/-- `ProductionPDFAnalyzer.analyze_page_with_gpt`.  `env` gives the
outcome of each attempt's round trip; `hasImage` is the truthiness of
`image_bytes`. -/
def analyze_page_with_gpt (env : Nat → ApiOutcome) (hasImage : Bool)
    (district round_num pdf_name : String) (page_num : Nat) (stats : Stats) :
    AnalyzeResult :=
  if ¬hasImage then { records := [], stats := stats, sleeps := [] }
  else analyzeLoop env district round_num pdf_name page_num 0 max_retries 2 stats

/-! ## The input tree

A directory tree as the orchestrator walks it.  A page records whether
`extract_page_content` yields a nonempty image (its internal failure path
returns empty bytes) and the outcome of each API attempt for it; a PDF
whose `pages` is `none` is one `fitz.open` raises on.  A `Folder`'s
`pdfs` list is the recursive `rglob("*.pdf")` enumeration of a round
folder. -/

/-- One page: image availability and the attempt-indexed API behaviour. -/
structure Page where
  hasImage : Bool
  api : List ApiOutcome
  deriving DecidableEq

/-- The attempt environment of a page; attempts beyond the recorded list
behave as unexpected failures. -/
def Page.env (p : Page) : Nat → ApiOutcome :=
  fun i => p.api.getD i .unexpectedError

/-- One PDF file (`none` pages: the document cannot be opened). -/
structure PdfFile where
  name : String
  pages : Option (List Page)
  deriving DecidableEq

/-- A subfolder of a district directory with its recursively enumerated
PDFs. -/
structure Folder where
  name : String
  pdfs : List PdfFile
  deriving DecidableEq

/-- One district directory. -/
structure District where
  name : String
  subfolders : List Folder
  deriving DecidableEq

/-- The page count `get_pdfs_sorted_by_page_count` sorts by (a file that
fails to open is kept with count 0). -/
def PdfFile.pageCount (p : PdfFile) : Nat :=
  match p.pages with
  | some pages => pages.length
  | none => 0

/-! ## The processed-PDF tracker and orchestrator state -/

/-- The state the orchestrator carries across one or more runs: the
in-memory processed set (`self.processed_pdfs`), the persisted tracker
document (`processed_pdfs.json`), the rows of the main detailed CSV
(`extracted_software_data.csv`), and the per-process counters.  The
timestamped snapshot files and the summary CSV are write-only outputs no
claim mentions and are not part of the state. -/
structure OrchState where
  processed_pdfs : List String := []
  persisted_pdfs : List String := []
  main_csv : List SoftwareRecord := []
  stats : Stats := {}
  deriving DecidableEq

/-- The state of a fresh installation: no tracker file, empty CSV. -/
def initialState : OrchState := {}

/-- `ProductionPDFAnalyzer.get_pdf_identifier`. -/
def get_pdf_identifier (district round_num pdf_name : String) : String :=
  district ++ "/" ++ round_num ++ "/" ++ pdf_name

/-- `save_processed_pdfs`: overwrite the persisted document with the
in-memory set. -/
def save_processed_pdfs (s : OrchState) : OrchState :=
  { s with persisted_pdfs := s.processed_pdfs }

/-- `mark_pdf_as_processed`: add to the in-memory set; save when the set
size is a multiple of 5. -/
def mark_pdf_as_processed (s : OrchState) (district round_num pdf_name : String) :
    OrchState :=
  let pdf_id := get_pdf_identifier district round_num pdf_name
  let mem := if pdf_id ∈ s.processed_pdfs then s.processed_pdfs
             else s.processed_pdfs ++ [pdf_id]
  let s := { s with processed_pdfs := mem }
  if mem.length % 5 = 0 then save_processed_pdfs s else s

/-- `is_pdf_already_processed`. -/
def is_pdf_already_processed (s : OrchState) (district round_num pdf_name : String) :
    Prop :=
  get_pdf_identifier district round_num pdf_name ∈ s.processed_pdfs

instance (s : OrchState) (d r n : String) :
    Decidable (is_pdf_already_processed s d r n) := by
  unfold is_pdf_already_processed; infer_instance

/-! ## `process_pdf` -/

/-- The body of `process_pdf`'s page loop (lines 596–610): analyze the
page when its image is nonempty, then count it analyzed. -/
def pageStep (district_name round_num pdf_name : String)
    (acc : OrchState × List SoftwareRecord) (ip : Nat × Page) :
    OrchState × List SoftwareRecord :=
  let (s, all_records) := acc
  let (s, all_records) :=
    if ip.2.hasImage then
      let r := analyze_page_with_gpt ip.2.env true district_name round_num
        pdf_name ip.1 s.stats
      ({ s with stats := r.stats }, all_records ++ r.records)
    else (s, all_records)
  ({ s with stats :=
      { s.stats with pages_analyzed := s.stats.pages_analyzed + 1 } }, all_records)

/-- `ProductionPDFAnalyzer.process_pdf`: skip if tracked; open the
document (the only raising step, caught at lines 619–622); iterate every
page, analyzing those with a nonempty image; count the PDF and mark it
processed only after the page loop completes. -/
def process_pdf (s : OrchState) (district_name round_num : String) (pdf : PdfFile) :
    OrchState × List SoftwareRecord :=
  if is_pdf_already_processed s district_name round_num pdf.name then (s, [])
  else
    match pdf.pages with
    | none =>
        ({ s with stats :=
            { s.stats with errors_encountered := s.stats.errors_encountered + 1 } }, [])
    | some pages =>
        let (s, all_records) :=
          pages.enum.foldl (pageStep district_name round_num pdf.name) (s, [])
        let s := { s with stats :=
            { s.stats with pdfs_processed := s.stats.pdfs_processed + 1 } }
        let s := mark_pdf_as_processed s district_name round_num pdf.name
        (s, all_records)

/-! ## Round-folder resolution and PDF ordering -/

/-- Python `dict[k] = v` for an arbitrary value type: replace in place at
an existing key, else append. -/
def assocSet {α : Type} (d : List (String × α)) (k : String) (v : α) :
    List (String × α) :=
  match d with
  | [] => [(k, v)]
  | (k', v') :: rest =>
      if k' = k then (k', v) :: rest else (k', v') :: assocSet rest k v

/-- `ProductionPDFAnalyzer.get_round_folders`: resolve each subfolder
name; on a duplicate round the newcomer replaces the current holder iff
its name is strictly shorter or starts with `R`. -/
def get_round_folders (subfolders : List Folder) : List (String × Folder) :=
  subfolders.foldl
    (fun round_folders item =>
      match normalize_round_name item.name with
      | some round_num =>
          match round_folders.lookup round_num with
          | some current =>
              if item.name.length < current.name.length ∨ pyStartsWith item.name "R" then
                assocSet round_folders round_num item
              else round_folders
          | none => round_folders ++ [(round_num, item)]
      | none => round_folders)
    []

/-- Stable ascending insertion by page count (equal keys keep their
original relative order, as Python's stable sort does). -/
def insertByCount (x : PdfFile) : List PdfFile → List PdfFile
  | [] => [x]
  | y :: ys =>
      if y.pageCount ≤ x.pageCount then y :: insertByCount x ys
      else x :: y :: ys

/-- `get_pdfs_sorted_by_page_count` (with its truthiness-guarded limit:
`if limit:` leaves a 0 limit inert). -/
def get_pdfs_sorted_by_page_count (folder : Folder) (limit : Option Nat) :
    List PdfFile :=
  let sorted := folder.pdfs.foldl (fun acc x => insertByCount x acc) []
  match limit with
  | some n => if n ≠ 0 then sorted.take n else sorted
  | none => sorted

/-! ## The batch orchestrator -/

/-- The rounds the orchestrator visits, in order. -/
def roundNumbers : List String := ["1", "2", "3", "4"]

/-- The (round, pdf) work items of one district, in processing order:
rounds 1–4 that resolved to a folder, each folder's PDFs sorted ascending
by page count. -/
def districtWork (d : District) (limit : Option Nat) : List (String × PdfFile) :=
  roundNumbers.foldl
    (fun acc r =>
      match (get_round_folders d.subfolders).lookup r with
      | some folder =>
          acc ++ (get_pdfs_sorted_by_page_count folder limit).map (fun p => (r, p))
      | none => acc)
    []

/-- `save_intermediate_results` as it affects the modelled state: append
the accumulated records to the main CSV (`write_detailed_csv` returns
without writing when the list is empty) and force a tracker save.  The
timestamped snapshot files and summary CSV are unmodelled outputs. -/
def save_intermediate_results (s : OrchState) (all_records : List SoftwareRecord) :
    OrchState :=
  let s := if all_records.isEmpty then s
           else { s with main_csv := s.main_csv ++ all_records }
  save_processed_pdfs s

/-- `save_final_results`: the same append-and-save on the modelled
state. -/
def save_final_results (s : OrchState) (all_records : List SoftwareRecord) :
    OrchState :=
  let s := if all_records.isEmpty then s
           else { s with main_csv := s.main_csv ++ all_records }
  save_processed_pdfs s

/-- The body of the per-round PDF loop (lines 820–823): process one work
item and extend the run's accumulated record list. -/
def pdfStep (district_name : String) (acc : OrchState × List SoftwareRecord)
    (rp : String × PdfFile) : OrchState × List SoftwareRecord :=
  let (s, ar) := acc
  let (s, recs) := process_pdf s district_name rp.1 rp.2
  (s, ar ++ recs)

/-- One district of the orchestrator loop (lines 776–842): process the
district's work items, bump the district counter, and checkpoint every
5th district. -/
def processDistrict (limit : Option Nat) (acc : OrchState × List SoftwareRecord)
    (d : District) : OrchState × List SoftwareRecord :=
  let (s, all_records) := (districtWork d limit).foldl (pdfStep d.name) acc
  let s := { s with stats :=
      { s.stats with districts_processed := s.stats.districts_processed + 1 } }
  let s := if s.stats.districts_processed % 5 = 0
           then save_intermediate_results s all_records else s
  (s, all_records)

/-- Python string comparison: lexicographic on code points. -/
def pyStrLt : List Char → List Char → Bool
  | [], [] => false
  | [], _ :: _ => true
  | _ :: _, [] => false
  | a :: as, b :: bs =>
      if a.toNat < b.toNat then true
      else if b.toNat < a.toNat then false
      else pyStrLt as bs

/-- Python `a <= b` on strings. -/
def pyStrLe (a b : String) : Bool := ! pyStrLt b.data a.data

/-- Stable ascending insertion of districts by name (`sorted(...)` over
the district folders, Python code-point order). -/
def insertByName (x : District) : List District → List District
  | [] => [x]
  | y :: ys =>
      if pyStrLe y.name x.name then y :: insertByName x ys
      else x :: y :: ys

/-- The sorted district enumeration of `process_all_districts`. -/
def sortDistricts (ds : List District) : List District :=
  ds.foldl (fun acc x => insertByName x acc) []

/-- `ProductionPDFAnalyzer.process_all_districts` on the modelled state,
at the defaults the claims concern (no district-name filter, no district
limit): walk the sorted districts, then perform the unconditional final
save. -/
def process_all_districts (tree : List District) (limit : Option Nat)
    (s : OrchState) : OrchState :=
  let (s, all_records) := (sortDistricts tree).foldl (processDistrict limit) (s, [])
  save_final_results s all_records

/-- A run interrupted immediately after the checkpoint of the `k`-th
district (no final save happens; in-memory accumulations die with the
process, the persisted/durable fields survive). -/
def run_interrupted (tree : List District) (limit : Option Nat) (k : Nat)
    (s : OrchState) : OrchState :=
  (((sortDistricts tree).take k).foldl (processDistrict limit) (s, [])).1

/-- The state a fresh process starts from after a crash: the tracker is
re-loaded from the persisted document, the CSV file is still on disk, the
counters are zeroed. -/
def resumeState (crashed : OrchState) : OrchState :=
  { processed_pdfs := crashed.persisted_pdfs
    persisted_pdfs := crashed.persisted_pdfs
    main_csv := crashed.main_csv
    stats := {} }

/-! ## Invariants of the retry loop -/

set_option maxHeartbeats 1000000 in
/-- The retry loop touches only the API-call, error and record counters:
the page, PDF and district counters pass through unchanged, and the
records it returns depend on neither the incoming counters nor the
current delay. -/
theorem analyzeLoop_invariants (env : Nat → ApiOutcome) (d r n : String) (p : Nat) :
    ∀ rem att (delay delay' : ℚ) (st st' : Stats),
      (analyzeLoop env d r n p att rem delay st).stats.pages_analyzed = st.pages_analyzed
      ∧ (analyzeLoop env d r n p att rem delay st).stats.pdfs_processed = st.pdfs_processed
      ∧ (analyzeLoop env d r n p att rem delay st).stats.districts_processed =
          st.districts_processed
      ∧ (analyzeLoop env d r n p att rem delay st).records =
          (analyzeLoop env d r n p att rem delay' st').records := by
  intro rem
  induction rem with
  | zero => intro att delay delay' st st'; simp [analyzeLoop]
  | succ rem ih =>
      intro att delay delay' st st'
      simp only [analyzeLoop]
      split
      · -- response: split on the recovery result, then the conversion
        split
        · -- recovered a value: split on the list-of-dicts conversion
          split
          · simp
          · split
            · simp
            · simpa using ih (att + 1) (delay * (3 / 2)) (delay' * (3 / 2)) _ _
        · -- malformed: retried with no sleep and the same delay
          split
          · simp
          · simpa using ih (att + 1) delay delay' _ _
      · -- transport failure
        split
        · simp
        · simpa using ih (att + 1) (delay * (3 / 2)) (delay' * (3 / 2)) _ _
      · -- unexpected failure
        split
        · simp
        · simpa using ih (att + 1) (delay * (3 / 2)) (delay' * (3 / 2)) _ _

/-- The per-page record yield of the extraction client, as a pure
function of the page and its context. -/
def pageRecords (d r n : String) (ip : Nat × Page) : List SoftwareRecord :=
  if ip.2.hasImage then (analyze_page_with_gpt ip.2.env true d r n ip.1 {}).records
  else []

/-- The record yield of one PDF: nothing when it cannot be opened, else
the concatenation of its pages' yields. -/
def pdfRecords (d r : String) (pdf : PdfFile) : List SoftwareRecord :=
  match pdf.pages with
  | none => []
  | some pages => pages.enum.flatMap (pageRecords d r pdf.name)

/-- What one `pageStep` does to the state and accumulator. -/
theorem pageStep_spec (d r n : String) (s : OrchState) (acc : List SoftwareRecord)
    (ip : Nat × Page) :
    (pageStep d r n (s, acc) ip).1.stats.pages_analyzed = s.stats.pages_analyzed + 1
    ∧ (pageStep d r n (s, acc) ip).1.stats.pdfs_processed = s.stats.pdfs_processed
    ∧ (pageStep d r n (s, acc) ip).1.stats.districts_processed =
        s.stats.districts_processed
    ∧ (pageStep d r n (s, acc) ip).1.processed_pdfs = s.processed_pdfs
    ∧ (pageStep d r n (s, acc) ip).1.persisted_pdfs = s.persisted_pdfs
    ∧ (pageStep d r n (s, acc) ip).1.main_csv = s.main_csv
    ∧ (pageStep d r n (s, acc) ip).2 = acc ++ pageRecords d r n ip := by
  by_cases him : ip.2.hasImage
  · have hinv := analyzeLoop_invariants ip.2.env d r n ip.1 max_retries 0 2 2
      s.stats {}
    simp [pageStep, him, analyze_page_with_gpt, pageRecords, hinv.1, hinv.2.1,
      hinv.2.2.1, hinv.2.2.2]
  · simp [pageStep, him, pageRecords]

/-- What the page loop of `process_pdf` does to the state: it advances
the page counter once per page, leaves the tracker, CSV and the other
loop-relevant counters alone, and appends each page's pure record
yield. -/
theorem pageLoop_spec (d r n : String) :
    ∀ (l : List (Nat × Page)) (s : OrchState) (acc : List SoftwareRecord),
      (l.foldl (pageStep d r n) (s, acc)).1.stats.pages_analyzed =
          s.stats.pages_analyzed + l.length
      ∧ (l.foldl (pageStep d r n) (s, acc)).1.stats.pdfs_processed =
          s.stats.pdfs_processed
      ∧ (l.foldl (pageStep d r n) (s, acc)).1.stats.districts_processed =
          s.stats.districts_processed
      ∧ (l.foldl (pageStep d r n) (s, acc)).1.processed_pdfs = s.processed_pdfs
      ∧ (l.foldl (pageStep d r n) (s, acc)).1.persisted_pdfs = s.persisted_pdfs
      ∧ (l.foldl (pageStep d r n) (s, acc)).1.main_csv = s.main_csv
      ∧ (l.foldl (pageStep d r n) (s, acc)).2 = acc ++ l.flatMap (pageRecords d r n) := by
  intro l
  induction l with
  | nil => intro s acc; simp
  | cons ip tl ih =>
      intro s acc
      have hstep := pageStep_spec d r n s acc ip
      have ihs := ih (pageStep d r n (s, acc) ip).1 (pageStep d r n (s, acc) ip).2
      rw [Prod.mk.eta] at ihs
      simp only [List.foldl_cons, List.length_cons, List.flatMap_cons]
      refine ⟨?_, ?_, ?_, ?_, ?_, ?_, ?_⟩
      · rw [ihs.1, hstep.1]; omega
      · rw [ihs.2.1, hstep.2.1]
      · rw [ihs.2.2.1, hstep.2.2.1]
      · rw [ihs.2.2.2.1, hstep.2.2.2.1]
      · rw [ihs.2.2.2.2.1, hstep.2.2.2.2.1]
      · rw [ihs.2.2.2.2.2.1, hstep.2.2.2.2.2.1]
      · rw [ihs.2.2.2.2.2.2, hstep.2.2.2.2.2.2, List.append_assoc]


/-! ## Characterization of `process_pdf` -/

/-- A tracked PDF is skipped untouched: no page extracted or analyzed, no
counter moved, an empty record list returned. -/
theorem process_pdf_skip (s : OrchState) (d r : String) (pdf : PdfFile)
    (h : is_pdf_already_processed s d r pdf.name) :
    process_pdf s d r pdf = (s, []) := by
  simp [process_pdf, h]

/-- A PDF that cannot be opened: one error counted, nothing else changes,
no records. -/
theorem process_pdf_unopenable (s : OrchState) (d r : String) (pdf : PdfFile)
    (h : ¬ is_pdf_already_processed s d r pdf.name) (hp : pdf.pages = none) :
    process_pdf s d r pdf =
      ({ s with stats :=
          { s.stats with errors_encountered := s.stats.errors_encountered + 1 } }, []) := by
  simp [process_pdf, h, hp]

/-- What `mark_pdf_as_processed` does to each component. -/
theorem mark_spec (s : OrchState) (d r n : String) :
    (mark_pdf_as_processed s d r n).processed_pdfs =
      (if get_pdf_identifier d r n ∈ s.processed_pdfs then s.processed_pdfs
       else s.processed_pdfs ++ [get_pdf_identifier d r n])
    ∧ (mark_pdf_as_processed s d r n).main_csv = s.main_csv
    ∧ (mark_pdf_as_processed s d r n).stats = s.stats := by
  unfold mark_pdf_as_processed save_processed_pdfs
  by_cases hm : get_pdf_identifier d r n ∈ s.processed_pdfs <;>
    · simp only [hm, if_pos, if_neg, ite_true, ite_false]
      split <;> simp

/-- An untracked, openable PDF: its pure record yield is returned, its
identifier is appended to the processed set, the CSV is untouched, the
district counter is untouched, and the page counter advances by the full
page count. -/
theorem process_pdf_open (s : OrchState) (d r : String) (pdf : PdfFile)
    (pages : List Page) (h : ¬ is_pdf_already_processed s d r pdf.name)
    (hp : pdf.pages = some pages) :
    (process_pdf s d r pdf).2 = pdfRecords d r pdf
    ∧ (process_pdf s d r pdf).1.processed_pdfs =
        s.processed_pdfs ++ [get_pdf_identifier d r pdf.name]
    ∧ (process_pdf s d r pdf).1.main_csv = s.main_csv
    ∧ (process_pdf s d r pdf).1.stats.districts_processed =
        s.stats.districts_processed
    ∧ (process_pdf s d r pdf).1.stats.pages_analyzed =
        s.stats.pages_analyzed + pages.length := by
  have hl := pageLoop_spec d r pdf.name pages.enum s []
  rcases hfold : pages.enum.foldl (pageStep d r pdf.name) (s, []) with ⟨s1, all⟩
  rw [hfold] at hl
  simp only [process_pdf, hp, hfold]
  rw [if_neg h]
  have hm := mark_spec
    { s1 with stats := { s1.stats with pdfs_processed := s1.stats.pdfs_processed + 1 } }
    d r pdf.name
  simp only at hl hm
  refine ⟨?_, ?_, ?_, ?_, ?_⟩
  · simp only [pdfRecords, hp]
    simpa using hl.2.2.2.2.2.2
  · rw [hm.1]
    have hni : get_pdf_identifier d r pdf.name ∉ s1.processed_pdfs := by
      rw [hl.2.2.2.1]; exact h
    simp [hni, hl.2.2.2.1]
    exact h
  · rw [hm.2.1]; simpa using hl.2.2.2.2.2.1
  · rw [hm.2.2]; simpa using hl.2.2.1
  · rw [hm.2.2]
    have := hl.1
    simp at this ⊢
    omega



/-! ## Claim C2: the processed-marking invariant -/

/-- C2.  A PDF whose identifier is already in the processed set is skipped
entirely by `process_pdf` — the state (including every counter) is
untouched and an empty record list is returned; and an identifier enters
the processed set during a call only if the document opened and every one
of its pages was attempted (the page counter advances by the full page
count).  The only failure that aborts `process_pdf` early — the document
failing to open — happens before any page and never marks the file. -/
theorem c2_processed_marking_invariant (s : OrchState) (d r : String) (pdf : PdfFile) :
    (is_pdf_already_processed s d r pdf.name → process_pdf s d r pdf = (s, []))
    ∧ (¬ is_pdf_already_processed s d r pdf.name →
        get_pdf_identifier d r pdf.name ∈ (process_pdf s d r pdf).1.processed_pdfs →
        ∃ pages, pdf.pages = some pages ∧
          (process_pdf s d r pdf).1.stats.pages_analyzed =
            s.stats.pages_analyzed + pages.length) := by
  constructor
  · exact process_pdf_skip s d r pdf
  · intro h hmem
    cases hp : pdf.pages with
    | none =>
        rw [process_pdf_unopenable s d r pdf h hp] at hmem
        exact absurd hmem h
    | some pages =>
        exact ⟨pages, rfl, (process_pdf_open s d r pdf pages h hp).2.2.2.2⟩

/-- C2, witnessed: a tracked PDF is skipped on a concrete state, and on a
fresh state a marked identifier implies all pages were attempted. -/
theorem c2_processed_marking_invariant_witness :
    (process_pdf
        { processed_pdfs := ["D/1/a.pdf"], persisted_pdfs := [], main_csv := [],
          stats := {} } "D" "1" ⟨"a.pdf", some []⟩ =
      ({ processed_pdfs := ["D/1/a.pdf"], persisted_pdfs := [], main_csv := [],
          stats := {} }, []))
    ∧ (∃ pages, (⟨"a.pdf", some []⟩ : PdfFile).pages = some pages ∧
        (process_pdf initialState "D" "1" ⟨"a.pdf", some []⟩).1.stats.pages_analyzed =
          initialState.stats.pages_analyzed + pages.length) := by
  constructor
  · exact (c2_processed_marking_invariant
      { processed_pdfs := ["D/1/a.pdf"], persisted_pdfs := [], main_csv := [],
        stats := {} } "D" "1" ⟨"a.pdf", some []⟩).1 (by decide)
  · exact (c2_processed_marking_invariant initialState "D" "1" ⟨"a.pdf", some []⟩).2
      (by decide) (by decide)

/-! ## Claim C10: PDFs that cannot be opened -/

/-- C10.  When the document-open step raises on an untracked PDF,
`process_pdf` returns an empty record list, increments
`errors_encountered`, and leaves the processed set unchanged — in
particular the file is still not recorded as processed, so any later run
will attempt it again. -/
theorem c10_unopenable_pdf (s : OrchState) (d r : String) (pdf : PdfFile)
    (h1 : ¬ is_pdf_already_processed s d r pdf.name) (h2 : pdf.pages = none) :
    process_pdf s d r pdf =
      ({ s with stats :=
          { s.stats with errors_encountered := s.stats.errors_encountered + 1 } }, [])
    ∧ (process_pdf s d r pdf).1.processed_pdfs = s.processed_pdfs
    ∧ ¬ is_pdf_already_processed (process_pdf s d r pdf).1 d r pdf.name := by
  have he := process_pdf_unopenable s d r pdf h1 h2
  refine ⟨he, by rw [he], ?_⟩
  rw [he]
  exact h1

/-- C10, witnessed on a fresh state and a concrete unopenable file. -/
theorem c10_unopenable_pdf_witness :
    process_pdf initialState "D" "1" ⟨"broken.pdf", none⟩ =
      ({ initialState with stats :=
          { initialState.stats with errors_encountered :=
              initialState.stats.errors_encountered + 1 } }, [])
    ∧ (process_pdf initialState "D" "1" ⟨"broken.pdf", none⟩).1.processed_pdfs =
        initialState.processed_pdfs
    ∧ ¬ is_pdf_already_processed
        (process_pdf initialState "D" "1" ⟨"broken.pdf", none⟩).1 "D" "1"
        (PdfFile.name ⟨"broken.pdf", none⟩) :=
  c10_unopenable_pdf initialState "D" "1" ⟨"broken.pdf", none⟩ (by decide) rfl



/-! ## Claim C8: tracker checkpoint cadence -/

/-- A sequence of `mark_pdf_as_processed` calls. -/
def markRun (s : OrchState) (l : List (String × String × String)) : OrchState :=
  l.foldl (fun s t => mark_pdf_as_processed s t.1 t.2.1 t.2.2) s

/-- The identifiers such a sequence marks. -/
def markIds (l : List (String × String × String)) : List String :=
  l.map (fun t => get_pdf_identifier t.1 t.2.1 t.2.2)

/-- Marking a fresh identifier: it is appended, and the persisted document
is rewritten exactly when the new size is a multiple of 5. -/
theorem mark_fresh (s : OrchState) (d r n : String)
    (h : get_pdf_identifier d r n ∉ s.processed_pdfs) :
    (mark_pdf_as_processed s d r n).processed_pdfs =
      s.processed_pdfs ++ [get_pdf_identifier d r n]
    ∧ (mark_pdf_as_processed s d r n).persisted_pdfs =
        (if (s.processed_pdfs.length + 1) % 5 = 0 then
          s.processed_pdfs ++ [get_pdf_identifier d r n]
         else s.persisted_pdfs) := by
  unfold mark_pdf_as_processed save_processed_pdfs
  simp only [h, ite_false, if_neg, not_false_iff]
  split <;> rename_i hc <;> simp at hc ⊢ <;> simp [hc]

/-- Starting from an empty tracker and marking distinct identifiers, the
in-memory set is the full sequence and the persisted document is its
largest multiple-of-5 prefix: the durable save happens exactly on every
5th addition. -/
theorem markRun_spec :
    ∀ (l : List (String × String × String)), (markIds l).Nodup →
      (markRun initialState l).processed_pdfs = markIds l
      ∧ (markRun initialState l).persisted_pdfs =
          (markIds l).take (5 * (l.length / 5)) := by
  intro l
  induction l using List.reverseRecOn with
  | nil => intro _; simp [markRun, markIds, initialState]
  | append_singleton l t ih =>
      intro hnd
      have hids : markIds (l ++ [t]) = markIds l ++ [get_pdf_identifier t.1 t.2.1 t.2.2] := by
        simp [markIds]
      rw [hids] at hnd
      have hfreshid : get_pdf_identifier t.1 t.2.1 t.2.2 ∉ markIds l := by
        have := List.disjoint_of_nodup_append hnd
        simp [List.Disjoint] at this
        exact fun hin => this hin rfl
      have ihs := ih (List.Nodup.of_append_left hnd)
      have hrun : markRun initialState (l ++ [t]) =
          mark_pdf_as_processed (markRun initialState l) t.1 t.2.1 t.2.2 := by
        simp [markRun]
      have hfresh := mark_fresh (markRun initialState l) t.1 t.2.1 t.2.2
        (by rw [ihs.1]; exact hfreshid)
      constructor
      · rw [hrun, hfresh.1, ihs.1, hids]
      · rw [hrun, hfresh.2, ihs.1, ihs.2, hids]
        have hlen : (markIds l).length = l.length := by simp [markIds]
        have hlt : (l ++ [t]).length = l.length + 1 := by simp
        by_cases hc : (l.length + 1) % 5 = 0
        · rw [if_pos (by rw [hlen]; exact hc)]
          have h5 : 5 * ((l.length + 1) / 5) = l.length + 1 := by omega
          have hfull : (markIds l ++ [get_pdf_identifier t.1 t.2.1 t.2.2]).length =
              l.length + 1 := by simp [hlen]
          rw [hlt, h5, ← hfull, List.take_length]
        · rw [if_neg (by rw [hlen]; exact hc)]
          have h5 : (l.length + 1) / 5 = l.length / 5 := by omega
          rw [hlt, h5, List.take_append_of_le_length (by rw [hlen]; omega)]

/-- C8.  Every call to `mark_pdf_as_processed` leaves the identifier in
the in-memory set, and — counting additions over the set\x27s lifetime from
empty, which is how the size-based trigger counts them — the persisted
tracker document is rewritten exactly on every 5th addition (it always
equals the largest multiple-of-5 prefix of the additions), so at most 4
additions are ever unsaved. -/
theorem c8_checkpoint_cadence (s : OrchState) (d r n : String)
    (l : List (String × String × String)) (hnd : (markIds l).Nodup) :
    get_pdf_identifier d r n ∈ (mark_pdf_as_processed s d r n).processed_pdfs
    ∧ (markRun initialState l).processed_pdfs = markIds l
    ∧ (markRun initialState l).persisted_pdfs =
        (markIds l).take (5 * (l.length / 5))
    ∧ (markRun initialState l).processed_pdfs.length -
        (markRun initialState l).persisted_pdfs.length ≤ 4 := by
  have hm := markRun_spec l hnd
  refine ⟨?_, hm.1, hm.2, ?_⟩
  · rw [(mark_spec s d r n).1]
    split <;> rename_i hc
    · exact hc
    · simp
  · rw [hm.1, hm.2]
    have hlen : (markIds l).length = l.length := by simp [markIds]
    rw [List.length_take, hlen]
    omega

/-- C8, witnessed with seven distinct marks: the persisted document holds
exactly the first five. -/
theorem c8_checkpoint_cadence_witness :
    get_pdf_identifier "D" "1" "x.pdf" ∈
      (mark_pdf_as_processed initialState "D" "1" "x.pdf").processed_pdfs
    ∧ (markRun initialState
        [("D", "1", "a"), ("D", "1", "b"), ("D", "1", "c"), ("D", "1", "d"),
         ("D", "1", "e"), ("D", "1", "f"), ("D", "1", "g")]).processed_pdfs =
        markIds
        [("D", "1", "a"), ("D", "1", "b"), ("D", "1", "c"), ("D", "1", "d"),
         ("D", "1", "e"), ("D", "1", "f"), ("D", "1", "g")]
    ∧ (markRun initialState
        [("D", "1", "a"), ("D", "1", "b"), ("D", "1", "c"), ("D", "1", "d"),
         ("D", "1", "e"), ("D", "1", "f"), ("D", "1", "g")]).persisted_pdfs =
        (markIds
        [("D", "1", "a"), ("D", "1", "b"), ("D", "1", "c"), ("D", "1", "d"),
         ("D", "1", "e"), ("D", "1", "f"), ("D", "1", "g")]).take
          (5 * (([("D", "1", "a"), ("D", "1", "b"), ("D", "1", "c"), ("D", "1", "d"),
         ("D", "1", "e"), ("D", "1", "f"), ("D", "1", "g")] :
              List (String × String × String)).length / 5))
    ∧ (markRun initialState
        [("D", "1", "a"), ("D", "1", "b"), ("D", "1", "c"), ("D", "1", "d"),
         ("D", "1", "e"), ("D", "1", "f"), ("D", "1", "g")]).processed_pdfs.length -
        (markRun initialState
        [("D", "1", "a"), ("D", "1", "b"), ("D", "1", "c"), ("D", "1", "d"),
         ("D", "1", "e"), ("D", "1", "f"), ("D", "1", "g")]).persisted_pdfs.length ≤ 4 :=
  c8_checkpoint_cadence initialState "D" "1" "x.pdf"
    [("D", "1", "a"), ("D", "1", "b"), ("D", "1", "c"), ("D", "1", "d"),
     ("D", "1", "e"), ("D", "1", "f"), ("D", "1", "g")] (by decide)



/-! ## Claim C6: round-folder tie-break -/

/-- C6 counterexample.  The district subfolders `Round 1` and `round1`
both normalize to round `1`, and `get_round_folders` keeps a different
one depending on the order the directory iterator enumerates them
(`round1` is shorter than `Round 1`, but `Round 1` starts with `R`), so
the choice is not deterministic. -/
theorem c6_tiebreak_counterexample :
    (get_round_folders [⟨"Round 1", []⟩, ⟨"round1", []⟩]).lookup "1" =
      some ⟨"round1", []⟩
    ∧ (get_round_folders [⟨"round1", []⟩, ⟨"Round 1", []⟩]).lookup "1" =
      some ⟨"Round 1", []⟩
    ∧ (get_round_folders [⟨"Round 1", []⟩, ⟨"round1", []⟩]).lookup "1" ≠
      (get_round_folders [⟨"round1", []⟩, ⟨"Round 1", []⟩]).lookup "1" := by
  refine ⟨by decide, by decide, by decide⟩

/-- C6 as amended.  When exactly two subfolders normalize to the same
round, the later-enumerated one displaces the earlier iff its name is
strictly shorter or starts with the capital-`R` prefix; the winner is
therefore always shorter-or-`R`-prefixed relative to the folder it
displaced, but (per the counterexample) the outcome depends on
enumeration order, so the choice is not order-independent. -/
theorem c6_tiebreak_amended (a b : Folder) (r : String)
    (ha : normalize_round_name a.name = some r)
    (hb : normalize_round_name b.name = some r) :
    (get_round_folders [a, b]).lookup r =
      some (if b.name.length < a.name.length ∨ pyStartsWith b.name "R" then b else a) := by
  simp only [get_round_folders, List.foldl_cons, List.foldl_nil, ha, hb]
  simp only [List.lookup_nil, List.nil_append]
  have hr : (r == r) = true := by simp
  simp [List.lookup, hr, assocSet]
  split <;> simp [List.lookup, hr]

/-- C6 amended, witnessed on the counterexample pair: the shorter name
wins when it comes second. -/
theorem c6_tiebreak_amended_witness :
    (get_round_folders [⟨"Round 1", []⟩, ⟨"round1", []⟩]).lookup "1" =
      some (if ("round1" : String).length < ("Round 1" : String).length ∨
          pyStartsWith "round1" "R" then (⟨"round1", []⟩ : Folder)
        else ⟨"Round 1", []⟩) :=
  c6_tiebreak_amended ⟨"Round 1", []⟩ ⟨"round1", []⟩ "1" (by decide) (by decide)



/-! ## Stepping lemmas for the retry loop

One attempt of `analyze_page_with_gpt` ends in one of three ways the
exception structure distinguishes: the records are returned (success), a
`json.JSONDecodeError` surfaces from the recovery parser (retried with
`continue`, no sleep, no delay growth), or any other failure — transport
error, unexpected exception, including a recovered value that is not a
list of dicts — is retried after `time.sleep(retry_delay)` and a 1.5×
delay growth. -/

/-- The three ways one attempt can end. -/
inductive AttemptClass where
  | success
  | jsonFail
  | sleepFail
  deriving DecidableEq

/-- Classify one attempt\x27s outcome. -/
def classify (o : ApiOutcome) : AttemptClass :=
  match o with
  | .transportError => .sleepFail
  | .unexpectedError => .sleepFail
  | .response raw =>
      match parse_json_with_recovery (cleanContent raw) with
      | .error _ => .jsonFail
      | .ok v =>
          match asObjList v with
          | some _ => .success
          | none => .sleepFail

/-- The records a successful attempt converts. -/
def successRecords (d r n : String) (p : Nat) (o : ApiOutcome) : List SoftwareRecord :=
  match o with
  | .response raw =>
      (match parse_json_with_recovery (cleanContent raw) with
       | .ok v =>
           (match asObjList v with
            | some items => items.map (buildRecord d r n p)
            | none => [])
       | .error _ => [])
  | _ => []

/-- A successful attempt returns its converted records at once, counts
the API call and the records, and sleeps no more. -/
theorem analyzeLoop_success (env : Nat → ApiOutcome) (d r n : String) (p : Nat)
    (att rem : Nat) (delay : ℚ) (st : Stats)
    (h : classify (env att) = .success) :
    analyzeLoop env d r n p att (rem + 1) delay st =
      { records := successRecords d r n p (env att)
        stats := { st with
          api_calls_made := st.api_calls_made + 1
          software_records_extracted := st.software_records_extracted +
            (successRecords d r n p (env att)).length }
        sleeps := [] } := by
  cases henv : env att with
  | transportError => simp [classify, henv] at h
  | unexpectedError => simp [classify, henv] at h
  | response raw =>
      cases hp : parse_json_with_recovery (cleanContent raw) with
      | error e => simp [classify, henv, hp] at h
      | ok v =>
          cases ho : asObjList v with
          | none => simp [classify, henv, hp, ho] at h
          | some items =>
              simp [analyzeLoop, henv, hp, ho, successRecords]

/-- A non-final sleeping-class failure: the call is counted, the loop
sleeps the current delay and retries with the delay grown 1.5×. -/
theorem analyzeLoop_sleepFail (env : Nat → ApiOutcome) (d r n : String) (p : Nat)
    (att rem : Nat) (delay : ℚ) (st : Stats)
    (h : classify (env att) = .sleepFail) (hlast : ¬ att = max_retries - 1) :
    analyzeLoop env d r n p att (rem + 1) delay st =
      { records := (analyzeLoop env d r n p (att + 1) rem (delay * (3 / 2))
          { st with api_calls_made := st.api_calls_made + 1 }).records
        stats := (analyzeLoop env d r n p (att + 1) rem (delay * (3 / 2))
          { st with api_calls_made := st.api_calls_made + 1 }).stats
        sleeps := delay :: (analyzeLoop env d r n p (att + 1) rem (delay * (3 / 2))
          { st with api_calls_made := st.api_calls_made + 1 }).sleeps } := by
  cases henv : env att with
  | transportError => simp [analyzeLoop, henv, hlast]
  | unexpectedError => simp [analyzeLoop, henv, hlast]
  | response raw =>
      cases hp : parse_json_with_recovery (cleanContent raw) with
      | error e => simp [classify, henv, hp] at h
      | ok v =>
          cases ho : asObjList v with
          | some items => simp [classify, henv, hp, ho] at h
          | none => simp [analyzeLoop, henv, hp, ho, hlast]

/-- A non-final malformed-JSON failure: the call is counted and the loop
retries immediately — no sleep, same delay. -/
theorem analyzeLoop_jsonFail (env : Nat → ApiOutcome) (d r n : String) (p : Nat)
    (att rem : Nat) (delay : ℚ) (st : Stats)
    (h : classify (env att) = .jsonFail) (hlast : ¬ att = max_retries - 1) :
    analyzeLoop env d r n p att (rem + 1) delay st =
      analyzeLoop env d r n p (att + 1) rem delay
        { st with api_calls_made := st.api_calls_made + 1 } := by
  cases henv : env att with
  | transportError => simp [classify, henv] at h
  | unexpectedError => simp [classify, henv] at h
  | response raw =>
      cases hp : parse_json_with_recovery (cleanContent raw) with
      | ok v =>
          cases ho : asObjList v with
          | some items => simp [classify, henv, hp, ho] at h
          | none => simp [classify, henv, hp, ho] at h
      | error e => simp [analyzeLoop, henv, hp, hlast]

/-- Any failure on the final attempt: empty records, one error counted,
no sleep. -/
theorem analyzeLoop_lastFail (env : Nat → ApiOutcome) (d r n : String) (p : Nat)
    (att rem : Nat) (delay : ℚ) (st : Stats)
    (h : ¬ classify (env att) = .success) (hlast : att = max_retries - 1) :
    analyzeLoop env d r n p att (rem + 1) delay st =
      { records := []
        stats := { st with
          api_calls_made := st.api_calls_made + 1
          errors_encountered := st.errors_encountered + 1 }
        sleeps := [] } := by
  subst hlast
  cases henv : env (max_retries - 1) with
  | transportError => simp [analyzeLoop, henv]
  | unexpectedError => simp [analyzeLoop, henv]
  | response raw =>
      cases hp : parse_json_with_recovery (cleanContent raw) with
      | error e => simp [analyzeLoop, henv, hp]
      | ok v =>
          cases ho : asObjList v with
          | some items => simp [classify, henv, hp, ho] at h
          | none => simp [analyzeLoop, henv, hp, ho]



/-! ## Claim C7: terminal degrade -/

/-- C7.  When all three attempts fail — in any mix of the three failure
classes (transport, malformed JSON, unexpected exception) —
`analyze_page_with_gpt` returns an empty record list and increments
`errors_encountered` exactly once.  The model is a total function: every
failure is absorbed by the handlers, none escapes to the caller. -/
theorem c7_terminal_degrade (env : Nat → ApiOutcome) (d r n : String) (p : Nat)
    (st : Stats)
    (h0 : ¬ classify (env 0) = .success) (h1 : ¬ classify (env 1) = .success)
    (h2 : ¬ classify (env 2) = .success) :
    (analyze_page_with_gpt env true d r n p st).records = []
    ∧ (analyze_page_with_gpt env true d r n p st).stats.errors_encountered =
        st.errors_encountered + 1 := by
  have hg : analyze_page_with_gpt env true d r n p st = analyzeLoop env d r n p 0 3 2 st := by
    simp [analyze_page_with_gpt, max_retries]
  have hstep2 : ∀ (delay : ℚ) (st2 : Stats), analyzeLoop env d r n p 2 1 delay st2 =
      { records := []
        stats := { st2 with
          api_calls_made := st2.api_calls_made + 1
          errors_encountered := st2.errors_encountered + 1 }
        sleeps := [] } :=
    fun delay st2 => analyzeLoop_lastFail env d r n p 2 0 delay st2 h2 (by decide)
  rw [hg]
  cases hc0 : classify (env 0) with
  | success => exact absurd hc0 h0
  | jsonFail =>
      have e0 : analyzeLoop env d r n p 0 3 2 st =
          analyzeLoop env d r n p 1 2 2
            { st with api_calls_made := st.api_calls_made + 1 } :=
        analyzeLoop_jsonFail env d r n p 0 2 2 st hc0 (by decide)
      rw [e0]
      cases hc1 : classify (env 1) with
      | success => exact absurd hc1 h1
      | jsonFail =>
          have e1 : analyzeLoop env d r n p 1 2 2
              { st with api_calls_made := st.api_calls_made + 1 } =
              analyzeLoop env d r n p 2 1 2
                { st with api_calls_made := st.api_calls_made + 1 + 1 } :=
            analyzeLoop_jsonFail env d r n p 1 1 2 _ hc1 (by decide)
          rw [e1, hstep2]
          simp
      | sleepFail =>
          have e1 : analyzeLoop env d r n p 1 2 2
              { st with api_calls_made := st.api_calls_made + 1 } =
              { records := (analyzeLoop env d r n p 2 1 (2 * (3 / 2))
                  { st with api_calls_made := st.api_calls_made + 1 + 1 }).records
                stats := (analyzeLoop env d r n p 2 1 (2 * (3 / 2))
                  { st with api_calls_made := st.api_calls_made + 1 + 1 }).stats
                sleeps := 2 :: (analyzeLoop env d r n p 2 1 (2 * (3 / 2))
                  { st with api_calls_made := st.api_calls_made + 1 + 1 }).sleeps } :=
            analyzeLoop_sleepFail env d r n p 1 1 2 _ hc1 (by decide)
          rw [e1, hstep2]
          simp
  | sleepFail =>
      have e0 : analyzeLoop env d r n p 0 3 2 st =
          { records := (analyzeLoop env d r n p 1 2 (2 * (3 / 2))
              { st with api_calls_made := st.api_calls_made + 1 }).records
            stats := (analyzeLoop env d r n p 1 2 (2 * (3 / 2))
              { st with api_calls_made := st.api_calls_made + 1 }).stats
            sleeps := 2 :: (analyzeLoop env d r n p 1 2 (2 * (3 / 2))
              { st with api_calls_made := st.api_calls_made + 1 }).sleeps } :=
        analyzeLoop_sleepFail env d r n p 0 2 2 st hc0 (by decide)
      rw [e0]
      cases hc1 : classify (env 1) with
      | success => exact absurd hc1 h1
      | jsonFail =>
          have e1 : analyzeLoop env d r n p 1 2 (2 * (3 / 2))
              { st with api_calls_made := st.api_calls_made + 1 } =
              analyzeLoop env d r n p 2 1 (2 * (3 / 2))
                { st with api_calls_made := st.api_calls_made + 1 + 1 } :=
            analyzeLoop_jsonFail env d r n p 1 1 (2 * (3 / 2)) _ hc1 (by decide)
          rw [e1, hstep2]
          simp
      | sleepFail =>
          have e1 : analyzeLoop env d r n p 1 2 (2 * (3 / 2))
              { st with api_calls_made := st.api_calls_made + 1 } =
              { records := (analyzeLoop env d r n p 2 1 (2 * (3 / 2) * (3 / 2))
                  { st with api_calls_made := st.api_calls_made + 1 + 1 }).records
                stats := (analyzeLoop env d r n p 2 1 (2 * (3 / 2) * (3 / 2))
                  { st with api_calls_made := st.api_calls_made + 1 + 1 }).stats
                sleeps := 2 * (3 / 2) :: (analyzeLoop env d r n p 2 1 (2 * (3 / 2) * (3 / 2))
                  { st with api_calls_made := st.api_calls_made + 1 + 1 }).sleeps } :=
            analyzeLoop_sleepFail env d r n p 1 1 (2 * (3 / 2)) _ hc1 (by decide)
          rw [e1, hstep2]
          simp

/-- C7, witnessed: one transport failure, one unparseable response, one
unexpected exception. -/
theorem c7_terminal_degrade_witness :
    (analyze_page_with_gpt
        (fun i => [ApiOutcome.transportError, ApiOutcome.response "not json",
          ApiOutcome.unexpectedError].getD i .unexpectedError)
        true "D" "1" "a.pdf" 0 {}).records = []
    ∧ (analyze_page_with_gpt
        (fun i => [ApiOutcome.transportError, ApiOutcome.response "not json",
          ApiOutcome.unexpectedError].getD i .unexpectedError)
        true "D" "1" "a.pdf" 0 {}).stats.errors_encountered =
        Stats.errors_encountered {} + 1 :=
  c7_terminal_degrade
    (fun i => [ApiOutcome.transportError, ApiOutcome.response "not json",
      ApiOutcome.unexpectedError].getD i .unexpectedError)
    "D" "1" "a.pdf" 0 {} (by decide) (by decide) (by decide)



/-! ## Claim C3: retry/backoff policy -/

/-- C3 counterexample.  A malformed-JSON response on attempt 1 followed
by a clean empty-array response on attempt 2: the retry happens (two API
calls), but no `time.sleep` at all precedes it — the `JSONDecodeError`
handler re-enters the loop with `continue`, skipping both the backoff
sleep and the 1.5× delay growth that the transport/unexpected handlers
perform.  This refutes "an exponential-backoff sleep before every retry
... regardless of which failure class occurred". -/
theorem c3_uniform_backoff_counterexample :
    (analyze_page_with_gpt
        (fun i => if i = 0 then .response "not json" else .response "[]")
        true "D" "1" "a.pdf" 0 {}).stats.api_calls_made = 2
    ∧ (analyze_page_with_gpt
        (fun i => if i = 0 then .response "not json" else .response "[]")
        true "D" "1" "a.pdf" 0 {}).sleeps = [] := by
  refine ⟨by decide, by decide⟩

/-- How many attempts the loop makes: it stops at the first success and
never exceeds 3. -/
def attemptsOf (env : Nat → ApiOutcome) : Nat :=
  if classify (env 0) = .success then 1
  else if classify (env 1) = .success then 2
  else 3

/-- Whether an attempt class is one the handlers sleep on. -/
def isSleepFail : AttemptClass → Bool
  | .sleepFail => true
  | _ => false

/-- How many of the first `k` attempts fail in a sleeping class. -/
def sleepRetryCount (env : Nat → ApiOutcome) (k : Nat) : Nat :=
  ((List.range k).filter (fun i => isSleepFail (classify (env i)))).length

/-- C3 as amended.  `analyze_page_with_gpt` makes between 1 and 3
attempts (stopping at the first success).  A sleep precedes a retry only
for the sleeping failure classes — transport/HTTP failures and
unexpected exceptions; a malformed-JSON response is retried immediately
with no sleep and no delay growth.  The sleep log is therefore
`2, 3, 4.5, ...` (2 seconds to start, 1.5× per sleeping retry), with one
entry per non-final sleeping-class failure — not one per retry. -/
theorem c3_retry_backoff_amended (env : Nat → ApiOutcome) (d r n : String)
    (p : Nat) (st : Stats) :
    1 ≤ attemptsOf env ∧ attemptsOf env ≤ 3
    ∧ (analyze_page_with_gpt env true d r n p st).stats.api_calls_made =
        st.api_calls_made + attemptsOf env
    ∧ (analyze_page_with_gpt env true d r n p st).sleeps =
        (List.range (sleepRetryCount env (attemptsOf env - 1))).map
          (fun i => (2 : ℚ) * (3 / 2) ^ i) := by
  have hg : analyze_page_with_gpt env true d r n p st = analyzeLoop env d r n p 0 3 2 st := by
    simp [analyze_page_with_gpt, max_retries]
  simp only [hg]
  cases hc0 : classify (env 0) with
  | success =>
      have hres : analyzeLoop env d r n p 0 3 2 st =
          { records := successRecords d r n p (env 0)
            stats := { st with
              api_calls_made := st.api_calls_made + 1
              software_records_extracted := st.software_records_extracted +
                (successRecords d r n p (env 0)).length }
            sleeps := [] } :=
        analyzeLoop_success env d r n p 0 2 2 st hc0
      rw [hres]
      simp [attemptsOf, sleepRetryCount, hc0]
  | jsonFail =>
      have e0 : analyzeLoop env d r n p 0 3 2 st =
          analyzeLoop env d r n p 1 2 2
            { st with api_calls_made := st.api_calls_made + 1 } :=
        analyzeLoop_jsonFail env d r n p 0 2 2 st hc0 (by decide)
      rw [e0]
      cases hc1 : classify (env 1) with
      | success =>
          have hres : analyzeLoop env d r n p 1 2 2
              { st with api_calls_made := st.api_calls_made + 1 } =
              { records := successRecords d r n p (env 1)
                stats := { st with
                  api_calls_made := st.api_calls_made + 1 + 1
                  software_records_extracted := st.software_records_extracted +
                    (successRecords d r n p (env 1)).length }
                sleeps := [] } :=
            analyzeLoop_success env d r n p 1 1 2 _ hc1
          rw [hres]
          simp [attemptsOf, sleepRetryCount, hc0, hc1, List.range_succ, isSleepFail]
      | jsonFail =>
          have e1 : analyzeLoop env d r n p 1 2 2
              { st with api_calls_made := st.api_calls_made + 1 } =
              analyzeLoop env d r n p 2 1 2
                { st with api_calls_made := st.api_calls_made + 1 + 1 } :=
            analyzeLoop_jsonFail env d r n p 1 1 2 _ hc1 (by decide)
          rw [e1]
          by_cases hc2 : classify (env 2) = .success
          · have hres : analyzeLoop env d r n p 2 1 2
                { st with api_calls_made := st.api_calls_made + 1 + 1 } =
                { records := successRecords d r n p (env 2)
                  stats := { st with
                    api_calls_made := st.api_calls_made + 1 + 1 + 1
                    software_records_extracted := st.software_records_extracted +
                      (successRecords d r n p (env 2)).length }
                  sleeps := [] } :=
              analyzeLoop_success env d r n p 2 0 2 _ hc2
            rw [hres]
            simp [attemptsOf, sleepRetryCount, hc0, hc1, List.range_succ, isSleepFail]
          · have hres : analyzeLoop env d r n p 2 1 2
                { st with api_calls_made := st.api_calls_made + 1 + 1 } =
                { records := []
                  stats := { st with
                    api_calls_made := st.api_calls_made + 1 + 1 + 1
                    errors_encountered := st.errors_encountered + 1 }
                  sleeps := [] } :=
              analyzeLoop_lastFail env d r n p 2 0 2 _ hc2 (by decide)
            rw [hres]
            simp [attemptsOf, sleepRetryCount, hc0, hc1, List.range_succ, isSleepFail]
      | sleepFail =>
          have e1 : analyzeLoop env d r n p 1 2 2
              { st with api_calls_made := st.api_calls_made + 1 } =
              { records := (analyzeLoop env d r n p 2 1 (2 * (3 / 2))
                  { st with api_calls_made := st.api_calls_made + 1 + 1 }).records
                stats := (analyzeLoop env d r n p 2 1 (2 * (3 / 2))
                  { st with api_calls_made := st.api_calls_made + 1 + 1 }).stats
                sleeps := 2 :: (analyzeLoop env d r n p 2 1 (2 * (3 / 2))
                  { st with api_calls_made := st.api_calls_made + 1 + 1 }).sleeps } :=
            analyzeLoop_sleepFail env d r n p 1 1 2 _ hc1 (by decide)
          rw [e1]
          by_cases hc2 : classify (env 2) = .success
          · have hres : analyzeLoop env d r n p 2 1 (2 * (3 / 2))
                { st with api_calls_made := st.api_calls_made + 1 + 1 } =
                { records := successRecords d r n p (env 2)
                  stats := { st with
                    api_calls_made := st.api_calls_made + 1 + 1 + 1
                    software_records_extracted := st.software_records_extracted +
                      (successRecords d r n p (env 2)).length }
                  sleeps := [] } :=
              analyzeLoop_success env d r n p 2 0 (2 * (3 / 2)) _ hc2
            rw [hres]
            simp [attemptsOf, sleepRetryCount, hc0, hc1, List.range_succ, isSleepFail]
          · have hres : analyzeLoop env d r n p 2 1 (2 * (3 / 2))
                { st with api_calls_made := st.api_calls_made + 1 + 1 } =
                { records := []
                  stats := { st with
                    api_calls_made := st.api_calls_made + 1 + 1 + 1
                    errors_encountered := st.errors_encountered + 1 }
                  sleeps := [] } :=
              analyzeLoop_lastFail env d r n p 2 0 (2 * (3 / 2)) _ hc2 (by decide)
            rw [hres]
            simp [attemptsOf, sleepRetryCount, hc0, hc1, List.range_succ, isSleepFail]
  | sleepFail =>
      have e0 : analyzeLoop env d r n p 0 3 2 st =
          { records := (analyzeLoop env d r n p 1 2 (2 * (3 / 2))
              { st with api_calls_made := st.api_calls_made + 1 }).records
            stats := (analyzeLoop env d r n p 1 2 (2 * (3 / 2))
              { st with api_calls_made := st.api_calls_made + 1 }).stats
            sleeps := 2 :: (analyzeLoop env d r n p 1 2 (2 * (3 / 2))
              { st with api_calls_made := st.api_calls_made + 1 }).sleeps } :=
        analyzeLoop_sleepFail env d r n p 0 2 2 st hc0 (by decide)
      rw [e0]
      cases hc1 : classify (env 1) with
      | success =>
          have hres : analyzeLoop env d r n p 1 2 (2 * (3 / 2))
              { st with api_calls_made := st.api_calls_made + 1 } =
              { records := successRecords d r n p (env 1)
                stats := { st with
                  api_calls_made := st.api_calls_made + 1 + 1
                  software_records_extracted := st.software_records_extracted +
                    (successRecords d r n p (env 1)).length }
                sleeps := [] } :=
            analyzeLoop_success env d r n p 1 1 (2 * (3 / 2)) _ hc1
          rw [hres]
          simp [attemptsOf, sleepRetryCount, hc0, hc1, List.range_succ, isSleepFail]
      | jsonFail =>
          have e1 : analyzeLoop env d r n p 1 2 (2 * (3 / 2))
              { st with api_calls_made := st.api_calls_made + 1 } =
              analyzeLoop env d r n p 2 1 (2 * (3 / 2))
                { st with api_calls_made := st.api_calls_made + 1 + 1 } :=
            analyzeLoop_jsonFail env d r n p 1 1 (2 * (3 / 2)) _ hc1 (by decide)
          rw [e1]
          by_cases hc2 : classify (env 2) = .success
          · have hres : analyzeLoop env d r n p 2 1 (2 * (3 / 2))
                { st with api_calls_made := st.api_calls_made + 1 + 1 } =
                { records := successRecords d r n p (env 2)
                  stats := { st with
                    api_calls_made := st.api_calls_made + 1 + 1 + 1
                    software_records_extracted := st.software_records_extracted +
                      (successRecords d r n p (env 2)).length }
                  sleeps := [] } :=
              analyzeLoop_success env d r n p 2 0 (2 * (3 / 2)) _ hc2
            rw [hres]
            simp [attemptsOf, sleepRetryCount, hc0, hc1, List.range_succ, isSleepFail]
          · have hres : analyzeLoop env d r n p 2 1 (2 * (3 / 2))
                { st with api_calls_made := st.api_calls_made + 1 + 1 } =
                { records := []
                  stats := { st with
                    api_calls_made := st.api_calls_made + 1 + 1 + 1
                    errors_encountered := st.errors_encountered + 1 }
                  sleeps := [] } :=
              analyzeLoop_lastFail env d r n p 2 0 (2 * (3 / 2)) _ hc2 (by decide)
            rw [hres]
            simp [attemptsOf, sleepRetryCount, hc0, hc1, List.range_succ, isSleepFail]
      | sleepFail =>
          have e1 : analyzeLoop env d r n p 1 2 (2 * (3 / 2))
              { st with api_calls_made := st.api_calls_made + 1 } =
              { records := (analyzeLoop env d r n p 2 1 (2 * (3 / 2) * (3 / 2))
                  { st with api_calls_made := st.api_calls_made + 1 + 1 }).records
                stats := (analyzeLoop env d r n p 2 1 (2 * (3 / 2) * (3 / 2))
                  { st with api_calls_made := st.api_calls_made + 1 + 1 }).stats
                sleeps := 2 * (3 / 2) :: (analyzeLoop env d r n p 2 1 (2 * (3 / 2) * (3 / 2))
                  { st with api_calls_made := st.api_calls_made + 1 + 1 }).sleeps } :=
            analyzeLoop_sleepFail env d r n p 1 1 (2 * (3 / 2)) _ hc1 (by decide)
          rw [e1]
          by_cases hc2 : classify (env 2) = .success
          · have hres : analyzeLoop env d r n p 2 1 (2 * (3 / 2) * (3 / 2))
                { st with api_calls_made := st.api_calls_made + 1 + 1 } =
                { records := successRecords d r n p (env 2)
                  stats := { st with
                    api_calls_made := st.api_calls_made + 1 + 1 + 1
                    software_records_extracted := st.software_records_extracted +
                      (successRecords d r n p (env 2)).length }
                  sleeps := [] } :=
              analyzeLoop_success env d r n p 2 0 (2 * (3 / 2) * (3 / 2)) _ hc2
            rw [hres]
            simp [attemptsOf, sleepRetryCount, hc0, hc1, List.range_succ, isSleepFail]
          · have hres : analyzeLoop env d r n p 2 1 (2 * (3 / 2) * (3 / 2))
                { st with api_calls_made := st.api_calls_made + 1 + 1 } =
                { records := []
                  stats := { st with
                    api_calls_made := st.api_calls_made + 1 + 1 + 1
                    errors_encountered := st.errors_encountered + 1 }
                  sleeps := [] } :=
              analyzeLoop_lastFail env d r n p 2 0 (2 * (3 / 2) * (3 / 2)) _ hc2 (by decide)
            rw [hres]
            simp [attemptsOf, sleepRetryCount, hc0, hc1, List.range_succ, isSleepFail]


/-! ## Claim C4: malformed-response signalling -/

/-- C4.  `parse_json_with_recovery` raises a `json.JSONDecodeError`
(modelled by `Except.error`) exactly when strategy 1 (direct parse),
strategy 2 (syntactic repair), strategy 3 (array-span extraction) and
strategy 4 (object salvage) all fail — it never converts a total salvage
failure into a silently empty list; and whenever it returns a value,
some strategy produced that value. -/
theorem c4_malformed_signalling (s : String) :
    (strategy1 s = none → strategy2 s = none → strategy3 s = none →
      extract_json_objects s = [] → parse_json_with_recovery s = .error ())
    ∧ (∀ v, parse_json_with_recovery s = .ok v →
        strategy1 s = some v ∨ strategy2 s = some v ∨ strategy3 s = some v ∨
        (¬ extract_json_objects s = [] ∧ v = .arr (extract_json_objects s))) := by
  constructor
  · intro h1 h2 h3 h4
    simp [parse_json_with_recovery, h1, h2, h3, h4]
  · intro v hv
    unfold parse_json_with_recovery at hv
    cases hs1 : strategy1 s with
    | some w =>
        rw [hs1] at hv
        simp at hv
        exact Or.inl (by rw [← hv])

    | none =>
        rw [hs1] at hv
        cases hs2 : strategy2 s with
        | some w =>
            rw [hs2] at hv
            simp at hv
            exact Or.inr (Or.inl (by rw [← hv]))
        | none =>
            rw [hs2] at hv
            cases hs3 : strategy3 s with
            | some w =>
                rw [hs3] at hv
                simp at hv
                exact Or.inr (Or.inr (Or.inl (by rw [← hv])))
            | none =>
                rw [hs3] at hv
                simp only at hv
                split at hv
                · exact absurd hv (by simp)
                · rename_i hne
                  simp at hv
                  exact Or.inr (Or.inr (Or.inr ⟨by simpa using hne, hv.symm⟩))

/-- C4, witnessed: on content no strategy can salvage, the recovery
parser raises instead of returning an empty list. -/
theorem c4_malformed_signalling_witness :
    parse_json_with_recovery "no json here at all" = .error () :=
  (c4_malformed_signalling "no json here at all").1
    (by decide) (by decide) (by decide) (by decide)



/-! ## Claim C9: record field defaults -/

theorem lookup_dictInsert_ne (dd : List (String × Json)) (k k2 : String) (v : Json)
    (h : ¬ k2 = k) : List.lookup k2 (dictInsert dd k v) = List.lookup k2 dd := by
  have hb : (k2 == k) = false := by simp [h]
  induction dd with
  | nil => simp [dictInsert, List.lookup, hb]
  | cons kv rest ih =>
      rcases kv with ⟨kk, vv⟩
      by_cases hk : kk = k
      · subst hk
        simp [dictInsert, List.lookup, hb]
      · simp only [dictInsert, hk, ite_false, if_neg, not_false_iff, List.lookup]
        cases hc : k2 == kk <;> simp [hc, ih]

theorem lookup_dictInsert_self (dd : List (String × Json)) (k : String) (v : Json) :
    List.lookup k (dictInsert dd k v) = some v := by
  induction dd with
  | nil => simp [dictInsert, List.lookup]
  | cons kv rest ih =>
      rcases kv with ⟨kk, vv⟩
      by_cases hk : kk = k
      · subst hk; simp [dictInsert, List.lookup]
      · have hb : (k == kk) = false := by
          rw [beq_eq_false_iff_ne]
          exact fun hh => hk hh.symm
        simp only [dictInsert, hk, ite_false, if_neg, not_false_iff, List.lookup]
        simp [hb, ih]

/-- The mutation step touches only the `misc_notes` key. -/
theorem mutatedItem_lookup_ne (r : String) (item : List (String × Json)) (k : String)
    (hk : ¬ k = "misc_notes") :
    List.lookup k (mutatedItem r item) = List.lookup k item := by
  unfold mutatedItem
  split
  · exact lookup_dictInsert_ne item "misc_notes" k _ hk
  · rfl

/-- Whatever the mutation decides, `misc_notes` stays a string when it
was missing or held a string. -/
theorem mutatedItem_notes (r : String) (item : List (String × Json)) :
    (List.lookup "misc_notes" item = none →
      ∃ s, dictGet (mutatedItem r item) "misc_notes" (.str "") = .str s)
    ∧ (∀ s, List.lookup "misc_notes" item = some (.str s) →
      ∃ t, dictGet (mutatedItem r item) "misc_notes" (.str "") = .str t) := by
  constructor
  · intro hl
    unfold mutatedItem
    split
    · refine ⟨pyStrip (pyStr (dictGet item "misc_notes" (Json.str "")) ++
        " [Year-Round mismatch noted]"), ?_⟩
      simp [dictGet, lookup_dictInsert_self]
    · exact ⟨"", by simp [dictGet, hl]⟩
  · intro sv hl
    unfold mutatedItem
    split
    · refine ⟨pyStrip (pyStr (dictGet item "misc_notes" (Json.str "")) ++
        " [Year-Round mismatch noted]"), ?_⟩
      simp [dictGet, lookup_dictInsert_self]
    · exact ⟨sv, by simp [dictGet, hl]⟩

/-- The Json fields built through `str(...)`, which are therefore always
strings. -/
def strCoercedFields (rec : SoftwareRecord) : List Json :=
  [rec.num_school_lic, rec.num_district_lic, rec.cost_per_lic, rec.cost_total,
   rec.contract_start_year, rec.contract_length_years, rec.install_year,
   rec.quote_year, rec.page_number]

/-- The field/key pairs copied verbatim from the dictionary, with no
`str(...)` coercion. -/
def textFields : List (String × (SoftwareRecord → Json)) :=
  [("software", SoftwareRecord.software), ("vendor", SoftwareRecord.vendor),
   ("school_name", SoftwareRecord.school_name),
   ("approx_level", SoftwareRecord.approx_level),
   ("use_type", SoftwareRecord.use_type), ("host_type", SoftwareRecord.host_type),
   ("contract_start_month", SoftwareRecord.contract_start_month),
   ("install_month", SoftwareRecord.install_month),
   ("quote_month", SoftwareRecord.quote_month)]

/-- C9 counterexample.  A recovered dictionary can hold `null` (or any
non-string JSON value) at a present key; `item.get(key, \x27\x27)` only
defaults *missing* keys, and the non-coerced fields store the value
verbatim, so the built record\x27s `vendor` is `None` — not a string and
not the empty string.  This refutes "every field equal to a string ...
and never null". -/
theorem c9_field_defaults_counterexample :
    parse_json_with_recovery "[\x7b\"software\": \"X\", \"vendor\": null\x7d]" =
      .ok (.arr [.obj [("software", .str "X"), ("vendor", .null)]])
    ∧ (buildRecord "D" "1" "a.pdf" 0
        [("software", .str "X"), ("vendor", .null)]).vendor = .null
    ∧ ∀ s : String, ¬ (buildRecord "D" "1" "a.pdf" 0
        [("software", .str "X"), ("vendor", .null)]).vendor = .str s := by
  refine ⟨by decide, by decide, ?_⟩
  intro s h
  rw [show (buildRecord "D" "1" "a.pdf" 0
      [("software", .str "X"), ("vendor", .null)]).vendor = .null from by decide] at h
  exact Json.noConfusion h

/-- C9 as amended.  The `str(...)`-coerced numeric fields (and the
context fields) are always strings; a key *missing* from the dictionary
defaults the field to the empty string; a key present with a string
value is stored verbatim; but a key present with a non-string value
(e.g. `null`) is stored unchanged in the non-coerced fields, so
string-ness is only guaranteed for missing keys, string values, and the
coerced fields. -/
theorem c9_field_defaults_amended (d r n : String) (p : Nat)
    (item : List (String × Json)) :
    (∀ j ∈ strCoercedFields (buildRecord d r n p item), ∃ s, j = Json.str s)
    ∧ (buildRecord d r n p item).district = .str d
    ∧ (buildRecord d r n p item).round = .str r
    ∧ (buildRecord d r n p item).source_file = .str n
    ∧ (∀ kf ∈ textFields, List.lookup kf.1 item = none →
        kf.2 (buildRecord d r n p item) = .str "")
    ∧ (∀ kf ∈ textFields, ∀ s, List.lookup kf.1 item = some (.str s) →
        kf.2 (buildRecord d r n p item) = .str s)
    ∧ (List.lookup "misc_notes" item = none →
        ∃ s, (buildRecord d r n p item).misc_notes = .str s)
    ∧ (∀ s, List.lookup "misc_notes" item = some (.str s) →
        ∃ t, (buildRecord d r n p item).misc_notes = .str t) := by
  refine ⟨?_, rfl, rfl, rfl, ?_, ?_, ?_, ?_⟩
  · intro j hj
    simp [buildRecord, strCoercedFields] at hj
    rcases hj with h | h | h | h | h | h | h | h | h <;> exact ⟨_, h⟩
  · intro kf hkf hl
    simp only [textFields, List.mem_cons, List.not_mem_nil, or_false] at hkf
    rcases hkf with h | h | h | h | h | h | h | h | h <;> subst h <;>
      simp [buildRecord, dictGet, mutatedItem_lookup_ne, hl]
  · intro kf hkf s hl
    simp only [textFields, List.mem_cons, List.not_mem_nil, or_false] at hkf
    rcases hkf with h | h | h | h | h | h | h | h | h <;> subst h <;>
      simp [buildRecord, dictGet, mutatedItem_lookup_ne, hl]
  · intro hl
    simpa [buildRecord] using (mutatedItem_notes r item).1 hl
  · intro s hl
    simpa [buildRecord] using (mutatedItem_notes r item).2 s hl



/-- C9 amended, witnessed: a dictionary carrying only `software` gives a
record whose coerced fields are strings, whose missing `vendor` defaults
to the empty string, and whose `software` is stored verbatim. -/
theorem c9_field_defaults_amended_witness :
    (∀ j ∈ strCoercedFields (buildRecord "D" "1" "a.pdf" 0 [("software", Json.str "X")]),
      ∃ s, j = Json.str s)
    ∧ SoftwareRecord.vendor (buildRecord "D" "1" "a.pdf" 0 [("software", Json.str "X")]) =
        Json.str ""
    ∧ SoftwareRecord.software (buildRecord "D" "1" "a.pdf" 0 [("software", Json.str "X")]) =
        Json.str "X" := by
  refine ⟨(c9_field_defaults_amended "D" "1" "a.pdf" 0 [("software", Json.str "X")]).1,
    ?_, ?_⟩
  · exact (c9_field_defaults_amended "D" "1" "a.pdf" 0
      [("software", Json.str "X")]).2.2.2.2.1 ("vendor", SoftwareRecord.vendor)
      (by simp [textFields]) (by decide)
  · exact (c9_field_defaults_amended "D" "1" "a.pdf" 0
      [("software", Json.str "X")]).2.2.2.2.2.1 ("software", SoftwareRecord.software)
      (by simp [textFields]) "X" (by decide)



/-! ## Claim C5: recovery round-trips

The claim quantifies over "lists of valid record dictionaries serialized
to JSON".  `dumpsRecords` below is the serialization, modelled from the
words of the claim ("serialized to JSON", i.e. `json.dumps` with its
default `", "` and `": "` separators) since the serializer itself is not
part of the repository.  A *plain* string serializes without escapes;
`jsonOf` is the Python value `json.loads` gives back for such a list. -/

/-- A character that `json.dumps` emits verbatim inside a string literal
and `json.loads` accepts back: not a quote, not a backslash, not a
control character. -/
def plainChar (c : Char) : Prop := ¬ c = '"' ∧ ¬ c = '\\' ∧ 0x20 ≤ c.toNat

instance (c : Char) : Decidable (plainChar c) := by unfold plainChar; infer_instance

/-- A string of plain characters. -/
def PlainStr (s : String) : Prop := ∀ c ∈ s.data, plainChar c

/-- A valid record dictionary: plain keys and values, no duplicate keys. -/
def ValidRecord (kvs : List (String × String)) : Prop :=
  (∀ kv ∈ kvs, PlainStr kv.1 ∧ PlainStr kv.2) ∧ (kvs.map Prod.fst).Nodup

/-- A valid list of record dictionaries. -/
def ValidRecList (l : List (List (String × String))) : Prop :=
  ∀ kvs ∈ l, ValidRecord kvs

instance (s : String) : Decidable (PlainStr s) := by unfold PlainStr; infer_instance

instance (kvs : List (String × String)) : Decidable (ValidRecord kvs) := by
  unfold ValidRecord; infer_instance

instance (l : List (List (String × String))) : Decidable (ValidRecList l) := by
  unfold ValidRecList; infer_instance

/-- Serialize a plain string. -/
def serStr (s : String) : List Char := '"' :: s.data ++ ['"']

/-- Serialize one key-value member of an object. -/
def serMember (kv : String × String) : List Char :=
  serStr kv.1 ++ ':' :: ' ' :: serStr kv.2

/-- Serialize the members of an object, comma-space separated. -/
def serMembersSep : List (String × String) → List Char
  | [] => []
  | [kv] => serMember kv
  | kv :: rest => serMember kv ++ ',' :: ' ' :: serMembersSep rest

/-- Serialize one object. -/
def serObj (kvs : List (String × String)) : List Char :=
  '{' :: serMembersSep kvs ++ ['}']

/-- Serialize the objects of the array, comma-space separated. -/
def serObjsSep : List (List (String × String)) → List Char
  | [] => []
  | [kvs] => serObj kvs
  | kvs :: rest => serObj kvs ++ ',' :: ' ' :: serObjsSep rest

/-- Modelled from the claim: `json.dumps` of a list of record
dictionaries with the default separators. -/
def dumpsRecords (l : List (List (String × String))) : List Char :=
  '[' :: serObjsSep l ++ [']']

/-- The Python value `json.loads` yields for such serialized input. -/
def jsonOf (l : List (List (String × String))) : Json :=
  .arr (l.map (fun kvs => .obj (kvs.map (fun kv => (kv.1, Json.str kv.2)))))

/-! ### Round-trip lemmas for the strict parser -/

theorem skipWs_cons_of_not_ws {c : Char} (h : jsonWs c = false) (cs : List Char) :
    skipWs (c :: cs) = c :: cs := by
  simp [skipWs, List.dropWhile_cons, h]

theorem parseStrChars_plain (s : List Char) (hp : ∀ c ∈ s, plainChar c) :
    ∀ rest, parseStrChars (s ++ '"' :: rest) = some (s, rest) := by
  induction s with
  | nil => intro rest; simp [parseStrChars]
  | cons c cs ih =>
      intro rest
      have hc := hp c (by simp)
      have hq : ¬ c = '"' := hc.1
      have hb : ¬ c = '\\' := hc.2.1
      have hctl : ¬ c.toNat < 0x20 := by have := hc.2.2; omega
      rw [List.cons_append, parseStrChars.eq_def]
      split
      · simp_all
      · simp_all
      · simp_all
      · simp_all
      · rename_i x0 c2 r2 h1 h2 h3 heq
        injection heq with h4 h5
        subst h4; subst h5
        rw [if_neg hctl, ih (fun x hx => hp x (by simp [hx])) rest]

theorem parseStringBody_plain (s : String) (hp : PlainStr s) (rest : List Char) :
    parseStringBody (s.data ++ '"' :: rest) = some (s, rest) := by
  rw [parseStringBody, parseStrChars_plain s.data hp rest]

set_option maxHeartbeats 1000000 in
theorem parseValue_str (s : String) (hp : PlainStr s) (f : Nat) (rest : List Char) :
    parseValue (f + 1) (serStr s ++ rest) = some (.str s, rest) := by
  have he : skipWs (serStr s ++ rest) = '"' :: (s.data ++ '"' :: rest) := by
    simp [serStr, skipWs, List.dropWhile_cons, jsonWs]
  rw [parseValue, he]
  split
  · simp_all
  · rename_i r2 heq
    injection heq with h4 h5
    rw [← h5, parseStringBody_plain s hp rest]
  · simp_all
  · simp_all
  · simp_all
  · simp_all
  · simp_all
  · rename_i h1 h2 h3 h4 h5 h6 h7
    exact (h2 (s.data ++ '"' :: rest) rfl).elim

theorem skipWs_cons_ws {c : Char} (h : jsonWs c = true) (cs : List Char) :
    skipWs (c :: cs) = skipWs cs := by
  simp [skipWs, List.dropWhile_cons, h]

theorem parseValue_ws (f : Nat) (cs : List Char) :
    parseValue f (' ' :: cs) = parseValue f cs := by
  match f with
  | 0 => rfl
  | f + 1 => rw [parseValue, parseValue, skipWs_cons_ws (by decide)]

theorem parseMembers_ws (f : Nat) (cs : List Char) :
    parseMembers f (' ' :: cs) = parseMembers f cs := by
  match f with
  | 0 => rfl
  | f + 1 => rw [parseMembers, parseMembers, skipWs_cons_ws (by decide)]

theorem parseElems_ws (f : Nat) (cs : List Char) :
    parseElems f (' ' :: cs) = parseElems f cs := by
  match f with
  | 0 => rfl
  | f + 1 => rw [parseElems, parseElems, parseValue_ws]

set_option maxHeartbeats 1000000 in
/-- Parsing one serialized member that is the last of its object. -/
theorem parseMembers_last (k v : String) (hk : PlainStr k) (hv : PlainStr v)
    (f : Nat) (rest : List Char) :
    parseMembers (f + 2) (serMember (k, v) ++ '}' :: rest) =
      some ([(k, Json.str v)], rest) := by
  rw [parseMembers]
  have he1 : skipWs (serMember (k, v) ++ '}' :: rest) =
      '"' :: (k.data ++ '"' :: (':' :: ' ' :: (serStr v ++ '}' :: rest))) := by
    simp [serMember, serStr, skipWs, List.dropWhile_cons, jsonWs]
  rw [he1]
  simp only [parseStringBody_plain k hk, skipWs_cons_of_not_ws (c := ':') (by decide),
    parseValue_ws, parseValue_str v hv, skipWs_cons_of_not_ws (c := '}') (by decide)]

set_option maxHeartbeats 1000000 in
/-- Parsing one serialized member with a comma after it: recurse on the
remaining members. -/
theorem parseMembers_step (k v : String) (hk : PlainStr k) (hv : PlainStr v)
    (f : Nat) (X : List Char) :
    parseMembers (f + 2) (serMember (k, v) ++ ',' :: X) =
      match parseMembers (f + 1) X with
      | some (l, r5) => some ((k, Json.str v) :: l, r5)
      | none => none := by
  rw [parseMembers]
  have he1 : skipWs (serMember (k, v) ++ ',' :: X) =
      '"' :: (k.data ++ '"' :: (':' :: ' ' :: (serStr v ++ ',' :: X))) := by
    simp [serMember, serStr, skipWs, List.dropWhile_cons, jsonWs]
  rw [he1]
  simp only [parseStringBody_plain k hk, skipWs_cons_of_not_ws (c := ':') (by decide),
    parseValue_ws, parseValue_str v hv, skipWs_cons_of_not_ws (c := ',') (by decide)]

/-- Round trip for a whole non-empty member list. -/
theorem parseMembers_rt (kvs : List (String × String)) (hne : kvs ≠ [])
    (hp : ∀ kv ∈ kvs, PlainStr kv.1 ∧ PlainStr kv.2) :
    ∀ f, kvs.length + 1 ≤ f → ∀ rest,
    parseMembers f (serMembersSep kvs ++ '}' :: rest) =
      some (kvs.map (fun kv => (kv.1, Json.str kv.2)), rest) := by
  induction kvs with
  | nil => exact absurd rfl hne
  | cons kv kvs2 ih =>
      intro f hf rest
      obtain ⟨f2, rfl⟩ : ∃ f2, f = f2 + 2 := ⟨f - 2, by simp at hf; omega⟩
      obtain ⟨k, v⟩ := kv
      have hkv := hp (k, v) (by simp)
      cases kvs2 with
      | nil =>
          rw [serMembersSep, parseMembers_last k v hkv.1 hkv.2]
          simp
      | cons kv2 kvs3 =>
          rw [serMembersSep]
          have hassoc : (serMember (k, v) ++ ',' :: ' ' :: serMembersSep (kv2 :: kvs3)) ++
              '}' :: rest =
              serMember (k, v) ++ ',' :: (' ' :: (serMembersSep (kv2 :: kvs3) ++ '}' :: rest)) := by
            simp
          rw [hassoc, parseMembers_step k v hkv.1 hkv.2, parseMembers_ws,
            ih (List.cons_ne_nil _ _) (fun x hx => hp x (by simp [hx])) (f2 + 1)
              (by simp at hf ⊢; omega) rest]
          · simp
          · exact fun h => List.noConfusion h

theorem dictInsert_of_not_mem (d : List (String × Json)) (k : String) (v : Json)
    (h : ¬ k ∈ d.map Prod.fst) : dictInsert d k v = d ++ [(k, v)] := by
  induction d with
  | nil => rfl
  | cons kv rest ih =>
      rw [dictInsert]
      simp at h
      rw [if_neg (fun hh => h.1 ((by simpa using hh) : kv.1 = k).symm), ih (by simp [h.2])]
      simp

theorem collapseDict_go (pairs : List (String × Json)) :
    ∀ acc, (pairs.map Prod.fst).Nodup →
    (∀ k ∈ pairs.map Prod.fst, ¬ k ∈ acc.map Prod.fst) →
    pairs.foldl (fun d (kv : String × Json) => dictInsert d kv.1 kv.2) acc = acc ++ pairs := by
  induction pairs with
  | nil => intro acc _ _; simp
  | cons kv rest ih =>
      intro acc hnd hdisj
      have hnd1 : (kv.1 :: rest.map Prod.fst).Nodup := by simpa using hnd
      have hk1 : ¬ kv.1 ∈ rest.map Prod.fst := (List.nodup_cons.mp hnd1).1
      have hnd2 : (rest.map Prod.fst).Nodup := (List.nodup_cons.mp hnd1).2
      have hdis : ∀ k ∈ rest.map Prod.fst, ¬ k ∈ (acc ++ [(kv.1, kv.2)]).map Prod.fst := by
        intro k hkr
        simp only [List.map_append, List.mem_append]
        rintro (hca | hcs)
        · exact hdisj k (by simp [hkr]) hca
        · simp at hcs
          subst hcs
          exact hk1 hkr
      rw [List.foldl_cons, dictInsert_of_not_mem acc kv.1 kv.2 (hdisj kv.1 (by simp)),
        ih (acc ++ [(kv.1, kv.2)]) hnd2 hdis]
      simp

/-- Python objects with distinct keys survive the last-wins collapse. -/
theorem collapseDict_nodup (pairs : List (String × Json))
    (h : (pairs.map Prod.fst).Nodup) : collapseDict pairs = pairs := by
  rw [collapseDict, collapseDict_go pairs [] h (by simp)]
  simp

theorem serMembersSep_head (kv : String × String) (kvs3 : List (String × String)) :
    ∃ Y, serMembersSep (kv :: kvs3) = '"' :: Y := by
  cases kvs3 with
  | nil =>
      exact ⟨kv.1.data ++ '"' :: ':' :: ' ' :: '"' :: (kv.2.data ++ ['"']),
        by simp [serMembersSep, serMember, serStr]⟩
  | cons a b =>
      exact ⟨kv.1.data ++ '"' :: ':' :: ' ' :: '"' ::
          (kv.2.data ++ '"' :: ',' :: ' ' :: serMembersSep (a :: b)),
        by simp [serMembersSep, serMember, serStr]⟩

set_option maxHeartbeats 1000000 in
/-- Round trip for one serialized object. -/
theorem parseValue_obj (kvs : List (String × String)) (hv : ValidRecord kvs)
    (f : Nat) (hf : kvs.length + 1 ≤ f) (rest : List Char) :
    parseValue (f + 1) (serObj kvs ++ rest) =
      some (.obj (kvs.map (fun kv => (kv.1, Json.str kv.2))), rest) := by
  rw [parseValue]
  cases kvs with
  | nil =>
      have he : skipWs (serObj [] ++ rest) = '{' :: ('}' :: rest) := by
        simp [serObj, serMembersSep, skipWs, List.dropWhile_cons, jsonWs]
      simp only [he, skipWs_cons_of_not_ws (c := '}') (by decide), List.map_nil]
  | cons kv kvs3 =>
      obtain ⟨Y, hY⟩ := serMembersSep_head kv kvs3
      have he : skipWs (serObj (kv :: kvs3) ++ rest) =
          '{' :: (serMembersSep (kv :: kvs3) ++ '}' :: rest) := by
        simp [serObj, skipWs, List.dropWhile_cons, jsonWs]
      have he2 : skipWs (serMembersSep (kv :: kvs3) ++ '}' :: rest) =
          '"' :: (Y ++ '}' :: rest) := by
        rw [hY, List.cons_append, skipWs_cons_of_not_ws (c := '"') (by decide)]
      have hmem := parseMembers_rt (kv :: kvs3) (List.cons_ne_nil _ _) hv.1 f hf rest
      have hnd : (((kv :: kvs3).map (fun kv => (kv.1, Json.str kv.2))).map Prod.fst).Nodup := by
        have hmm : ((kv :: kvs3).map (fun kv => (kv.1, Json.str kv.2))).map Prod.fst =
            (kv :: kvs3).map Prod.fst := by
          simp [List.map_map]
        rw [hmm]
        exact hv.2
      simp only [he, he2]
      split
      · simp_all
      · rw [hmem]
        simp only [collapseDict_nodup _ hnd]

/-- Enough parser fuel for a serialized object list. -/
def objsFuel : List (List (String × String)) → Nat
  | [] => 1
  | kvs :: rest => kvs.length + 3 + objsFuel rest

set_option maxHeartbeats 1000000 in
/-- Round trip for the element list of the serialized array. -/
theorem parseElems_rt (l : List (List (String × String))) (hne : l ≠ [])
    (hv : ValidRecList l) :
    ∀ f, objsFuel l ≤ f → ∀ rest,
    parseElems f (serObjsSep l ++ ']' :: rest) =
      some (l.map (fun kvs => Json.obj (kvs.map (fun kv => (kv.1, Json.str kv.2)))), rest) := by
  induction l with
  | nil => exact absurd rfl hne
  | cons kvs l2 ih =>
      intro f hf rest
      have hvk : ValidRecord kvs := hv kvs (by simp)
      obtain ⟨f3, rfl⟩ : ∃ f3, f = f3 + 2 := ⟨f - 2, by simp [objsFuel] at hf; omega⟩
      have hfk : kvs.length + 1 ≤ f3 := by simp [objsFuel] at hf; omega
      cases l2 with
      | nil =>
          rw [serObjsSep, parseElems, parseValue_obj kvs hvk f3 hfk (']' :: rest)]
          simp only [skipWs_cons_of_not_ws (c := ']') (by decide), List.map_cons, List.map_nil]
      | cons kvs2 l3 =>
          rw [serObjsSep]
          have hassoc : (serObj kvs ++ ',' :: ' ' :: serObjsSep (kvs2 :: l3)) ++ ']' :: rest =
              serObj kvs ++ ',' :: (' ' :: (serObjsSep (kvs2 :: l3) ++ ']' :: rest)) := by
            simp
          rw [hassoc, parseElems, parseValue_obj kvs hvk f3 hfk]
          simp only [skipWs_cons_of_not_ws (c := ',') (by decide), parseElems_ws (f3 + 1),
            ih (List.cons_ne_nil _ _) (fun x hx => hv x (by simp [hx])) (f3 + 1)
              (by simp [objsFuel] at hf ⊢; omega), List.map_cons]
          · exact fun h => List.noConfusion h

theorem serObjsSep_head (kvs : List (String × String)) (l2 : List (List (String × String))) :
    ∃ Y, serObjsSep (kvs :: l2) = '{' :: Y := by
  cases l2 with
  | nil => exact ⟨serMembersSep kvs ++ ['}'], by simp [serObjsSep, serObj]⟩
  | cons a b =>
      exact ⟨serMembersSep kvs ++ '}' :: ',' :: ' ' :: serObjsSep (a :: b),
        by simp [serObjsSep, serObj]⟩

set_option maxHeartbeats 1000000 in
/-- Round trip for the whole serialized array, any remainder. -/
theorem parseValue_dumps (l : List (List (String × String))) (hv : ValidRecList l)
    (f : Nat) (hf : objsFuel l ≤ f) (rest : List Char) :
    parseValue (f + 1) (dumpsRecords l ++ rest) = some (jsonOf l, rest) := by
  rw [parseValue]
  have he : skipWs (dumpsRecords l ++ rest) = '[' :: (serObjsSep l ++ ']' :: rest) := by
    simp [dumpsRecords, skipWs, List.dropWhile_cons, jsonWs]
  cases l with
  | nil =>
      simp only [he, serObjsSep, List.nil_append,
        skipWs_cons_of_not_ws (c := ']') (by decide), jsonOf, List.map_nil]
  | cons kvs l2 =>
      obtain ⟨Y, hY⟩ := serObjsSep_head kvs l2
      have he2 : skipWs (serObjsSep (kvs :: l2) ++ ']' :: rest) =
          '{' :: (Y ++ ']' :: rest) := by
        rw [hY, List.cons_append, skipWs_cons_of_not_ws (c := '{') (by decide)]
      have helems := parseElems_rt (kvs :: l2) (List.cons_ne_nil _ _) hv f hf rest
      simp only [he, he2]
      split
      · simp_all
      · rw [helems]
        simp [jsonOf]

theorem serMembersSep_length (kvs : List (String × String)) :
    kvs.length ≤ (serMembersSep kvs).length := by
  induction kvs with
  | nil => simp [serMembersSep]
  | cons kv rest ih =>
      cases rest with
      | nil => simp [serMembersSep, serMember, serStr]
      | cons a b =>
          rw [serMembersSep]
          · have h1 : 1 ≤ (serMember kv).length := by simp [serMember, serStr]
            simp only [List.length_append, List.length_cons, List.length_nil] at *
            omega
          · exact fun h => List.noConfusion h

theorem serObj_length (kvs : List (String × String)) :
    kvs.length + 2 ≤ (serObj kvs).length := by
  have := serMembersSep_length kvs
  simp [serObj]
  omega

theorem objsFuel_le (l : List (List (String × String))) :
    objsFuel l ≤ 2 * (serObjsSep l).length + 1 := by
  induction l with
  | nil => simp [objsFuel, serObjsSep]
  | cons kvs rest ih =>
      have hobj := serObj_length kvs
      cases rest with
      | nil => simp [objsFuel, serObjsSep]; omega
      | cons a b =>
          rw [objsFuel, serObjsSep]
          · simp only [List.length_append, List.length_cons] at *
            omega
          · exact fun h => List.noConfusion h

/-- `json.loads` inverts the serialization of a valid record list. -/
theorem loads_dumps (l : List (List (String × String))) (hv : ValidRecList l) :
    loads (dumpsRecords l) = some (jsonOf l) := by
  rw [loads]
  obtain ⟨f, hfe⟩ : ∃ f, 2 * (dumpsRecords l).length + 2 = f + 1 :=
    ⟨2 * (dumpsRecords l).length + 1, rfl⟩
  have hf : objsFuel l ≤ f := by
    have h1 := objsFuel_le l
    have h2 : (dumpsRecords l).length = (serObjsSep l).length + 2 := by
      simp [dumpsRecords]
    omega
  have := parseValue_dumps l hv f hf []
  rw [List.append_nil] at this
  rw [hfe, this]
  simp [skipWs]

/-- Strategy 1 alone already recovers the serialization. -/
theorem recovery_dumps (l : List (List (String × String))) (hv : ValidRecList l) :
    parse_json_with_recovery (String.mk (dumpsRecords l)) = .ok (jsonOf l) := by
  rw [parse_json_with_recovery]
  have h1 : strategy1 (String.mk (dumpsRecords l)) = some (jsonOf l) := by
    rw [strategy1]
    exact loads_dumps l hv
  rw [h1]

/-! ### Trailing-comma injection sites

The claim says recovery survives "one trailing comma injected".  The
injection sites are the structural closing brackets of the serialized
text: before the final `]` of the array, or before the `}` of any one
object. -/

/-- The serialization with a trailing comma before the final `]`. -/
def injectArrayTC (l : List (List (String × String))) : List Char :=
  '[' :: serObjsSep l ++ [',', ']']

/-- One object serialized with a trailing comma before its `}`. -/
def serObjTC (kvs : List (String × String)) : List Char :=
  '{' :: serMembersSep kvs ++ [',', '}']

/-- The object list with a trailing comma injected into object `j` only. -/
def serObjsSepInj : Nat → List (List (String × String)) → List Char
  | _, [] => []
  | 0, [kvs] => serObjTC kvs
  | _ + 1, [kvs] => serObj kvs
  | 0, kvs :: rest => serObjTC kvs ++ ',' :: ' ' :: serObjsSep rest
  | j + 1, kvs :: rest => serObj kvs ++ ',' :: ' ' :: serObjsSepInj j rest

/-- The serialization with a trailing comma injected into object `j`. -/
def injectObjTC (j : Nat) (l : List (List (String × String))) : List Char :=
  '[' :: serObjsSepInj j l ++ [']']

/-! ### `json.loads` rejects the injected texts -/

theorem parseValue_rbracket (f : Nat) (r : List Char) :
    parseValue f (']' :: r) = none := by
  match f with
  | 0 => rfl
  | f + 1 =>
      rw [parseValue, skipWs_cons_of_not_ws (c := ']') (by decide)]
      split
      · rfl
      · simp_all
      · simp_all
      · simp_all
      · simp_all
      · simp_all
      · simp_all
      · simp [parseNumber, List.takeWhile_cons]

theorem parseElems_rbracket (f : Nat) (r : List Char) :
    parseElems f (']' :: r) = none := by
  match f with
  | 0 => rfl
  | f + 1 => rw [parseElems, parseValue_rbracket]

theorem parseMembers_rbrace (f : Nat) (r : List Char) :
    parseMembers f ('}' :: r) = none := by
  match f with
  | 0 => rfl
  | f + 1 =>
      rw [parseMembers, skipWs_cons_of_not_ws (c := '}') (by decide)]
      split
      · simp_all
      · rfl

theorem parseMembers_comma (f : Nat) (r : List Char) :
    parseMembers f (',' :: r) = none := by
  match f with
  | 0 => rfl
  | f + 1 =>
      rw [parseMembers, skipWs_cons_of_not_ws (c := ',') (by decide)]
      split
      · simp_all
      · rfl

set_option maxHeartbeats 1000000 in
/-- A member list followed by a trailing comma and `}` fails to parse. -/
theorem parseMembers_trailing (kvs : List (String × String)) (hne : kvs ≠ [])
    (hp : ∀ kv ∈ kvs, PlainStr kv.1 ∧ PlainStr kv.2) :
    ∀ f, kvs.length + 1 ≤ f → ∀ rest,
    parseMembers f (serMembersSep kvs ++ ',' :: '}' :: rest) = none := by
  induction kvs with
  | nil => exact absurd rfl hne
  | cons kv kvs2 ih =>
      intro f hf rest
      obtain ⟨f2, rfl⟩ : ∃ f2, f = f2 + 2 := ⟨f - 2, by simp at hf; omega⟩
      obtain ⟨k, v⟩ := kv
      have hkv := hp (k, v) (by simp)
      cases kvs2 with
      | nil =>
          rw [serMembersSep, parseMembers_step k v hkv.1 hkv.2, parseMembers_rbrace]
      | cons kv2 kvs3 =>
          rw [serMembersSep]
          have hassoc : (serMember (k, v) ++ ',' :: ' ' :: serMembersSep (kv2 :: kvs3)) ++
              ',' :: '}' :: rest =
              serMember (k, v) ++
                ',' :: (' ' :: (serMembersSep (kv2 :: kvs3) ++ ',' :: '}' :: rest)) := by
            simp
          rw [hassoc, parseMembers_step k v hkv.1 hkv.2, parseMembers_ws,
            ih (List.cons_ne_nil _ _) (fun x hx => hp x (by simp [hx])) (f2 + 1)
              (by simp at hf ⊢; omega) rest]
          · exact fun h => List.noConfusion h

set_option maxHeartbeats 1000000 in
/-- An object serialized with a trailing comma fails to parse. -/
theorem parseValue_objTC (kvs : List (String × String))
    (hp : ∀ kv ∈ kvs, PlainStr kv.1 ∧ PlainStr kv.2)
    (f : Nat) (hf : kvs.length + 1 ≤ f) (rest : List Char) :
    parseValue (f + 1) (serObjTC kvs ++ rest) = none := by
  rw [parseValue]
  cases kvs with
  | nil =>
      have he : skipWs (serObjTC [] ++ rest) = '{' :: (',' :: '}' :: rest) := by
        simp [serObjTC, serMembersSep, skipWs, List.dropWhile_cons, jsonWs]
      have he2 : skipWs (',' :: '}' :: rest) = ',' :: '}' :: rest :=
        skipWs_cons_of_not_ws (by decide) _
      simp only [he, he2]
      split
      · simp_all
      · rw [parseMembers_comma]
  | cons kv kvs3 =>
      obtain ⟨Y, hY⟩ := serMembersSep_head kv kvs3
      have he : skipWs (serObjTC (kv :: kvs3) ++ rest) =
          '{' :: (serMembersSep (kv :: kvs3) ++ ',' :: '}' :: rest) := by
        simp [serObjTC, skipWs, List.dropWhile_cons, jsonWs]
      have he2 : skipWs (serMembersSep (kv :: kvs3) ++ ',' :: '}' :: rest) =
          '"' :: (Y ++ ',' :: '}' :: rest) := by
        rw [hY, List.cons_append, skipWs_cons_of_not_ws (c := '"') (by decide)]
      have hmem := parseMembers_trailing (kv :: kvs3) (List.cons_ne_nil _ _) hp f hf rest
      simp only [he, he2]
      split
      · simp_all
      · rw [hmem]

set_option maxHeartbeats 1000000 in
/-- An element list followed by a trailing comma and `]` fails to parse. -/
theorem parseElems_trailing (l : List (List (String × String))) (hne : l ≠ [])
    (hv : ValidRecList l) :
    ∀ f, objsFuel l ≤ f → ∀ rest,
    parseElems f (serObjsSep l ++ ',' :: ']' :: rest) = none := by
  induction l with
  | nil => exact absurd rfl hne
  | cons kvs l2 ih =>
      intro f hf rest
      have hvk : ValidRecord kvs := hv kvs (by simp)
      obtain ⟨f3, rfl⟩ : ∃ f3, f = f3 + 2 := ⟨f - 2, by simp [objsFuel] at hf; omega⟩
      have hfk : kvs.length + 1 ≤ f3 := by simp [objsFuel] at hf; omega
      cases l2 with
      | nil =>
          rw [serObjsSep, parseElems, parseValue_obj kvs hvk f3 hfk (',' :: ']' :: rest)]
          simp only [skipWs_cons_of_not_ws (c := ',') (by decide),
            parseElems_rbracket (f3 + 1)]
      | cons kvs2 l3 =>
          rw [serObjsSep]
          have hassoc : (serObj kvs ++ ',' :: ' ' :: serObjsSep (kvs2 :: l3)) ++
              ',' :: ']' :: rest =
              serObj kvs ++ ',' :: (' ' :: (serObjsSep (kvs2 :: l3) ++ ',' :: ']' :: rest)) := by
            simp
          rw [hassoc, parseElems, parseValue_obj kvs hvk f3 hfk]
          simp only [skipWs_cons_of_not_ws (c := ',') (by decide), parseElems_ws (f3 + 1),
            ih (List.cons_ne_nil _ _) (fun x hx => hv x (by simp [hx])) (f3 + 1)
              (by simp [objsFuel] at hf ⊢; omega)]
          · exact fun h => List.noConfusion h

set_option maxHeartbeats 1000000 in
/-- An element list with a trailing comma injected into its `j`-th object
fails to parse. -/
theorem parseElems_inj (l : List (List (String × String))) (hv : ValidRecList l) :
    ∀ j, j < l.length → ∀ f, objsFuel l ≤ f → ∀ rest,
    parseElems f (serObjsSepInj j l ++ ']' :: rest) = none := by
  induction l with
  | nil => intro j hj; simp at hj
  | cons kvs l2 ih =>
      intro j hj f hf rest
      have hvk : ValidRecord kvs := hv kvs (by simp)
      obtain ⟨f3, rfl⟩ : ∃ f3, f = f3 + 2 := ⟨f - 2, by simp [objsFuel] at hf; omega⟩
      have hfk : kvs.length + 1 ≤ f3 := by simp [objsFuel] at hf; omega
      cases j with
      | zero =>
          cases l2 with
          | nil =>
              rw [serObjsSepInj, parseElems,
                parseValue_objTC kvs hvk.1 f3 hfk (']' :: rest)]
          | cons kvs2 l3 =>
              rw [serObjsSepInj]
              have hassoc : (serObjTC kvs ++ ',' :: ' ' :: serObjsSep (kvs2 :: l3)) ++
                  ']' :: rest =
                  serObjTC kvs ++ ',' :: ' ' :: (serObjsSep (kvs2 :: l3) ++ ']' :: rest) := by
                simp
              rw [hassoc, parseElems,
                parseValue_objTC kvs hvk.1 f3 hfk]
              · exact fun h => List.noConfusion h
      | succ j2 =>
          cases l2 with
          | nil => simp at hj
          | cons kvs2 l3 =>
              rw [serObjsSepInj]
              have hassoc : (serObj kvs ++ ',' :: ' ' :: serObjsSepInj j2 (kvs2 :: l3)) ++
                  ']' :: rest =
                  serObj kvs ++
                    ',' :: (' ' :: (serObjsSepInj j2 (kvs2 :: l3) ++ ']' :: rest)) := by
                simp
              rw [hassoc, parseElems, parseValue_obj kvs hvk f3 hfk]
              simp only [skipWs_cons_of_not_ws (c := ',') (by decide), parseElems_ws (f3 + 1),
                ih (fun x hx => hv x (by simp [hx])) j2 (by simp at hj ⊢; omega) (f3 + 1)
                  (by simp [objsFuel] at hf ⊢; omega)]
              · exact fun h => List.noConfusion h

theorem serObjsSepInj_head (j : Nat) (kvs : List (String × String))
    (l2 : List (List (String × String))) :
    ∃ Y, serObjsSepInj j (kvs :: l2) = '{' :: Y := by
  cases j with
  | zero =>
      cases l2 with
      | nil => exact ⟨serMembersSep kvs ++ [',', '}'], by simp [serObjsSepInj, serObjTC]⟩
      | cons a b =>
          exact ⟨serMembersSep kvs ++ ',' :: '}' :: ',' :: ' ' :: serObjsSep (a :: b),
            by simp [serObjsSepInj, serObjTC]⟩
  | succ j2 =>
      cases l2 with
      | nil => exact ⟨serMembersSep kvs ++ ['}'], by simp [serObjsSepInj, serObj]⟩
      | cons a b =>
          exact ⟨serMembersSep kvs ++ '}' :: ',' :: ' ' :: serObjsSepInj j2 (a :: b),
            by simp [serObjsSepInj, serObj]⟩

set_option maxHeartbeats 1000000 in
theorem parseValue_injArr (l : List (List (String × String))) (hne : l ≠ [])
    (hv : ValidRecList l) (f : Nat) (hf : objsFuel l ≤ f) (rest : List Char) :
    parseValue (f + 1) (injectArrayTC l ++ rest) = none := by
  rw [parseValue]
  have he : skipWs (injectArrayTC l ++ rest) =
      '[' :: (serObjsSep l ++ ',' :: ']' :: rest) := by
    simp [injectArrayTC, skipWs, List.dropWhile_cons, jsonWs]
  cases l with
  | nil => exact absurd rfl hne
  | cons kvs l2 =>
      obtain ⟨Y, hY⟩ := serObjsSep_head kvs l2
      have he2 : skipWs (serObjsSep (kvs :: l2) ++ ',' :: ']' :: rest) =
          '{' :: (Y ++ ',' :: ']' :: rest) := by
        rw [hY, List.cons_append, skipWs_cons_of_not_ws (c := '{') (by decide)]
      have helems := parseElems_trailing (kvs :: l2) (List.cons_ne_nil _ _) hv f hf rest
      simp only [he, he2]
      split
      · simp_all
      · rw [helems]

set_option maxHeartbeats 1000000 in
theorem parseValue_injObj (l : List (List (String × String))) (hv : ValidRecList l)
    (j : Nat) (hj : j < l.length) (f : Nat) (hf : objsFuel l ≤ f) (rest : List Char) :
    parseValue (f + 1) (injectObjTC j l ++ rest) = none := by
  rw [parseValue]
  have he : skipWs (injectObjTC j l ++ rest) =
      '[' :: (serObjsSepInj j l ++ ']' :: rest) := by
    simp [injectObjTC, skipWs, List.dropWhile_cons, jsonWs]
  cases l with
  | nil => simp at hj
  | cons kvs l2 =>
      obtain ⟨Y, hY⟩ := serObjsSepInj_head j kvs l2
      have he2 : skipWs (serObjsSepInj j (kvs :: l2) ++ ']' :: rest) =
          '{' :: (Y ++ ']' :: rest) := by
        rw [hY, List.cons_append, skipWs_cons_of_not_ws (c := '{') (by decide)]
      have helems := parseElems_inj (kvs :: l2) hv j hj f hf rest
      simp only [he, he2]
      split
      · simp_all
      · rw [helems]

theorem serObjsSepInj_length (j : Nat) (l : List (List (String × String))) :
    (serObjsSep l).length ≤ (serObjsSepInj j l).length := by
  induction l generalizing j with
  | nil => simp [serObjsSep, serObjsSepInj]
  | cons kvs l2 ih =>
      have hTC : (serObjTC kvs).length = (serObj kvs).length + 1 := by
        simp [serObjTC, serObj]
      cases j with
      | zero =>
          cases l2 with
          | nil => simp [serObjsSep, serObjsSepInj]; omega
          | cons a b =>
              rw [serObjsSep, serObjsSepInj]
              · simp only [List.length_append, List.length_cons]; omega
              · exact fun h => List.noConfusion h
              · exact fun h => List.noConfusion h
      | succ j2 =>
          cases l2 with
          | nil => simp [serObjsSep, serObjsSepInj]
          | cons a b =>
              rw [serObjsSep, serObjsSepInj]
              · have := ih (j := j2)
                simp only [List.length_append, List.length_cons] at *
                omega
              · exact fun h => List.noConfusion h
              · exact fun h => List.noConfusion h

/-- `json.loads` rejects the array-level trailing comma. -/
theorem loads_injArr (l : List (List (String × String))) (hv : ValidRecList l) :
    loads (injectArrayTC l) = none := by
  cases l with
  | nil => decide
  | cons kvs l2 =>
      rw [loads]
      obtain ⟨f, hfe⟩ : ∃ f, 2 * (injectArrayTC (kvs :: l2)).length + 2 = f + 1 :=
        ⟨2 * (injectArrayTC (kvs :: l2)).length + 1, rfl⟩
      have hf : objsFuel (kvs :: l2) ≤ f := by
        have h1 := objsFuel_le (kvs :: l2)
        have h2 : (injectArrayTC (kvs :: l2)).length = (serObjsSep (kvs :: l2)).length + 3 := by
          simp [injectArrayTC]
        omega
      have := parseValue_injArr (kvs :: l2) (List.cons_ne_nil _ _) hv f hf []
      rw [List.append_nil] at this
      rw [hfe, this]

/-- `json.loads` rejects the object-level trailing comma. -/
theorem loads_injObj (l : List (List (String × String))) (hv : ValidRecList l)
    (j : Nat) (hj : j < l.length) :
    loads (injectObjTC j l) = none := by
  rw [loads]
  obtain ⟨f, hfe⟩ : ∃ f, 2 * (injectObjTC j l).length + 2 = f + 1 :=
    ⟨2 * (injectObjTC j l).length + 1, rfl⟩
  have hf : objsFuel l ≤ f := by
    have h1 := objsFuel_le l
    have h2 : (injectObjTC j l).length = (serObjsSepInj j l).length + 2 := by
      simp [injectObjTC]
    have h3 := serObjsSepInj_length j l
    omega
  have := parseValue_injObj l hv j hj f hf []
  rw [List.append_nil] at this
  rw [hfe, this]

/-! ### The trailing-comma regex leaves the serialization alone

A comma in a serialized string value is harmless to
`re.sub(r',\s*([}\]])', ...)` iff, within the string, it is never
followed by optional whitespace and then a closing bracket: scanning past
the string\x27s remaining characters then stops at its closing quote.
`tcSafe` checks this; `matchFreeIn x t` says no comma of `x` starts a
regex match when `t` follows. -/

/-- After a comma, the regex scan is blocked inside this character run:
the first non-whitespace character (if any) is not a closing bracket. -/
def commaBlocked : List Char → Bool
  | [] => true
  | c :: rest =>
      if c = '}' || c = ']' then false
      else if regexWs c then commaBlocked rest
      else true

/-- Every comma of the text is blocked within the text, assuming a
non-whitespace, non-bracket character (a quote) follows the text. -/
def tcSafe : List Char → Bool
  | [] => true
  | ',' :: rest => commaBlocked rest && tcSafe rest
  | _ :: rest => tcSafe rest

/-- Strings whose serialisations the trailing-comma regex cannot touch. -/
def TCSafeList (l : List (List (String × String))) : Prop :=
  ∀ kvs ∈ l, ∀ kv ∈ kvs, tcSafe kv.1.data = true ∧ tcSafe kv.2.data = true

instance (l : List (List (String × String))) : Decidable (TCSafeList l) := by
  unfold TCSafeList; infer_instance

/-- No comma of `x` starts a `,\s*[}\]]` match when `t` follows `x`. -/
def matchFreeIn (x t : List Char) : Prop :=
  ∀ a c, x = a ++ ',' :: c → wsBracket (c ++ t) = none

theorem mfi_nil (t : List Char) : matchFreeIn [] t := by
  intro a c h
  exact absurd h (by simp)

theorem mfi_cons {ch : Char} (hch : ¬ ch = ',') {x t : List Char}
    (hx : matchFreeIn x t) : matchFreeIn (ch :: x) t := by
  intro a c h
  cases a with
  | nil => injection h with h1 h2; exact absurd h1 hch
  | cons a0 a2 =>
      injection h with h1 h2
      exact hx a2 c h2

theorem mfi_comma {x t : List Char} (hw : wsBracket (x ++ t) = none)
    (hx : matchFreeIn x t) : matchFreeIn (',' :: x) t := by
  intro a c h
  cases a with
  | nil => injection h with h1 h2; rw [← h2]; exact hw
  | cons a0 a2 =>
      injection h with h1 h2
      exact hx a2 c h2

theorem mfi_tail {ch : Char} {x t : List Char} (hx : matchFreeIn (ch :: x) t) :
    matchFreeIn x t := by
  intro a c h
  exact hx (ch :: a) c (by rw [h]; rfl)

theorem mfi_suffix (x : List Char) {y t : List Char} (h : matchFreeIn (x ++ y) t) :
    matchFreeIn y t := by
  intro a c hy
  exact h (x ++ a) c (by rw [hy, List.append_assoc])

theorem mfi_append {x y t : List Char} (hx : matchFreeIn x (y ++ t))
    (hy : matchFreeIn y t) : matchFreeIn (x ++ y) t := by
  intro a c h
  rcases List.append_eq_append_iff.mp h with ⟨m, ha, hyv⟩ | ⟨m, hxv, hcv⟩
  · exact hy m c hyv
  · cases m with
    | nil => exact hy [] c (by simpa using hcv.symm)
    | cons m0 m2 =>
        rw [List.cons_append] at hcv
        injection hcv with h1 h2
        rw [← h1] at hxv
        have hw := hx a m2 hxv
        rw [h2, List.append_assoc]
        exact hw

theorem commaBlocked_wsBracket {c : List Char} (h : commaBlocked c = true) (t : List Char) :
    wsBracket (c ++ '"' :: t) = none := by
  induction c with
  | nil => simp [wsBracket, regexWs]
  | cons c0 r ih =>
      rw [commaBlocked] at h
      by_cases h1 : (c0 = '}' || c0 = ']') = true
      · rw [if_pos h1] at h; exact absurd h (by simp)
      · rw [if_neg h1] at h
        by_cases h2 : regexWs c0 = true
        · rw [List.cons_append, wsBracket, if_neg h1, if_pos h2]
          exact ih (by rwa [if_pos h2] at h)
        · rw [List.cons_append, wsBracket, if_neg h1, if_neg h2]

theorem tcSafe_cons_ne {ch : Char} (hch : ¬ ch = ',') (x : List Char) :
    tcSafe (ch :: x) = tcSafe x := by
  rw [tcSafe.eq_def]
  split
  · simp_all
  · simp_all
  · rename_i c rest h1 heq
    injection heq with ha hb
    rw [hb]

theorem tcSafe_tail (ch : Char) (x : List Char) (h : tcSafe (ch :: x) = true) :
    tcSafe x = true := by
  by_cases hch : ch = ','
  · subst hch
    rw [tcSafe] at h
    exact (Bool.and_eq_true_iff.mp h).2
  · rwa [tcSafe_cons_ne hch] at h

theorem tcSafe_decomp (x : List Char) (hx : tcSafe x = true) :
    ∀ a c, x = a ++ ',' :: c → commaBlocked c = true := by
  induction x with
  | nil => intro a c h; exact absurd h (by simp)
  | cons ch x2 ih =>
      intro a c h
      cases a with
      | nil =>
          injection h with h1 h2
          subst h2
          rw [h1, tcSafe] at hx
          exact (Bool.and_eq_true_iff.mp hx).1
      | cons a0 a2 =>
          injection h with h1 h2
          exact ih (tcSafe_tail ch x2 hx) a2 c h2

/-- Commas inside a serialized string value are blocked up to its closing
quote. -/
theorem mfi_strTail (x : List Char) (hx : tcSafe x = true) (t : List Char) :
    matchFreeIn (x ++ ['"']) t := by
  induction x with
  | nil => exact mfi_cons (by decide) (mfi_nil t)
  | cons ch x2 ih =>
      rw [List.cons_append]
      by_cases hch : ch = ','
      · subst hch
        refine mfi_comma ?_ (ih (tcSafe_tail _ _ hx))
        have hb : commaBlocked x2 = true := tcSafe_decomp _ hx [] x2 rfl
        have := commaBlocked_wsBracket hb t
        simpa using this
      · exact mfi_cons hch (ih (tcSafe_tail _ _ hx))

theorem mfi_serStr (s : String) (h : tcSafe s.data = true) (t : List Char) :
    matchFreeIn (serStr s) t := by
  have he : serStr s = '"' :: (s.data ++ ['"']) := by simp [serStr]
  rw [he]
  exact mfi_cons (by decide) (mfi_strTail s.data h t)

theorem mfi_serMember (kv : String × String) (h1 : tcSafe kv.1.data = true)
    (h2 : tcSafe kv.2.data = true) (t : List Char) :
    matchFreeIn (serMember kv) t := by
  rw [serMember]
  refine mfi_append (mfi_serStr kv.1 h1 _) ?_
  exact mfi_cons (by decide) (mfi_cons (by decide) (mfi_serStr kv.2 h2 t))

theorem wsBracket_space_quote (z : List Char) : wsBracket (' ' :: '"' :: z) = none := by
  rw [wsBracket]
  simp only [if_neg (by decide : ¬ ((' ' = '}' || ' ' = ']') = true)),
    if_pos (by decide : regexWs ' ' = true)]
  rw [wsBracket]
  simp [regexWs]

theorem wsBracket_space_brace (z : List Char) : wsBracket (' ' :: '{' :: z) = none := by
  rw [wsBracket]
  simp only [if_neg (by decide : ¬ ((' ' = '}' || ' ' = ']') = true)),
    if_pos (by decide : regexWs ' ' = true)]
  rw [wsBracket]
  simp [regexWs]

theorem mfi_serMembersSep (kvs : List (String × String))
    (h : ∀ kv ∈ kvs, tcSafe kv.1.data = true ∧ tcSafe kv.2.data = true) (t : List Char) :
    matchFreeIn (serMembersSep kvs) t := by
  induction kvs with
  | nil => exact mfi_nil t
  | cons kv kvs2 ih =>
      have hkv := h kv (by simp)
      cases kvs2 with
      | nil =>
          rw [serMembersSep]
          exact mfi_serMember kv hkv.1 hkv.2 t
      | cons a b =>
          rw [serMembersSep]
          · obtain ⟨Y, hY⟩ := serMembersSep_head a b
            refine mfi_append (mfi_serMember kv hkv.1 hkv.2 _) ?_
            refine mfi_comma ?_ (mfi_cons (by decide) (ih (fun x hx => h x (by simp [hx]))))
            rw [List.cons_append, hY, List.cons_append]
            exact wsBracket_space_quote _
          · exact fun hh => List.noConfusion hh

theorem mfi_serObj (kvs : List (String × String))
    (h : ∀ kv ∈ kvs, tcSafe kv.1.data = true ∧ tcSafe kv.2.data = true) (t : List Char) :
    matchFreeIn (serObj kvs) t := by
  rw [serObj]
  refine mfi_cons (by decide) (mfi_append (mfi_serMembersSep kvs h _) ?_)
  exact mfi_cons (by decide) (mfi_nil t)

theorem mfi_serObjsSep (l : List (List (String × String))) (h : TCSafeList l)
    (t : List Char) : matchFreeIn (serObjsSep l) t := by
  induction l with
  | nil => exact mfi_nil t
  | cons kvs l2 ih =>
      have hkv := h kvs (by simp)
      cases l2 with
      | nil =>
          rw [serObjsSep]
          exact mfi_serObj kvs hkv t
      | cons a b =>
          rw [serObjsSep]
          · obtain ⟨Y, hY⟩ := serObjsSep_head a b
            refine mfi_append (mfi_serObj kvs hkv _) ?_
            refine mfi_comma ?_ (mfi_cons (by decide) (ih (fun x hx => h x (by simp [hx]))))
            rw [List.cons_append, hY, List.cons_append]
            exact wsBracket_space_brace _
          · exact fun hh => List.noConfusion hh

/-- No comma of the serialization starts a trailing-comma regex match. -/
theorem mfi_dumps (l : List (List (String × String))) (h : TCSafeList l) (t : List Char) :
    matchFreeIn (dumpsRecords l) t := by
  rw [dumpsRecords]
  refine mfi_cons (by decide) (mfi_append (mfi_serObjsSep l h _) ?_)
  exact mfi_cons (by decide) (mfi_nil t)

/-- A scan that fails against a closing bracket fails against anything:
the run before the bracket must contain a blocking character. -/
theorem wsBracket_none_extend (c2 : List Char) (b : Char) (hb : b = '}' ∨ b = ']')
    (post : List Char) :
    wsBracket (c2 ++ b :: post) = none → ∀ t, wsBracket (c2 ++ t) = none := by
  induction c2 with
  | nil =>
      intro h
      exfalso
      rcases hb with hb | hb <;> (subst hb; rw [List.nil_append, wsBracket] at h; simp at h)
  | cons c0 r ih =>
      intro h t
      rw [List.cons_append, wsBracket] at h
      rw [List.cons_append, wsBracket]
      by_cases h1 : (c0 = '}' || c0 = ']') = true
      · rw [if_pos h1] at h
        exact absurd h (by simp)
      · rw [if_neg h1] at h ⊢
        by_cases h2 : regexWs c0 = true
        · rw [if_pos h2] at h ⊢
          exact ih h t
        · rw [if_neg h2]

theorem removeTCGo_nil (fuel : Nat) : removeTCGo fuel [] = [] := by
  cases fuel <;> rfl

theorem removeTCGo_cons_other {ch : Char} (hch : ¬ ch = ',') (g : Nat) (rest : List Char) :
    removeTCGo (g + 1) (ch :: rest) = ch :: removeTCGo g rest := by
  rw [removeTCGo.eq_def]
  split
  · simp_all
  · simp_all
  · simp_all
  · rename_i f c r h1 heq1 heq2
    injection heq2 with ha hb
    rw [ha, hb]
    injection heq1 with hf
    rw [hf]

/-- The regex scan passes over a match-free prefix unchanged. -/
theorem removeTCGo_append (x : List Char) :
    ∀ fuel t, matchFreeIn x t → x.length ≤ fuel →
    removeTCGo fuel (x ++ t) = x ++ removeTCGo (fuel - x.length) t := by
  induction x with
  | nil => intro fuel t _ _; simp
  | cons ch x2 ih =>
      intro fuel t hmf hlen
      obtain ⟨g, rfl⟩ : ∃ g, fuel = g + 1 := ⟨fuel - 1, by simp at hlen; omega⟩
      by_cases hch : ch = ','
      · subst hch
        rw [List.cons_append, removeTCGo, hmf [] x2 rfl,
          ih g t (mfi_tail hmf) (by simp at hlen; omega)]
        simp
      · rw [List.cons_append, removeTCGo_cons_other hch,
          ih g t (mfi_tail hmf) (by simp at hlen; omega)]
        simp

/-- Removing trailing commas from the text with one comma injected before
a structural closing bracket restores the original text. -/
theorem removeTC_inject (pre post : List Char) (b : Char) (hb : b = '}' ∨ b = ']')
    (hmf : matchFreeIn (pre ++ b :: post) []) :
    removeTrailingCommas (pre ++ ',' :: b :: post) = pre ++ b :: post := by
  rw [removeTrailingCommas]
  have hpre : matchFreeIn pre (',' :: b :: post) := by
    intro a c2 hdec
    have h0 : wsBracket (c2 ++ b :: post) = none := by
      have := hmf a (c2 ++ b :: post) (by rw [hdec]; simp)
      rwa [List.append_nil] at this
    exact wsBracket_none_extend c2 b hb post h0 (',' :: b :: post)
  rw [removeTCGo_append pre _ _ hpre (by simp)]
  have hL : (pre ++ ',' :: b :: post).length - pre.length = post.length + 2 := by simp
  rw [hL, removeTCGo]
  have hwb : wsBracket (b :: post) = some (b, post) := by
    rcases hb with h | h <;> (subst h; rw [wsBracket]; simp)
  rw [hwb]
  have hpost : matchFreeIn post [] :=
    mfi_tail (mfi_suffix pre hmf)
  have hid : removeTCGo (post.length + 1) post = post := by
    have := removeTCGo_append post (post.length + 1) [] hpost (by omega)
    rw [List.append_nil] at this
    rw [this, removeTCGo_nil, List.append_nil]
  simp only [hid]

/-- The object-site injection differs from the serialization by one comma
before the `}` of object `j`. -/
theorem serObjsSepInj_decomp (j : Nat) (l : List (List (String × String)))
    (hj : j < l.length) :
    ∃ pre postX, serObjsSep l = pre ++ '}' :: postX ∧
      serObjsSepInj j l = pre ++ ',' :: '}' :: postX := by
  induction l generalizing j with
  | nil => simp at hj
  | cons kvs l2 ih =>
      cases j with
      | zero =>
          cases l2 with
          | nil =>
              exact ⟨'{' :: serMembersSep kvs, [],
                by simp [serObjsSep, serObj], by simp [serObjsSepInj, serObjTC]⟩
          | cons a b =>
              exact ⟨'{' :: serMembersSep kvs, ',' :: ' ' :: serObjsSep (a :: b),
                by simp [serObjsSep, serObj], by simp [serObjsSepInj, serObjTC]⟩
      | succ j2 =>
          cases l2 with
          | nil => simp at hj
          | cons a b =>
              obtain ⟨pre2, postX2, h1, h2⟩ := ih (j := j2) (by simp at hj ⊢; omega)
              refine ⟨serObj kvs ++ ',' :: ' ' :: pre2, postX2, ?_, ?_⟩
              · rw [serObjsSep]
                · rw [h1]; simp
                · exact fun h => List.noConfusion h
              · rw [serObjsSepInj, h2]
                · simp
                · exact fun h => List.noConfusion h

/-- Trailing-comma removal restores the serialization (array site). -/
theorem removeTC_array (l : List (List (String × String))) (hts : TCSafeList l) :
    removeTrailingCommas (injectArrayTC l) = dumpsRecords l := by
  have h1 : injectArrayTC l = ('[' :: serObjsSep l) ++ ',' :: ']' :: [] := by
    simp [injectArrayTC]
  have h2 : dumpsRecords l = ('[' :: serObjsSep l) ++ ']' :: [] := by
    simp [dumpsRecords]
  rw [h1, removeTC_inject _ _ _ (Or.inr rfl) (by rw [← h2]; exact mfi_dumps l hts []), ← h2]

/-- Trailing-comma removal restores the serialization (object site). -/
theorem removeTC_obj (j : Nat) (l : List (List (String × String))) (hts : TCSafeList l)
    (hj : j < l.length) :
    removeTrailingCommas (injectObjTC j l) = dumpsRecords l := by
  obtain ⟨pre, postX, h1, h2⟩ := serObjsSepInj_decomp j l hj
  have h3 : dumpsRecords l = ('[' :: pre) ++ '}' :: (postX ++ [']']) := by
    rw [dumpsRecords, h1]; simp
  have h4 : injectObjTC j l = ('[' :: pre) ++ ',' :: '}' :: (postX ++ [']']) := by
    rw [injectObjTC, h2]; simp
  rw [h4, removeTC_inject _ _ _ (Or.inl rfl) (by rw [← h3]; exact mfi_dumps l hts []), ← h3]

/-! ### Quote parity of the serialization is even -/

theorem q_serStr (s : String) (hp : PlainStr s) : (serStr s).count '"' = 2 := by
  have h0 : s.data.count '"' = 0 := by
    rw [List.count_eq_zero]
    intro hmem
    exact (hp '"' hmem).1 rfl
  simp [serStr, List.count_append, List.count_cons, h0]

theorem q_serMembersSep (kvs : List (String × String))
    (hp : ∀ kv ∈ kvs, PlainStr kv.1 ∧ PlainStr kv.2) :
    (serMembersSep kvs).count '"' % 2 = 0 := by
  induction kvs with
  | nil => simp [serMembersSep]
  | cons kv kvs2 ih =>
      have hkv := hp kv (by simp)
      have hm : (serMember kv).count '"' = 4 := by
        rw [serMember]
        simp [List.count_append, List.count_cons, q_serStr kv.1 hkv.1, q_serStr kv.2 hkv.2]
      cases kvs2 with
      | nil => rw [serMembersSep, hm]
      | cons a b =>
          rw [serMembersSep]
          · have hr := ih (fun x hx => hp x (by simp [hx]))
            simp [List.count_append, List.count_cons, hm]
            omega
          · exact fun h => List.noConfusion h

theorem q_serObjsSep (l : List (List (String × String))) (hv : ValidRecList l) :
    (serObjsSep l).count '"' % 2 = 0 := by
  induction l with
  | nil => simp [serObjsSep]
  | cons kvs l2 ih =>
      have hobj : (serObj kvs).count '"' % 2 = 0 := by
        rw [serObj]
        have := q_serMembersSep kvs (hv kvs (by simp)).1
        simp [List.count_append, List.count_cons]
        omega
      cases l2 with
      | nil => rw [serObjsSep]; exact hobj
      | cons a b =>
          rw [serObjsSep]
          · have hr := ih (fun x hx => hv x (by simp [hx]))
            simp [List.count_append, List.count_cons]
            omega
          · exact fun h => List.noConfusion h

theorem q_dumps (l : List (List (String × String))) (hv : ValidRecList l) :
    (dumpsRecords l).count '"' % 2 = 0 := by
  rw [dumpsRecords]
  have := q_serObjsSep l hv
  simp [List.count_append, List.count_cons]
  omega

theorem countSub2_zero (a b : Char) (cs : List Char) (h : ¬ a ∈ cs) :
    countSub2 a b cs = 0 := by
  induction cs with
  | nil => rfl
  | cons x rest ih =>
      cases rest with
      | nil => rfl
      | cons y rest2 =>
          rw [countSub2, if_neg (fun hc => h (by simp [hc.1]))]
          exact ih (fun hc => h (by simp [hc]))

theorem no_backslash_serStr (s : String) (hp : PlainStr s) : ¬ '\\' ∈ serStr s := by
  intro h
  simp [serStr] at h
  exact (hp '\\' h).2.1 rfl

theorem no_backslash_serMembersSep (kvs : List (String × String))
    (hp : ∀ kv ∈ kvs, PlainStr kv.1 ∧ PlainStr kv.2) :
    ¬ '\\' ∈ serMembersSep kvs := by
  induction kvs with
  | nil => simp [serMembersSep]
  | cons kv kvs2 ih =>
      have hkv := hp kv (by simp)
      have hm : ¬ '\\' ∈ serMember kv := by
        intro h
        simp [serMember] at h
        rcases h with h | h
        · exact no_backslash_serStr kv.1 hkv.1 h
        · exact no_backslash_serStr kv.2 hkv.2 h
      cases kvs2 with
      | nil => rw [serMembersSep]; exact hm
      | cons a b =>
          rw [serMembersSep]
          · intro h
            simp at h
            have hr := ih (fun x hx => hp x (by simp [hx]))
            rcases h with h | h
            · exact hm h
            · exact hr h
          · exact fun h => List.noConfusion h

theorem no_backslash_dumps (l : List (List (String × String))) (hv : ValidRecList l) :
    ¬ '\\' ∈ dumpsRecords l := by
  have hsos : ∀ l2, ValidRecList l2 → ¬ '\\' ∈ serObjsSep l2 := by
    intro l2
    induction l2 with
    | nil => simp [serObjsSep]
    | cons kvs l3 ih =>
        intro hv2
        have hobj : ¬ '\\' ∈ serObj kvs := by
          intro h
          simp [serObj] at h
          exact no_backslash_serMembersSep kvs (hv2 kvs (by simp)).1 h
        cases l3 with
        | nil => rw [serObjsSep]; exact hobj
        | cons a b =>
            rw [serObjsSep]
            · intro h
              simp at h
              have hr := ih (fun x hx => hv2 x (by simp [hx]))
              rcases h with h | h
              · exact hobj h
              · exact hr h
            · exact fun h => List.noConfusion h
  intro h
  simp [dumpsRecords] at h
  exact hsos l hv h

/-- The serialization has even unescaped-quote parity. -/
theorem parity_dumps (l : List (List (String × String))) (hv : ValidRecList l) :
    quoteParityOdd (dumpsRecords l) = false := by
  rw [quoteParityOdd]
  have h1 := q_dumps l hv
  have h2 := countSub2_zero '\\' '"' (dumpsRecords l) (no_backslash_dumps l hv)
  simp only [h2, Nat.sub_zero, decide_eq_false_iff_not]
  omega

/-- Strategy 2 parses any text whose trailing-comma repair is the
serialization. -/
theorem strategy2_of_fixed (X : List Char) (l : List (List (String × String)))
    (hv : ValidRecList l) (hfix : removeTrailingCommas X = dumpsRecords l) :
    strategy2 (String.mk X) = some (jsonOf l) := by
  simp only [strategy2, hfix]
  rw [if_neg (fun hc => absurd hc.2 (by simp [parity_dumps l hv]))]
  exact loads_dumps l hv

/-- Recovery of the array-site injection, the non-empty case. -/
theorem recovery_injArr (l : List (List (String × String))) (hv : ValidRecList l)
    (hts : TCSafeList l) :
    parse_json_with_recovery (String.mk (injectArrayTC l)) = .ok (jsonOf l) := by
  have h1 : strategy1 (String.mk (injectArrayTC l)) = none := by
    rw [strategy1]
    exact loads_injArr l hv
  simp only [parse_json_with_recovery, h1,
    strategy2_of_fixed (injectArrayTC l) l hv (removeTC_array l hts)]

/-- Recovery of the object-site injection. -/
theorem recovery_injObj (j : Nat) (l : List (List (String × String)))
    (hv : ValidRecList l) (hts : TCSafeList l) (hj : j < l.length) :
    parse_json_with_recovery (String.mk (injectObjTC j l)) = .ok (jsonOf l) := by
  have h1 : strategy1 (String.mk (injectObjTC j l)) = none := by
    rw [strategy1]
    exact loads_injObj l hv j hj
  simp only [parse_json_with_recovery, h1,
    strategy2_of_fixed (injectObjTC j l) l hv (removeTC_obj j l hts hj)]

/-! ### The fenced-code-block wrapping -/

/-- The serialization wrapped in a fenced code block with the `json` tag,
as the model returns it. -/
def fencedData (l : List (List (String × String))) : List Char :=
  '`' :: '`' :: '`' :: 'j' :: 's' :: 'o' :: 'n' :: '\n' ::
    (dumpsRecords l ++ '\n' :: '`' :: '`' :: '`' :: [])

/-- No backtick in any key or value (else the fences could be confused). -/
def NoFenceList (l : List (List (String × String))) : Prop :=
  ∀ kvs ∈ l, ∀ kv ∈ kvs, ¬ '`' ∈ kv.1.data ∧ ¬ '`' ∈ kv.2.data

instance (l : List (List (String × String))) : Decidable (NoFenceList l) := by
  unfold NoFenceList; infer_instance

theorem backtick_notin_serMembersSep (kvs : List (String × String))
    (hp : ∀ kv ∈ kvs, ¬ '`' ∈ kv.1.data ∧ ¬ '`' ∈ kv.2.data) :
    ¬ '`' ∈ serMembersSep kvs := by
  induction kvs with
  | nil => simp [serMembersSep]
  | cons kv kvs2 ih =>
      have hkv := hp kv (by simp)
      have hm : ¬ '`' ∈ serMember kv := by
        intro h
        simp [serMember, serStr] at h
        rcases h with h | h
        · exact hkv.1 h
        · exact hkv.2 h
      cases kvs2 with
      | nil => rw [serMembersSep]; exact hm
      | cons a b =>
          rw [serMembersSep]
          · intro h
            simp at h
            have hr := ih (fun x hx => hp x (by simp [hx]))
            rcases h with h | h
            · exact hm h
            · exact hr h
          · exact fun h => List.noConfusion h

theorem backtick_notin_dumps (l : List (List (String × String))) (hnf : NoFenceList l) :
    ¬ '`' ∈ dumpsRecords l := by
  have hsos : ∀ l2, NoFenceList l2 → ¬ '`' ∈ serObjsSep l2 := by
    intro l2
    induction l2 with
    | nil => simp [serObjsSep]
    | cons kvs l3 ih =>
        intro hv2
        have hobj : ¬ '`' ∈ serObj kvs := by
          intro h
          simp [serObj] at h
          exact backtick_notin_serMembersSep kvs (hv2 kvs (by simp)) h
        cases l3 with
        | nil => rw [serObjsSep]; exact hobj
        | cons a b =>
            rw [serObjsSep]
            · intro h
              simp at h
              have hr := ih (fun x hx => hv2 x (by simp [hx]))
              rcases h with h | h
              · exact hobj h
              · exact hr h
            · exact fun h => List.noConfusion h
  intro h
  simp [dumpsRecords] at h
  exact hsos l hnf h

/-! ### `str.split` scan lemmas -/

/-- The separator occurs at no position of the text. -/
def noOccurB (sep : List Char) : List Char → Bool
  | [] => true
  | c :: rest => (! sep.isPrefixOf (c :: rest)) && noOccurB sep rest

theorem splitGo_noOccur (s0 : Char) (srest : List Char) :
    ∀ cs acc fuel, noOccurB (s0 :: srest) cs = true → cs.length ≤ fuel →
    splitGo s0 srest fuel cs acc = [acc.reverse ++ cs] := by
  intro cs
  induction cs with
  | nil => intro acc fuel _ _; cases fuel <;> simp [splitGo]
  | cons c rest ih =>
      intro acc fuel hno hlen
      obtain ⟨g, rfl⟩ : ∃ g, fuel = g + 1 := ⟨fuel - 1, by simp at hlen; omega⟩
      rw [noOccurB, Bool.and_eq_true_iff] at hno
      have hfalse : (s0 :: srest).isPrefixOf (c :: rest) = false := by simpa using hno.1
      rw [splitGo, if_neg (by simp [hfalse]),
        ih (c :: acc) g hno.2 (by simp at hlen; omega)]
      simp

theorem splitGo_scan_to (s0 : Char) (srest : List Char) :
    ∀ x, (∀ c ∈ x, ¬ c = s0) → ∀ t acc fuel, x.length + t.length ≤ fuel →
    (s0 :: srest).isPrefixOf t = true →
    splitGo s0 srest fuel (x ++ t) acc =
      (acc.reverse ++ x) :: splitGo s0 srest (fuel - x.length - 1) (t.drop (srest.length + 1)) [] := by
  intro x
  induction x with
  | nil =>
      intro _ t acc fuel hlen hpre
      cases t with
      | nil => simp [List.isPrefixOf] at hpre
      | cons c rest =>
          obtain ⟨g, rfl⟩ : ∃ g, fuel = g + 1 := ⟨fuel - 1, by simp at hlen; omega⟩
          rw [List.nil_append, splitGo, if_pos hpre]
          simp [List.drop_drop]
  | cons c0 x2 ih =>
      intro hx t acc fuel hlen hpre
      obtain ⟨g, rfl⟩ : ∃ g, fuel = g + 1 := ⟨fuel - 1, by simp at hlen; omega⟩
      have hc0 : ¬ c0 = s0 := hx c0 (by simp)
      rw [List.cons_append, splitGo,
        if_neg (by simp [List.isPrefixOf]; intro he; exact absurd he.symm hc0),
        ih (fun c hc => hx c (by simp [hc])) t (c0 :: acc) g (by simp at hlen; omega) hpre]
      simp

theorem noOccurB_append (s0 : Char) (srest : List Char) (x t : List Char)
    (hx : ∀ c ∈ x, ¬ c = s0) (ht : noOccurB (s0 :: srest) t = true) :
    noOccurB (s0 :: srest) (x ++ t) = true := by
  induction x with
  | nil => simpa using ht
  | cons c0 x2 ih =>
      rw [List.cons_append, noOccurB, Bool.and_eq_true_iff]
      constructor
      · have hc0 : ¬ c0 = s0 := hx c0 (by simp)
        simp [List.isPrefixOf]
        exact Or.inl (fun he => hc0 he.symm)
      · exact ih (fun c hc => hx c (by simp [hc]))

theorem pyStripL_sandwich (c0 cN : Char) (h0 : pyIsSpace c0 = false)
    (hN : pyIsSpace cN = false) (M : List Char) :
    pyStripL (c0 :: M ++ [cN]) = c0 :: M ++ [cN] := by
  simp [pyStripL, List.dropWhile_cons, h0, hN]

theorem pyStripL_nl_sandwich (c0 cN : Char) (h0 : pyIsSpace c0 = false)
    (hN : pyIsSpace cN = false) (M : List Char) :
    pyStripL ('\n' :: ((c0 :: M ++ [cN]) ++ ['\n'])) = c0 :: M ++ [cN] := by
  have hnl : pyIsSpace '\n' = true := by decide
  simp [pyStripL, List.dropWhile_cons, h0, hN, hnl]

theorem mk_data (X : List Char) : (String.mk X).data = X := rfl

/-- Characters of the serialization body between the fences: no backtick. -/
theorem fenced_body_no_backtick (l : List (List (String × String))) (hnf : NoFenceList l) :
    ∀ c ∈ '\n' :: dumpsRecords l ++ ['\n'], ¬ c = '`' := by
  intro c hc
  simp at hc
  rcases hc with hc | hc | hc
  · subst hc; decide
  · exact fun he => backtick_notin_dumps l hnf (he ▸ hc)
  · subst hc; decide

set_option maxHeartbeats 1000000 in
/-- The response pre-clean strips the fences and recovers the
serialization exactly. -/
theorem cleanContent_fenced (l : List (List (String × String))) (hnf : NoFenceList l) :
    cleanContent (String.mk (fencedData l)) = String.mk (dumpsRecords l) := by
  have hdumps_shape : dumpsRecords l = '[' :: serObjsSep l ++ [']'] := by
    simp [dumpsRecords]
  -- Step 1: the outer strip is the identity.
  have hstrip1 : pyStrip (String.mk (fencedData l)) = String.mk (fencedData l) := by
    simp only [pyStrip, mk_data]
    have hsh : fencedData l =
        '`' :: ('`' :: '`' :: 'j' :: 's' :: 'o' :: 'n' :: '\n' ::
          (dumpsRecords l ++ ['\n', '`', '`'])) ++ ['`'] := by
      simp [fencedData]
    rw [hsh, pyStripL_sandwich '`' '`' (by decide) (by decide)]
  -- Step 2: the content starts with the json fence.
  have hstarts : pyStartsWith (String.mk (fencedData l))
      (String.mk ['`', '`', '`', 'j', 's', 'o', 'n']) = true := by
    rw [pyStartsWith]
    refine List.isPrefixOf_iff_prefix.mpr ?_
    have hsh : fencedData l = ['`', '`', '`', 'j', 's', 'o', 'n'] ++
        ('\n' :: (dumpsRecords l ++ '\n' :: '`' :: '`' :: '`' :: [])) := by
      simp [fencedData]
    rw [mk_data, mk_data, hsh]
    exact List.prefix_append _ _
  -- Step 3: the first split cuts after the opening fence.
  have hT : fencedData l = ['`', '`', '`', 'j', 's', 'o', 'n'] ++
      (('\n' :: dumpsRecords l ++ ['\n']) ++ ['`', '`', '`']) := by
    simp [fencedData]
  have hsplit1 : pySplit (String.mk (fencedData l))
      (String.mk ['`', '`', '`', 'j', 's', 'o', 'n']) =
      [String.mk [], String.mk (('\n' :: dumpsRecords l ++ ['\n']) ++ ['`', '`', '`'])] := by
    simp only [pySplit, mk_data]
    have h1 := splitGo_scan_to '`' ['`', '`', 'j', 's', 'o', 'n'] [] (by simp)
      (fencedData l) [] (fencedData l).length (by simp)
      (by rw [hT]; simp [List.isPrefixOf])
    simp only [List.nil_append, List.reverse_nil, Nat.sub_zero, List.length_nil] at h1
    have h2 : List.drop (['`', '`', 'j', 's', 'o', 'n'].length + 1) (fencedData l) =
        ('\n' :: dumpsRecords l ++ ['\n']) ++ ['`', '`', '`'] := by
      rw [hT]
      simp
    rw [h1, h2, splitGo_noOccur '`' ['`', '`', 'j', 's', 'o', 'n'] _ []
      ((fencedData l).length - 1)
      (noOccurB_append _ _ _ _ (fenced_body_no_backtick l hnf) (by decide))
      (by rw [hT]; simp)]
    simp
  -- Step 4: the second split cuts before the closing fence.
  have hsplit2 : pySplit (String.mk (('\n' :: dumpsRecords l ++ ['\n']) ++ ['`', '`', '`']))
      (String.mk ['`', '`', '`']) =
      [String.mk ('\n' :: dumpsRecords l ++ ['\n']), String.mk []] := by
    simp only [pySplit, mk_data]
    have h1 := splitGo_scan_to '`' ['`', '`'] ('\n' :: dumpsRecords l ++ ['\n'])
      (fenced_body_no_backtick l hnf) ['`', '`', '`'] []
      ((('\n' :: dumpsRecords l ++ ['\n']) ++ ['`', '`', '`'])).length
      (by simp) (by simp [List.isPrefixOf])
    rw [h1]
    simp [splitGo]
  -- Assemble.
  rw [cleanContent]
  have hjson : ("```json" : String) = String.mk ['`', '`', '`', 'j', 's', 'o', 'n'] := rfl
  have hfence : ("```" : String) = String.mk ['`', '`', '`'] := rfl
  simp only [hstrip1, hjson, hfence, hstarts, if_pos, hsplit1,
    List.getD_cons_succ, List.getD_cons_zero, hsplit2, List.headD_cons]
  simp only [pyStrip, mk_data]
  have hsh2 : ('\n' :: dumpsRecords l ++ ['\n']) =
      '\n' :: (('[' :: serObjsSep l ++ [']']) ++ ['\n']) := by
    rw [← hdumps_shape]
    simp
  rw [hsh2, pyStripL_nl_sandwich '[' ']' (by decide) (by decide), ← hdumps_shape]

/-! ### The prose embedding and strategy 3 -/

theorem firstArraySpan_skip (pre : List Char) (hpre : ¬ '[' ∈ pre) (X : List Char) :
    firstArraySpan (pre ++ X) = firstArraySpan X := by
  induction pre with
  | nil => rfl
  | cons c rest ih =>
      have hc : ¬ c = '[' := fun he => hpre (by simp [he])
      rw [List.cons_append, firstArraySpan.eq_def]
      split
      · simp_all
      · simp_all
      · rename_i c2 rest2 h1 heq
        injection heq with ha hb
        rw [← hb]
        exact ih (fun hm => hpre (by simp [hm]))

theorem findIdx?_skip {α : Type} (p : α → Bool) (A : List α)
    (hA : ∀ c ∈ A, p c = false) (b : α) (hb : p b = true) (Z : List α) :
    ∀ i, (A ++ b :: Z).findIdx? p i = some (A.length + i) := by
  induction A with
  | nil => intro i; simp [hb]
  | cons a A2 ih =>
      intro i
      rw [List.cons_append, List.findIdx?_cons, if_neg (by simp [hA a (by simp)]),
        ih (fun c hc => hA c (by simp [hc])) (i + 1)]
      simp
      omega

set_option maxHeartbeats 1000000 in
/-- Strategy 3 extracts exactly the serialized array out of prose. -/
theorem strategy3_prose (l : List (List (String × String))) (hv : ValidRecList l)
    (pre post : List Char) (hpre : ¬ '[' ∈ pre) (hpost : ¬ ']' ∈ post) :
    strategy3 (String.mk (pre ++ (dumpsRecords l ++ post))) = some (jsonOf l) := by
  rw [strategy3, mk_data, firstArraySpan_skip pre hpre]
  have hsh : dumpsRecords l ++ post = '[' :: ((serObjsSep l ++ [']']) ++ post) := by
    simp [dumpsRecords]
  rw [hsh, firstArraySpan]
  have hrev : ((serObjsSep l ++ [']']) ++ post).reverse =
      post.reverse ++ ']' :: (serObjsSep l).reverse := by
    simp
  have hfind := findIdx?_skip (fun c => c = ']') post.reverse
    (by
      intro c hc
      simp at hc ⊢
      exact fun he => hpost (he ▸ hc))
    ']' (by simp) (serObjsSep l).reverse 0
  rw [hrev, hfind]
  have htake : ((serObjsSep l ++ [']']) ++ post).take
      (((serObjsSep l ++ [']']) ++ post).length - (post.reverse.length + 0)) =
      serObjsSep l ++ [']'] := by
    have hlen : ((serObjsSep l ++ [']']) ++ post).length - (post.reverse.length + 0) =
        (serObjsSep l ++ [']']).length := by
      simp
      omega
    rw [hlen, List.take_left]
  simp only [htake]
  have hd : '[' :: (serObjsSep l ++ [']']) = dumpsRecords l := by
    simp [dumpsRecords]
  rw [hd]
  exact loads_dumps l hv

/-- Recovery falls through to strategy 3 on prose-embedded arrays. -/
theorem recovery_prose (l : List (List (String × String))) (hv : ValidRecList l)
    (pre post : List Char) (hpre : ¬ '[' ∈ pre) (hpost : ¬ ']' ∈ post)
    (h1 : strategy1 (String.mk (pre ++ (dumpsRecords l ++ post))) = none)
    (h2 : strategy2 (String.mk (pre ++ (dumpsRecords l ++ post))) = none) :
    parse_json_with_recovery (String.mk (pre ++ (dumpsRecords l ++ post))) = .ok (jsonOf l) := by
  simp only [parse_json_with_recovery, h1, h2,
    strategy3_prose l hv pre post hpre hpost]

/-- C5 (counterexample): the round trip fails as stated.  The valid
record list whose single value is the string comma-bracket "X,]"
serializes fine, but with one trailing comma injected before the final
bracket, the repair regex of strategy 2 also fires inside the string
literal: recovery returns the record with value "X]", not the original
list. -/
theorem c5_round_trip_counterexample :
    ValidRecord [("software", "X,]")] ∧
    parse_json_with_recovery (String.mk (injectArrayTC [[("software", "X,]")]])) =
      .ok (Json.arr [Json.obj [("software", Json.str "X]")]]) ∧
    ¬ parse_json_with_recovery (String.mk (injectArrayTC [[("software", "X,]")]])) =
      .ok (jsonOf [[("software", "X,]")]]) := by
  refine ⟨by decide, by decide, by decide⟩

/-- C5 (amended): recovery round-trips.  Strategy 1 parses the exact
serialization of any valid record list.  With one trailing comma injected
before a structural closing bracket (the final bracket of the array, or
the closing brace of any one object), strategy 2 restores the original
list provided no serialized string contains a comma followed by optional
whitespace and a closing bracket (otherwise the repair regex, which is
blind to string literals, also rewrites the value — see the
counterexample).  The fenced-code-block wrapping is stripped by the
pre-clean back to the serialization when no string contains a backtick.
And for the array embedded in prose with no opening bracket before it
and no closing bracket after it, strategy 3 extracts exactly the array
whenever strategies 1 and 2 fail on the prose text. -/
theorem c5_round_trip_amended (l : List (List (String × String))) (hv : ValidRecList l) :
    parse_json_with_recovery (String.mk (dumpsRecords l)) = .ok (jsonOf l) ∧
    (TCSafeList l → parse_json_with_recovery (String.mk (injectArrayTC l)) = .ok (jsonOf l)) ∧
    (TCSafeList l → ∀ j, j < l.length →
      parse_json_with_recovery (String.mk (injectObjTC j l)) = .ok (jsonOf l)) ∧
    (NoFenceList l →
      parse_json_with_recovery (cleanContent (String.mk (fencedData l))) = .ok (jsonOf l)) ∧
    (∀ pre post, ¬ '[' ∈ pre → ¬ ']' ∈ post →
      strategy1 (String.mk (pre ++ (dumpsRecords l ++ post))) = none →
      strategy2 (String.mk (pre ++ (dumpsRecords l ++ post))) = none →
      parse_json_with_recovery (String.mk (pre ++ (dumpsRecords l ++ post))) =
        .ok (jsonOf l)) := by
  refine ⟨recovery_dumps l hv, fun hts => recovery_injArr l hv hts,
    fun hts j hj => recovery_injObj j l hv hts hj,
    fun hnf => ?_,
    fun pre post hpre hpost h1 h2 => recovery_prose l hv pre post hpre hpost h1 h2⟩
  rw [cleanContent_fenced l hnf]
  exact recovery_dumps l hv

/-- C5 (witness): the amended theorem applied to a concrete record list,
with every hypothesis discharged on concrete inputs. -/
theorem c5_round_trip_amended_witness :
    parse_json_with_recovery (String.mk (dumpsRecords [[("software", "A")]])) =
      .ok (jsonOf [[("software", "A")]]) ∧
    parse_json_with_recovery (String.mk (injectArrayTC [[("software", "A")]])) =
      .ok (jsonOf [[("software", "A")]]) ∧
    parse_json_with_recovery (String.mk (injectObjTC 0 [[("software", "A")]])) =
      .ok (jsonOf [[("software", "A")]]) ∧
    parse_json_with_recovery (cleanContent (String.mk (fencedData [[("software", "A")]]))) =
      .ok (jsonOf [[("software", "A")]]) ∧
    parse_json_with_recovery (String.mk (("Text: ").data ++
      (dumpsRecords [[("software", "A")]] ++ (".").data))) =
      .ok (jsonOf [[("software", "A")]]) := by
  have h := c5_round_trip_amended [[("software", "A")]] (by decide)
  exact ⟨h.1, h.2.1 (by decide), h.2.2.1 (by decide) 0 (by decide),
    h.2.2.2.1 (by decide),
    h.2.2.2.2 ("Text: ").data (".").data (by decide) (by decide) (by decide) (by decide)⟩

/-! ## Claim C1: orchestrator resumability

The pure specification of a run: walking the flattened work items
(district, round, pdf), the processed set grows and records are yielded
exactly as `process_pdf` does, independent of checkpointing. -/

/-- A flattened work item: district name, round number, PDF. -/
def workId (w : String × String × PdfFile) : String :=
  get_pdf_identifier w.1 w.2.1 w.2.2.name

/-- The processed set after one work item. -/
def procAfter (procd : List String) (w : String × String × PdfFile) : List String :=
  if workId w ∈ procd then procd
  else match w.2.2.pages with
       | none => procd
       | some _ => procd ++ [workId w]

/-- The records one work item yields. -/
def recsOf (procd : List String) (w : String × String × PdfFile) : List SoftwareRecord :=
  if workId w ∈ procd then []
  else match w.2.2.pages with
       | none => []
       | some _ => pdfRecords w.1 w.2.1 w.2.2

/-- The processed set after a work list. -/
def procAll (procd : List String) (ws : List (String × String × PdfFile)) : List String :=
  ws.foldl procAfter procd

/-- The records a work list yields from a given processed set. -/
def recsAll (procd : List String) : List (String × String × PdfFile) →
    List SoftwareRecord
  | [] => []
  | w :: ws => recsOf procd w ++ recsAll (procAfter procd w) ws

/-- The flattened work of a district list. -/
def flatD (limit : Option Nat) (ds : List District) : List (String × String × PdfFile) :=
  ds.flatMap (fun d => (districtWork d limit).map (fun rp => (d.name, rp)))

theorem procAll_append (p : List String) (xs ys : List (String × String × PdfFile)) :
    procAll p (xs ++ ys) = procAll (procAll p xs) ys := by
  simp [procAll, List.foldl_append]

theorem recsAll_append (p : List String) (xs ys : List (String × String × PdfFile)) :
    recsAll p (xs ++ ys) = recsAll p xs ++ recsAll (procAll p xs) ys := by
  induction xs generalizing p with
  | nil => simp [recsAll, procAll]
  | cons w xs2 ih =>
      simp only [List.cons_append, recsAll, List.append_assoc, List.append_eq]
      rw [ih (procAfter p w)]
      have h2 : procAll p (w :: xs2) = procAll (procAfter p w) xs2 := by
        simp [procAll]
      rw [h2]

theorem mem_procAfter (p : List String) (w : String × String × PdfFile) (a : String)
    (h : a ∈ p) : a ∈ procAfter p w := by
  rw [procAfter]
  split
  · exact h
  · split
    · exact h
    · simp [h]

theorem mem_procAll (ws : List (String × String × PdfFile)) :
    ∀ (p : List String) (a : String), a ∈ p → a ∈ procAll p ws := by
  induction ws with
  | nil => intro p a h; simpa [procAll] using h
  | cons w ws2 ih =>
      intro p a h
      rw [procAll, List.foldl_cons]
      exact ih (procAfter p w) a (mem_procAfter p w a h)

/-- Refolding already-folded work is a no-op: nothing new is processed
and no record is produced. -/
theorem refold_noop (ws : List (String × String × PdfFile)) :
    ∀ p, recsAll (procAll p ws) ws = [] ∧ procAll (procAll p ws) ws = procAll p ws := by
  induction ws with
  | nil => intro p; simp [recsAll, procAll]
  | cons w ws2 ih =>
      intro p
      have hP : procAll p (w :: ws2) = procAll (procAfter p w) ws2 := by
        simp [procAll]
      have hkey : procAfter (procAll p (w :: ws2)) w = procAll p (w :: ws2) ∧
          recsOf (procAll p (w :: ws2)) w = [] := by
        by_cases hin : workId w ∈ p
        · have hm : workId w ∈ procAll p (w :: ws2) := by
            rw [hP]
            exact mem_procAll ws2 _ _ (mem_procAfter p w _ hin)
          exact ⟨by rw [procAfter, if_pos hm], by rw [recsOf, if_pos hm]⟩
        · cases hpg : w.2.2.pages with
          | none =>
              constructor
              · rw [procAfter]
                split
                · rfl
                · rw [hpg]
              · rw [recsOf]
                split
                · rfl
                · rw [hpg]
          | some pages =>
              have hp1 : procAfter p w = p ++ [workId w] := by
                rw [procAfter, if_neg hin, hpg]
              have hm : workId w ∈ procAll p (w :: ws2) := by
                rw [hP]
                refine mem_procAll ws2 _ _ ?_
                rw [hp1]
                simp
              exact ⟨by rw [procAfter, if_pos hm], by rw [recsOf, if_pos hm]⟩
      constructor
      · rw [recsAll, hkey.2, hkey.1, List.nil_append, hP]
        exact (ih (procAfter p w)).1
      · have hstep : procAll (procAll p (w :: ws2)) (w :: ws2) =
            procAll (procAfter (procAll p (w :: ws2)) w) ws2 := by
          simp [procAll]
        rw [hstep, hkey.1, hP]
        exact (ih (procAfter p w)).2

/-- What one `pdfStep` does, stated against the pure specification. -/
theorem pdfStep_abs (d : String) (rp : String × PdfFile) (s : OrchState)
    (ar : List SoftwareRecord) :
    (pdfStep d (s, ar) rp).1.processed_pdfs = procAfter s.processed_pdfs (d, rp)
    ∧ (pdfStep d (s, ar) rp).2 = ar ++ recsOf s.processed_pdfs (d, rp)
    ∧ (pdfStep d (s, ar) rp).1.main_csv = s.main_csv
    ∧ (pdfStep d (s, ar) rp).1.stats.districts_processed =
        s.stats.districts_processed := by
  obtain ⟨r, pdf⟩ := rp
  by_cases hskip : is_pdf_already_processed s d r pdf.name
  · have hm : workId (d, (r, pdf)) ∈ s.processed_pdfs := hskip
    simp [pdfStep, process_pdf_skip s d r pdf hskip, procAfter, recsOf, hm]
  · have hm : ¬ get_pdf_identifier d r pdf.name ∈ s.processed_pdfs := hskip
    cases hpg : pdf.pages with
    | none =>
        simp only [pdfStep, process_pdf_unopenable s d r pdf hskip hpg,
          procAfter, recsOf, workId]
        rw [if_neg hm, if_neg hm, hpg]
        simp
    | some pages =>
        have ho := process_pdf_open s d r pdf pages hskip hpg
        rcases hpp : process_pdf s d r pdf with ⟨s2, recs⟩
        rw [hpp] at ho
        simp only at ho
        simp only [pdfStep, hpp, procAfter, recsOf, workId]
        rw [if_neg hm, if_neg hm, hpg]
        exact ⟨ho.2.1, by rw [ho.1], ho.2.2.1, ho.2.2.2.1⟩

/-- The per-district PDF loop against the pure specification. -/
theorem pdfLoop_abs (d : String) :
    ∀ (ws : List (String × PdfFile)) (s : OrchState) (ar : List SoftwareRecord),
    (ws.foldl (pdfStep d) (s, ar)).1.processed_pdfs =
        procAll s.processed_pdfs (ws.map (fun rp => (d, rp)))
    ∧ (ws.foldl (pdfStep d) (s, ar)).2 =
        ar ++ recsAll s.processed_pdfs (ws.map (fun rp => (d, rp)))
    ∧ (ws.foldl (pdfStep d) (s, ar)).1.main_csv = s.main_csv
    ∧ (ws.foldl (pdfStep d) (s, ar)).1.stats.districts_processed =
        s.stats.districts_processed := by
  intro ws
  induction ws with
  | nil => intro s ar; simp [procAll, recsAll]
  | cons rp ws2 ih =>
      intro s ar
      have hstep := pdfStep_abs d rp s ar
      have ihs := ih (pdfStep d (s, ar) rp).1 (pdfStep d (s, ar) rp).2
      rw [Prod.mk.eta] at ihs
      simp only [List.foldl_cons, List.map_cons, recsAll]
      have hproc : procAll s.processed_pdfs ((d, rp) :: ws2.map (fun rp => (d, rp))) =
          procAll (procAfter s.processed_pdfs (d, rp)) (ws2.map (fun rp => (d, rp))) := by
        simp [procAll]
      refine ⟨?_, ?_, ?_, ?_⟩
      · rw [ihs.1, hstep.1, hproc]
      · rw [ihs.2.1, hstep.2.1, hstep.1, List.append_assoc]
      · rw [ihs.2.2.1, hstep.2.2.1]
      · rw [ihs.2.2.2, hstep.2.2.2]

/-- One district of the orchestrator loop against the pure
specification: the work is processed, the counter advances once, the CSV
either stays or receives exactly the accumulated records, and a
checkpoint synchronizes the persisted tracker. -/
theorem processDistrict_abs (limit : Option Nat) (d : District) (s : OrchState)
    (ar : List SoftwareRecord) :
    (processDistrict limit (s, ar) d).1.processed_pdfs =
        procAll s.processed_pdfs ((districtWork d limit).map (fun rp => (d.name, rp)))
    ∧ (processDistrict limit (s, ar) d).2 =
        ar ++ recsAll s.processed_pdfs ((districtWork d limit).map (fun rp => (d.name, rp)))
    ∧ (processDistrict limit (s, ar) d).1.stats.districts_processed =
        s.stats.districts_processed + 1
    ∧ ((processDistrict limit (s, ar) d).1.main_csv = s.main_csv ∨
        (processDistrict limit (s, ar) d).1.main_csv =
          s.main_csv ++ (ar ++ recsAll s.processed_pdfs
            ((districtWork d limit).map (fun rp => (d.name, rp)))))
    ∧ ((s.stats.districts_processed + 1) % 5 = 0 →
        (processDistrict limit (s, ar) d).1.persisted_pdfs =
          (processDistrict limit (s, ar) d).1.processed_pdfs)
    ∧ ((s.stats.districts_processed + 1) % 5 = 0 →
        (processDistrict limit (s, ar) d).1.main_csv =
          s.main_csv ++ (ar ++ recsAll s.processed_pdfs
            ((districtWork d limit).map (fun rp => (d.name, rp))))) := by
  have hl := pdfLoop_abs d.name (districtWork d limit) s ar
  rcases hfold : (districtWork d limit).foldl (pdfStep d.name) (s, ar) with ⟨s1, ar1⟩
  rw [hfold] at hl
  simp only at hl
  simp only [processDistrict, hfold]
  by_cases hchk : (s1.stats.districts_processed + 1) % 5 = 0
  · simp only [hchk, if_pos, ite_true, save_intermediate_results, save_processed_pdfs]
    by_cases hemp : ar1.isEmpty
    · have har1 : ar1 = [] := by simpa [List.isEmpty_iff] using hemp
      simp only [hemp, ite_true]
      refine ⟨hl.1, hl.2.1, by simp [hl.2.2.2], ?_, ?_, ?_⟩
      · exact Or.inl (by simp [hl.2.2.1])
      · intro h5; simp
      · intro h5
        have : ar ++ recsAll s.processed_pdfs
            ((districtWork d limit).map (fun rp => (d.name, rp))) = [] := by
          rw [← hl.2.1, har1]
        rw [this]
        simp [hl.2.2.1]
    · simp only [hemp, ite_false]
      refine ⟨hl.1, hl.2.1, by simp [hl.2.2.2], ?_, ?_, ?_⟩
      · refine Or.inr ?_
        simp [hl.2.2.1, hl.2.1]
      · intro h5; simp
      · intro h5
        simp [hl.2.2.1, hl.2.1]
  · have hchk2 : ¬ (s1.stats.districts_processed + 1) % 5 = 0 := hchk
    simp only [hchk2, ite_false]
    refine ⟨hl.1, hl.2.1, by simp [hl.2.2.2], Or.inl (by simp [hl.2.2.1]), ?_, ?_⟩
    · intro h5
      rw [hl.2.2.2] at hchk2
      exact absurd h5 hchk2
    · intro h5
      rw [hl.2.2.2] at hchk2
      exact absurd h5 hchk2

/-- The district fold against the pure specification. -/
theorem districtFold_abs (limit : Option Nat) :
    ∀ (ds : List District) (s : OrchState) (ar : List SoftwareRecord),
    (ds.foldl (processDistrict limit) (s, ar)).1.processed_pdfs =
        procAll s.processed_pdfs (flatD limit ds)
    ∧ (ds.foldl (processDistrict limit) (s, ar)).2 =
        ar ++ recsAll s.processed_pdfs (flatD limit ds)
    ∧ (ds.foldl (processDistrict limit) (s, ar)).1.stats.districts_processed =
        s.stats.districts_processed + ds.length
    ∧ (∀ rec, rec ∈ (ds.foldl (processDistrict limit) (s, ar)).1.main_csv →
        rec ∈ s.main_csv ∨ rec ∈ ar ++ recsAll s.processed_pdfs (flatD limit ds))
    ∧ (∀ rec, rec ∈ s.main_csv →
        rec ∈ (ds.foldl (processDistrict limit) (s, ar)).1.main_csv) := by
  intro ds
  induction ds with
  | nil =>
      intro s ar
      refine ⟨by simp [flatD, procAll], by simp [flatD, recsAll], by simp, ?_, ?_⟩
      · intro rec h; exact Or.inl (by simpa using h)
      · intro rec h; simpa using h
  | cons d ds2 ih =>
      intro s ar
      have hd := processDistrict_abs limit d s ar
      rcases hP : processDistrict limit (s, ar) d with ⟨s1, ar1⟩
      rw [hP] at hd
      simp only at hd
      have ihs := ih s1 ar1
      have hflat : flatD limit (d :: ds2) =
          (districtWork d limit).map (fun rp => (d.name, rp)) ++ flatD limit ds2 := by
        simp [flatD]
      have hrw : ar ++ recsAll s.processed_pdfs (flatD limit (d :: ds2)) =
          ar1 ++ recsAll s1.processed_pdfs (flatD limit ds2) := by
        rw [hflat, recsAll_append, hd.2.1, hd.1, List.append_assoc]
      simp only [List.foldl_cons, hP]
      refine ⟨?_, ?_, ?_, ?_, ?_⟩
      · rw [ihs.1, hflat, procAll_append, hd.1]
      · rw [ihs.2.1, hrw]
      · rw [ihs.2.2.1, hd.2.2.1]
        simp
        omega
      · intro rec hmem
        rcases ihs.2.2.2.1 rec hmem with hcsv | hrec
        · rcases hd.2.2.2.1 with he | he
          · rw [he] at hcsv
            exact Or.inl hcsv
          · rw [he] at hcsv
            rcases List.mem_append.mp hcsv with h1 | h1
            · exact Or.inl h1
            · refine Or.inr ?_
              rcases List.mem_append.mp h1 with h2 | h2
              · simp [h2]
              · rw [hflat, recsAll_append]
                simp [h2]
        · refine Or.inr ?_
          rw [hrw]
          exact hrec
      · intro rec hmem
        refine ihs.2.2.2.2 rec ?_
        rcases hd.2.2.2.1 with he | he
        · rw [he]; exact hmem
        · rw [he]; simp [hmem]

/-- A full `process_all_districts` run: a record row is in the final CSV
iff it was already there or the run's pure record yield contains it. -/
theorem run_abs (tree : List District) (limit : Option Nat) (s0 : OrchState) :
    ∀ rec, rec ∈ (process_all_districts tree limit s0).main_csv ↔
      (rec ∈ s0.main_csv ∨
        rec ∈ recsAll s0.processed_pdfs (flatD limit (sortDistricts tree))) := by
  intro rec
  have hf := districtFold_abs limit (sortDistricts tree) s0 []
  rcases hF : (sortDistricts tree).foldl (processDistrict limit) (s0, []) with ⟨sf, arf⟩
  rw [hF] at hf
  simp only at hf
  simp only [process_all_districts, hF, save_final_results, save_processed_pdfs]
  by_cases hemp : arf.isEmpty
  · have harf : arf = [] := by simpa [List.isEmpty_iff] using hemp
    have hrecs : recsAll s0.processed_pdfs (flatD limit (sortDistricts tree)) = [] := by
      have := hf.2.1
      rw [harf] at this
      exact (List.append_eq_nil.mp this.symm).2
    simp only [hemp, ite_true]
    constructor
    · intro h
      rcases hf.2.2.2.1 rec h with h1 | h1
      · exact Or.inl h1
      · rw [hrecs] at h1
        simp at h1
    · rintro (h | h)
      · exact hf.2.2.2.2 rec h
      · rw [hrecs] at h
        simp at h
  · simp only [hemp, ite_false]
    constructor
    · intro h
      have h2 : rec ∈ sf.main_csv ∨ rec ∈ arf := by simpa using h
      rcases h2 with h3 | h3
      · rcases hf.2.2.2.1 rec h3 with h1 | h1
        · exact Or.inl h1
        · exact Or.inr (by simpa using h1)
      · refine Or.inr ?_
        have hare := hf.2.1
        rw [hare] at h3
        simpa using h3
    · rintro (h | h)
      · have h2 : rec ∈ sf.main_csv := hf.2.2.2.2 rec h
        have : rec ∈ sf.main_csv ∨ rec ∈ arf := Or.inl h2
        simpa using this
      · have hare := hf.2.1
        have h2 : rec ∈ arf := by rw [hare]; simpa using h
        have : rec ∈ sf.main_csv ∨ rec ∈ arf := Or.inr h2
        simpa using this

theorem flatD_append (limit : Option Nat) (xs ys : List District) :
    flatD limit (xs ++ ys) = flatD limit xs ++ flatD limit ys := by
  simp [flatD]

/-- The interrupted run, stopped right after the checkpoint of district
`k` (where `5 ∣ k`): the tracker is persisted in sync with the processed
set, and the CSV on disk holds exactly (as a set) the records of the
first `k` districts. -/
theorem interrupted_abs (tree : List District) (limit : Option Nat) (k : Nat)
    (hk : k ≤ (sortDistricts tree).length) (h5 : k % 5 = 0) :
    (run_interrupted tree limit k initialState).processed_pdfs =
        procAll [] (flatD limit ((sortDistricts tree).take k))
    ∧ (run_interrupted tree limit k initialState).persisted_pdfs =
        (run_interrupted tree limit k initialState).processed_pdfs
    ∧ (∀ rec, rec ∈ (run_interrupted tree limit k initialState).main_csv ↔
        rec ∈ recsAll [] (flatD limit ((sortDistricts tree).take k))) := by
  cases k with
  | zero =>
      refine ⟨by simp [run_interrupted, flatD, procAll, initialState],
        by simp [run_interrupted, initialState], ?_⟩
      intro rec
      simp [run_interrupted, flatD, recsAll, initialState]
  | succ k2 =>
      have hk2 : k2 < (sortDistricts tree).length := by omega
      have htake : (sortDistricts tree).take (k2 + 1) =
          (sortDistricts tree).take k2 ++ [(sortDistricts tree)[k2]] := by
        rw [List.take_succ, List.getElem?_eq_getElem hk2]
        rfl
      have h1 := districtFold_abs limit ((sortDistricts tree).take k2) initialState []
      rcases hF : ((sortDistricts tree).take k2).foldl (processDistrict limit)
          (initialState, []) with ⟨s1, ar1⟩
      rw [hF] at h1
      simp only at h1
      simp only [initialState] at h1
      have hcount : s1.stats.districts_processed = k2 := by
        have := h1.2.2.1
        have hlen : ((sortDistricts tree).take k2).length = k2 :=
          List.length_take_of_le (by omega)
        rw [hlen] at this
        simpa [initialState] using this
      have hd := processDistrict_abs limit ((sortDistricts tree)[k2]) s1 ar1
      have hchk : (s1.stats.districts_processed + 1) % 5 = 0 := by
        rw [hcount]
        omega
      have hrun : run_interrupted tree limit (k2 + 1) initialState =
          (processDistrict limit (s1, ar1) ((sortDistricts tree)[k2])).1 := by
        rw [run_interrupted, htake, List.foldl_append, hF]
        simp
      have hflat : flatD limit ((sortDistricts tree).take (k2 + 1)) =
          flatD limit ((sortDistricts tree).take k2) ++
            ((districtWork (sortDistricts tree)[k2] limit).map
              (fun rp => ((sortDistricts tree)[k2].name, rp))) := by
        rw [htake, flatD_append]
        simp [flatD]
      refine ⟨?_, ?_, ?_⟩
      · rw [hrun, hd.1, hflat, procAll_append, h1.1]
      · rw [hrun]
        exact hd.2.2.2.2.1 hchk
      · intro rec
        have har1 : ar1 = recsAll [] (flatD limit ((sortDistricts tree).take k2)) := by
          simpa using h1.2.1
        rw [hrun, hd.2.2.2.2.2 hchk, hflat, recsAll_append, ← h1.1, ← har1]
        have hcsv0 : ∀ x, x ∈ s1.main_csv → x ∈ ar1 := by
          intro x hx
          rcases h1.2.2.2.1 x hx with hc | hc
          · simp at hc
          · rw [har1]
            simpa using hc
        constructor
        · intro h
          rcases List.mem_append.mp h with hc | hc
          · have hmem2 := hcsv0 rec hc
            exact List.mem_append.mpr (Or.inl hmem2)
          · exact hc
        · intro h
          refine List.mem_append.mpr (Or.inr ?_)
          exact h

theorem resumeState_proc (c : OrchState) :
    (resumeState c).processed_pdfs = c.persisted_pdfs := rfl

theorem resumeState_csv (c : OrchState) : (resumeState c).main_csv = c.main_csv := rfl

/-- C1 (amended): interrupting a batch run right after its `N`-th
checkpoint (district `5N`) and rerunning from the persisted tracker
state processes none of the already-marked PDFs, and the final CSV of
the resumed run contains exactly the same set of record rows as the CSV
of a single uninterrupted run — as sets, not as multisets: the periodic
checkpoints re-append the cumulative record list, so the two runs hold
the same rows with different duplication (see the counterexample). -/
theorem c1_resumability_amended (tree : List District) (limit : Option Nat) (N : Nat)
    (hN : 5 * N ≤ (sortDistricts tree).length) :
    (∀ (s : OrchState) (d r : String) (pdf : PdfFile),
      is_pdf_already_processed s d r pdf.name → process_pdf s d r pdf = (s, [])) ∧
    (∀ rec,
      rec ∈ (process_all_districts tree limit
        (resumeState (run_interrupted tree limit (5 * N) initialState))).main_csv ↔
      rec ∈ (process_all_districts tree limit initialState).main_csv) := by
  constructor
  · intro s d r pdf h
    exact process_pdf_skip s d r pdf h
  · intro rec
    have hi := interrupted_abs tree limit (5 * N) hN (by omega)
    have hr1 := run_abs tree limit
      (resumeState (run_interrupted tree limit (5 * N) initialState)) rec
    have hr2 := run_abs tree limit initialState rec
    have hflat2 : flatD limit (sortDistricts tree) =
        flatD limit ((sortDistricts tree).take (5 * N)) ++
          flatD limit ((sortDistricts tree).drop (5 * N)) := by
      rw [← flatD_append]
      exact congrArg (flatD limit) (List.take_append_drop _ _).symm
    have hP := refold_noop (flatD limit ((sortDistricts tree).take (5 * N))) []
    rw [hr1, hr2, resumeState_csv, resumeState_proc, hi.2.1, hi.1, hi.2.2 rec, hflat2]
    simp only [recsAll_append, hP.1, hP.2, List.nil_append]
    simp [initialState, List.mem_append]

/-- One single-page district whose page yields one record. -/
def cexDistrict (n v : String) : District :=
  ⟨n, [⟨"R1", [⟨"a.pdf", some [⟨true, [ApiOutcome.response v]⟩]⟩]⟩]⟩

/-- Six districts, one record each: a single run checkpoints after the
5th district (re-appending the first five records) and then саves all
six, while an interrupted-plus-resumed run does not duplicate them. -/
def cexTree : List District :=
  [cexDistrict "D1" "[\x7b\"software\": \"S1\"\x7d]",
   cexDistrict "D2" "[\x7b\"software\": \"S2\"\x7d]",
   cexDistrict "D3" "[\x7b\"software\": \"S3\"\x7d]",
   cexDistrict "D4" "[\x7b\"software\": \"S4\"\x7d]",
   cexDistrict "D5" "[\x7b\"software\": \"S5\"\x7d]",
   cexDistrict "D6" "[\x7b\"software\": \"S6\"\x7d]"]

/-- C1 (counterexample): over six one-record districts, the single
uninterrupted run ends with 11 CSV rows (the checkpoint after district 5
appends the cumulative five records, the final save appends all six),
while interrupting right after that checkpoint and resuming yields 6
rows — the two tables are not permutations of each other, refuting the
equal-up-to-ordering claim. -/
theorem c1_resumability_counterexample :
    (process_all_districts cexTree none initialState).main_csv.length = 11 ∧
    (process_all_districts cexTree none
      (resumeState (run_interrupted cexTree none 5 initialState))).main_csv.length = 6 ∧
    ¬ List.Perm
      (process_all_districts cexTree none
        (resumeState (run_interrupted cexTree none 5 initialState))).main_csv
      (process_all_districts cexTree none initialState).main_csv := by
  refine ⟨by decide, by decide, fun h => absurd h.length_eq (by decide)⟩

/-- C1 (witness): the amended theorem applied to the concrete
six-district tree with one checkpoint. -/
theorem c1_resumability_amended_witness :
    (∀ (s : OrchState) (d r : String) (pdf : PdfFile),
      is_pdf_already_processed s d r pdf.name → process_pdf s d r pdf = (s, [])) ∧
    (∀ rec,
      rec ∈ (process_all_districts cexTree none
        (resumeState (run_interrupted cexTree none (5 * 1) initialState))).main_csv ↔
      rec ∈ (process_all_districts cexTree none initialState).main_csv) :=
  c1_resumability_amended cexTree none 1 (by decide)

end PdfExtract
